import Mathlib

/-!
# DlgSystem: dialogue graph, virtual-parent resolution and participant data

A shallow embedding of the structural operations of `UDlgDialogue` and of its refresh
`UpdateAndRefreshData` (`Source/DlgSystem/DlgDialogue.cpp`), of the Speech and End nodes
(`Source/DlgSystem/Nodes/DlgNode_Speech.cpp`, `DlgNode_End.h`) and of the node data they
read (`Source/DlgSystem/Nodes/DlgNode.h`).

Conventions of the embedding:
* `int32` indices are `Int`; `INDEX_NONE` is `-1`.
* `TArray<T>` is `List T`; `TArray<UDlgNode*>` is `List (Option UDlgNode)`, a null
  pointer being `none`.
* `TMap<K, V>` is an association list with at most one pair per key; `TSet<T>` is a list
  without repetition, in insertion order.
* `FString` is the list of its UTF-16 code units; a `float` is the 32 bits of its encoding,
  and the `float` arithmetic is a parameter (`FFloatArithmetic`).
* a member function that changes the object returns the new object.
* a dereference of a null pointer makes the function return `none` (or an abort value).
* code that is not among the sources is a parameter (`FDlgNodeEnv`, `FDlgRefreshEnv`) or is
  modelled from the specification, which its comment then says.
-/

namespace DlgSystem

/-! ## Engine value types -/

/-- The engine sentinel for "no index". -/
def INDEX_NONE : Int := -1

/-- The engine's 128-bit identifier, four 32-bit words. -/
structure FGuid where
  A : Nat := 0
  B : Nat := 0
  C : Nat := 0
  D : Nat := 0
deriving DecidableEq, Repr

namespace FGuid

/-- The default constructed `FGuid{}`: every word is zero. -/
def zero : FGuid := {}

/-- Engine `FGuid::IsValid`: some bit of some word is set. -/
def IsValid (g : FGuid) : Bool := (g.A ||| g.B ||| g.C ||| g.D) != 0

end FGuid

/-- A `float` value, given by the 32 bits of its IEEE 754 encoding. -/
structure FFloat where
  Bits : Nat
deriving DecidableEq, Repr

/-- The literal `3.f`. -/
def FFloat.Three : FFloat := ⟨0x40400000⟩

/-- The literal `10.0f`. -/
def FFloat.Ten : FFloat := ⟨0x41200000⟩

/-- The `float` arithmetic of the machine that the sources use, taken as parameters:
the conversion of an `int32`, the division, the multiplication, `FMath::CeilToFloat` and the
comparison `>`. -/
structure FFloatArithmetic where
  OfInt32 : Int → FFloat
  Divide : FFloat → FFloat → FFloat
  Multiply : FFloat → FFloat → FFloat
  CeilToFloat : FFloat → FFloat
  Greater : FFloat → FFloat → Bool

/-- Engine `TArray::IsValidIndex`: `Index >= 0 && Index < ArrayNum`. -/
def TArray.IsValidIndex {α : Type} (a : List α) (Index : Int) : Bool :=
  decide (0 ≤ Index) && decide (Index < (a.length : Int))

/-- Engine `TMap<K, V>` as an association list. -/
abbrev TMap (K V : Type) := List (K × V)

/-- Engine `TMap::Find`: the value stored under `Key`, if any. -/
def TMap.Find {K V : Type} [DecidableEq K] : TMap K V → K → Option V
  | [], _ => none
  | (k, v) :: rest, Key => if k = Key then some v else TMap.Find rest Key

/-- Engine `TMap::Add`: sets the value of `Key`, replacing the pair already stored
under that key when there is one. -/
def TMap.Add {K V : Type} [DecidableEq K] (m : TMap K V) (Key : K) (Value : V) : TMap K V :=
  (Key, Value) :: m.filter (fun p => !decide (p.1 = Key))

/-! ## Names, conditions, events and text arguments -/

/-- Engine `FName`, a name compared by value. -/
abbrev FName := String

/-- Engine `NAME_None`, the name of a default constructed `FName`. -/
def NAME_None : FName := "None"

/-- Engine `UClass*` of a participant class, identified by a number; `nullptr` is `none`. -/
abbrev UClassPtr := Option Nat

/-- Engine `TArray::AddUnique`: appends the item unless the array already has it. -/
def TArray.AddUnique {α : Type} [DecidableEq α] (a : List α) (Item : α) : List α :=
  if Item ∈ a then a else a ++ [Item]

/-- Engine `TSet::Add` on a set kept in insertion order. -/
def TSet.Add {α : Type} [DecidableEq α] (s : List α) (Item : α) : List α :=
  if Item ∈ s then s else s ++ [Item]

/-- Engine `TSet::Remove`. -/
def TSet.Remove {α : Type} [DecidableEq α] (s : List α) (Item : α) : List α :=
  s.filter (fun x => !decide (x = Item))

/-- The fields of `FDlgCondition` read by the dialogue. `DlgCondition.h` is not among the
sources: `bParticipantInvolved` and `bSecondParticipantInvolved` stand for what
`IsParticipantInvolved()` and `IsSecondParticipantInvolved()` answer for the condition, and
`CallbackName` for the capability it names. -/
structure FDlgCondition where
  ParticipantName : FName := NAME_None
  OtherParticipantName : FName := NAME_None
  CallbackName : FName := NAME_None
  bParticipantInvolved : Bool := true
  bSecondParticipantInvolved : Bool := false
deriving DecidableEq, Repr

/-- Answer of `FDlgCondition::IsParticipantInvolved`. -/
def FDlgCondition.IsParticipantInvolved (Condition : FDlgCondition) : Bool :=
  Condition.bParticipantInvolved

/-- Answer of `FDlgCondition::IsSecondParticipantInvolved`. -/
def FDlgCondition.IsSecondParticipantInvolved (Condition : FDlgCondition) : Bool :=
  Condition.bSecondParticipantInvolved

/-- The fields of `FDlgEvent` read by the dialogue (`DlgEvent.h` is not among the sources). -/
structure FDlgEvent where
  ParticipantName : FName := NAME_None
  EventName : FName := NAME_None
deriving DecidableEq, Repr

/-- The fields of `FDlgTextArgument` read by the dialogue (`DlgTextArgument.h` is not among
the sources). -/
structure FDlgTextArgument where
  DisplayString : String := ""
  ParticipantName : FName := NAME_None
  VariableName : FName := NAME_None
deriving DecidableEq, Repr

/-- Modelled from the spec: `FDlgParticipantData` is declared in a header that is not among
the sources. Per participant it holds the capabilities referenced in the graph (spec 4.3):
the conditions attributed as primary, those attributed as secondary, the events and the text
arguments, each kept as a set in order of first sight. -/
structure FDlgParticipantData where
  ConditionsPrimary : List FDlgCondition := []
  ConditionsSecondary : List FDlgCondition := []
  Events : List FDlgEvent := []
  TextArguments : List FDlgTextArgument := []
deriving DecidableEq, Repr

namespace FDlgParticipantData

/-- Modelled from the spec: `AddConditionPrimaryData` adds a "primary" capability entry. -/
def AddConditionPrimaryData (Data : FDlgParticipantData) (Condition : FDlgCondition) :
    FDlgParticipantData :=
  { Data with ConditionsPrimary := TSet.Add Data.ConditionsPrimary Condition }

/-- Modelled from the spec: `AddConditionSecondaryData` adds a "secondary" capability
entry. -/
def AddConditionSecondaryData (Data : FDlgParticipantData) (Condition : FDlgCondition) :
    FDlgParticipantData :=
  { Data with ConditionsSecondary := TSet.Add Data.ConditionsSecondary Condition }

/-- Modelled from the spec: `AddEventData` adds an "event" capability entry. -/
def AddEventData (Data : FDlgParticipantData) (Event : FDlgEvent) : FDlgParticipantData :=
  { Data with Events := TSet.Add Data.Events Event }

/-- Modelled from the spec: `AddTextArgumentData` registers a text argument. -/
def AddTextArgumentData (Data : FDlgParticipantData) (TextArgument : FDlgTextArgument) :
    FDlgParticipantData :=
  { Data with TextArguments := TSet.Add Data.TextArguments TextArgument }

end FDlgParticipantData

/-- An entry of the participant-class registry `ParticipantsClasses`. -/
structure FDlgParticipantClass where
  ParticipantName : FName := NAME_None
  ParticipantClass : UClassPtr := none
deriving DecidableEq, Repr

/-! ## Nodes and edges -/

/-- The concrete classes derived from `UDlgNode`. -/
inductive EDlgNodeClass
  | Start
  | Speech
  | Selector
  | End
  | Proxy
deriving DecidableEq, Repr

/-- The part of `FDlgEdge` read by the dialogue: the index of the node it points to, its
conditions, its speaker state and its text arguments. -/
structure FDlgEdge where
  TargetIndex : Int := INDEX_NONE
  Conditions : List FDlgCondition := []
  SpeakerState : FName := NAME_None
  TextArguments : List FDlgTextArgument := []
deriving DecidableEq, Repr

/-- Getter `FDlgEdge::GetTextArguments`. -/
def FDlgEdge.GetTextArguments (Edge : FDlgEdge) : List FDlgTextArgument := Edge.TextArguments

/-- Modelled from the spec: `FDlgEdge::IsValid` is declared in `DlgEdge.h`, which is not
among the sources. An edge is resolved when its target index is not negative
(`DlgNode.h`, on `GetNodeOpenChildren_DEPRECATED`: the children that "DO NOT have a valid
TargetIndex (is negative)"), that is `TargetIndex > INDEX_NONE`. -/
def FDlgEdge.IsValid (Edge : FDlgEdge) : Bool := decide (Edge.TargetIndex > INDEX_NONE)

/-- The fields of `UDlgNode` read by the structural operations of the dialogue.
`NodeClass` is the dynamic class of the object, `bHasGraphNode` tells whether the
editor-only `GraphNode` pointer is set. -/
structure UDlgNode where
  NodeClass : EDlgNodeClass := EDlgNodeClass.Speech
  NodeGUID : FGuid := {}
  Children : List FDlgEdge := []
  bHasGraphNode : Bool := false
  /-- Name of the participant (speaker) of the node, `OwnerName` of `DlgNode.h`. -/
  OwnerName : FName := NAME_None
  EnterConditions : List FDlgCondition := []
  EnterEvents : List FDlgEvent := []
  /-- Speech: the raw text of the node. -/
  Text : String := ""
  /-- Speech: the text arguments of the node. -/
  TextArguments : List FDlgTextArgument := []
  /-- Speech: the formatted text, written by `RebuildConstructedText`. -/
  ConstructedText : String := ""
  /-- Speech: the node is a virtual parent. -/
  bIsVirtualParent : Bool := false
  /-- Speech: a virtual parent fires the enter events of its resolved direct child. -/
  bVirtualParentFireDirectChildEnterEvents : Bool := true
  /-- Speech: the direct child a virtual parent resolved to, written by
  `ReevaluateChildren`. -/
  VirtualParentFirstSatisfiedDirectChildIndex : Int := INDEX_NONE
  /-- The speaker states the override of `AddAllSpeakerStatesIntoSet` of the class of the node
  contributes (the override of Speech is in a header that is not among the sources; the base
  class contributes none). -/
  NodeSpeakerStates : List FName := []
  /-- The time to the next speech is set by hand, `bCustomTimer` of `DlgNode.h`. -/
  bCustomTimer : Bool := false
  /-- Seconds to the next speech, `fTimeToNextSpeech` of `DlgNode.h`, `3.f` at first. -/
  fTimeToNextSpeech : FFloat := FFloat.Three
deriving DecidableEq, Repr

namespace UDlgNode

/-- Getter `UDlgNode::GetGUID` (`DlgNode.h`): returns `NodeGUID`. -/
def GetGUID (Node : UDlgNode) : FGuid := Node.NodeGUID

/-- Test `UDlgNode::HasGUID` (`DlgNode.h`): returns `NodeGUID.IsValid()`. -/
def HasGUID (Node : UDlgNode) : Bool := Node.NodeGUID.IsValid

/-- Getter `UDlgNode::GetNodeChildren` (`DlgNode.h`): returns `Children`. -/
def GetNodeChildren (Node : UDlgNode) : List FDlgEdge := Node.Children

/-- Setter `UDlgNode::SetTimeToNextSpeech` (`DlgNode.h`). -/
def SetTimeToNextSpeech (Node : UDlgNode) (Time : FFloat) : UDlgNode :=
  { Node with fTimeToNextSpeech := Time }

/-- Engine `IsA<UDlgNode_End>()`: the object is of the End class. -/
def IsA_End (Node : UDlgNode) : Bool := decide (Node.NodeClass = EDlgNodeClass.End)

end UDlgNode

/-! ## The dialogue -/

/-- The fields of `UDlgDialogue` used by the structural operations. -/
structure UDlgDialogue where
  Nodes : List (Option UDlgNode) := []
  StartNodes : List (Option UDlgNode) := []
  NodesGUIDToIndexMap : TMap FGuid Int := []
  bWasLoaded : Bool := false
  /-- The aggregated participant data, in order of insertion. -/
  ParticipantsData : TMap FName FDlgParticipantData := []
  /-- The global set of speaker states. -/
  AllSpeakerStates : List FName := []
  /-- The participant-class registry. -/
  ParticipantsClasses : List FDlgParticipantClass := []
deriving DecidableEq, Repr

namespace UDlgDialogue

/-- Modelled from the spec: `IsValidNodeIndex` is declared in `DlgDialogue.h`, which is not
among the sources. A node index is valid when it addresses a slot of the node array
(spec 4.2, "requires `index` valid"), the test `IsEndNode` writes as
`Nodes.IsValidIndex(NodeIndex)`. -/
def IsValidNodeIndex (d : UDlgDialogue) (NodeIndex : Int) : Bool :=
  TArray.IsValidIndex d.Nodes NodeIndex

/-- Embeds `UDlgDialogue::GetNodeGUIDForIndex`. The result is `none` when the slot holds a null
pointer, which the code dereferences. -/
def GetNodeGUIDForIndex (d : UDlgDialogue) (NodeIndex : Int) : Option FGuid :=
  if d.IsValidNodeIndex NodeIndex then
    match d.Nodes.getD NodeIndex.toNat none with
    | some Node => some Node.GetGUID
    | none => none
  else
    -- Invalid GUID
    some FGuid.zero

/-- Embeds `UDlgDialogue::GetNodeIndexForGUID`. -/
def GetNodeIndexForGUID (d : UDlgDialogue) (NodeGUID : FGuid) : Int :=
  match TMap.Find d.NodesGUIDToIndexMap NodeGUID with
  | some NodeIndex => NodeIndex
  | none => INDEX_NONE

/-- Embeds `UDlgDialogue::UpdateGUIDToIndexMap`. -/
def UpdateGUIDToIndexMap (d : UDlgDialogue) (Node : Option UDlgNode) (NodeIndex : Int) :
    UDlgDialogue :=
  match Node with
  | none => d
  | some n =>
    if !d.IsValidNodeIndex NodeIndex || !n.HasGUID then d
    else { d with NodesGUIDToIndexMap := TMap.Add d.NodesGUIDToIndexMap n.GetGUID NodeIndex }

/-- The body of the loop of `SetNodes` run for `NodeIndex = 0, 1, ..., Count - 1`. -/
def SetNodesLoop (d : UDlgDialogue) (Count : Nat) : UDlgDialogue :=
  (List.range Count).foldl
    (fun acc NodeIndex => acc.UpdateGUIDToIndexMap (acc.Nodes.getD NodeIndex none) NodeIndex) d

/-- Embeds `UDlgDialogue::SetNodes`: the assignment of `Nodes`, then the loop. -/
def SetNodes (d : UDlgDialogue) (InNodes : List (Option UDlgNode)) : UDlgDialogue :=
  SetNodesLoop { d with Nodes := InNodes } InNodes.length

/-- Embeds `UDlgDialogue::SetNode`. -/
def SetNode (d : UDlgDialogue) (NodeIndex : Int) (InNode : Option UDlgNode) : UDlgDialogue :=
  match InNode with
  | none => d
  | some n =>
    if !d.IsValidNodeIndex NodeIndex then d
    else
      UpdateGUIDToIndexMap { d with Nodes := d.Nodes.set NodeIndex.toNat (some n) } (some n)
        NodeIndex

/-- Embeds `UDlgDialogue::IsEndNode`. The result is `none` when the slot holds a null pointer,
which the code dereferences. -/
def IsEndNode (d : UDlgDialogue) (NodeIndex : Int) : Option Bool :=
  if !TArray.IsValidIndex d.Nodes NodeIndex then some false
  else
    match d.Nodes.getD NodeIndex.toNat none with
    | some Node => some Node.IsA_End
    | none => none

end UDlgDialogue

/-! ## The load-time check of `PostLoad` -/

/-- The ways `PostLoad` stops the program instead of returning. -/
inductive EPostLoadAbort
  /-- The `UE_LOG(LogDlgSystem, Fatal, ...)` of the node check, with the three numbers
  of its message. -/
  | Fatal (NodeIndex EdgeIndex : Nat) (TargetIndex : Int)
  /-- The editor-only `checkf(Node->GetGraphNode(), ...)` fails. -/
  | CheckFailed (NodeIndex : Nat)
  /-- The slot `Nodes[NodeIndex]` holds a null pointer, which the loop dereferences. -/
  | NullNode (NodeIndex : Nat)
deriving DecidableEq, Repr

namespace UDlgDialogue

/-- The inner loop of `PostLoad` ("Check children point to the right Node") over the
edges from `EdgeIndex` on. -/
def PostLoadCheckEdges (d : UDlgDialogue) (NodeIndex : Nat) :
    List FDlgEdge → Nat → Except EPostLoadAbort Unit
  | [], _ => Except.ok ()
  | Edge :: NodeEdges, EdgeIndex =>
    if !Edge.IsValid then
      PostLoadCheckEdges d NodeIndex NodeEdges (EdgeIndex + 1)
    else if !TArray.IsValidIndex d.Nodes Edge.TargetIndex then
      Except.error (EPostLoadAbort.Fatal NodeIndex EdgeIndex Edge.TargetIndex)
    else
      PostLoadCheckEdges d NodeIndex NodeEdges (EdgeIndex + 1)

/-- The outer loop of `PostLoad` ("Check Nodes for validity") over the slots from
`NodeIndex` on. -/
def PostLoadCheckNodes (d : UDlgDialogue) (bHasDialogueEditorModule : Bool) :
    List (Option UDlgNode) → Nat → Except EPostLoadAbort Unit
  | [], _ => Except.ok ()
  | none :: _, NodeIndex => Except.error (EPostLoadAbort.NullNode NodeIndex)
  | some Node :: Rest, NodeIndex =>
    if bHasDialogueEditorModule && !Node.bHasGraphNode then
      Except.error (EPostLoadAbort.CheckFailed NodeIndex)
    else
      match PostLoadCheckEdges d NodeIndex Node.GetNodeChildren 0 with
      | Except.error e => Except.error e
      | Except.ok _ => PostLoadCheckNodes d bHasDialogueEditorModule Rest (NodeIndex + 1)

/-- Embeds `UDlgDialogue::PostLoad` from the editor guard on (the version upgrades before it
are not part of the embedding: `d` is the dialogue they leave).

`bHasDialogueEditorModule` is `GetDialogueEditorAccess().IsValid()` and
`bNodesInSync` is what `AreDialogueNodesInSyncWithGraphNodes(this)` answers; in a build
without `WITH_EDITOR` the guarded lines are absent, which is the behaviour at
`bHasDialogueEditorModule = false`. -/
def PostLoad (d : UDlgDialogue) (bHasDialogueEditorModule bNodesInSync : Bool) :
    Except EPostLoadAbort UDlgDialogue :=
  if bHasDialogueEditorModule && !bNodesInSync then
    Except.ok d
  else
    match PostLoadCheckNodes d bHasDialogueEditorModule d.Nodes 0 with
    | Except.error e => Except.error e
    | Except.ok _ => Except.ok { d with bWasLoaded := true }

end UDlgDialogue

/-! ## Sequences of structural edits -/

/-- A call of one of the two mutators of the node array. -/
inductive DlgEdit
  | SetNodes (InNodes : List (Option UDlgNode))
  | SetNode (NodeIndex : Int) (InNode : Option UDlgNode)

/-- The dialogue after one call. -/
def DlgEdit.apply (d : UDlgDialogue) : DlgEdit → UDlgDialogue
  | DlgEdit.SetNodes InNodes => d.SetNodes InNodes
  | DlgEdit.SetNode NodeIndex InNode => d.SetNode NodeIndex InNode

/-- The dialogue after a sequence of calls, first call first. -/
def applyEdits (d : UDlgDialogue) (edits : List DlgEdit) : UDlgDialogue :=
  edits.foldl DlgEdit.apply d

/-! ## The map as a view of the node array -/

namespace UDlgDialogue

/-- The map is a view of the node array: every pair `g -> j` it stores has `j` a valid node
index, and the node in slot `j` carries the GUID `g`. -/
def GUIDMapIsView (d : UDlgDialogue) : Prop :=
  ∀ (g : FGuid) (j : Int), TMap.Find d.NodesGUIDToIndexMap g = some j →
    d.IsValidNodeIndex j = true ∧
      ∃ n : UDlgNode, d.Nodes[j.toNat]? = some (some n) ∧ n.GetGUID = g

/-- The call `SetNode(NodeIndex, InNode)` takes no GUID out of the node array: when it is not
ignored, the slot it overwrites is null or holds a node with the GUID of `InNode`. -/
def SetNodeKeepsGUID (d : UDlgDialogue) (NodeIndex : Int) (InNode : Option UDlgNode) : Prop :=
  ∀ n m : UDlgNode, InNode = some n → d.IsValidNodeIndex NodeIndex = true →
    d.Nodes[NodeIndex.toNat]? = some (some m) → m.GetGUID = n.GetGUID

/-- The dialogue after a sequence of `SetNode` calls, first call first. -/
def SetNodeCalls (d : UDlgDialogue) (calls : List (Int × Option UDlgNode)) : UDlgDialogue :=
  calls.foldl (fun acc call => acc.SetNode call.1 call.2) d

/-- Every call of the sequence satisfies `SetNodeKeepsGUID` on the dialogue it is made on. -/
def SetNodeCallsKeepGUID : UDlgDialogue → List (Int × Option UDlgNode) → Prop
  | _, [] => True
  | d, call :: rest =>
    d.SetNodeKeepsGUID call.1 call.2 ∧ SetNodeCallsKeepGUID (d.SetNode call.1 call.2) rest

end UDlgDialogue

/-! ## The execution context -/

/-- Modelled from the spec: `UDlgContext` is declared in `DlgContext.h`, which is not among
the sources. Per spec 3 ("Execution Context") it holds the active node index, the history of
visited (node index, GUID) pairs and the two option lists; the dialogue it walks is passed
next to it. `FiredEvents` is the trace of the events executed in the session, in order. -/
structure UDlgContext where
  ActiveNodeIndex : Int := INDEX_NONE
  History : List (Int × FGuid) := []
  /-- The array behind `GetMutableOptionsArray()`: the satisfied children. -/
  CurrentOptions : List FDlgEdge := []
  /-- The array behind `GetAllMutableOptionsArray()`: all the children. -/
  AllOptions : List FDlgEdge := []
  FiredEvents : List FDlgEvent := []
deriving DecidableEq, Repr

/-- What a virtual call on a node hands back: the boolean it returns, the context and the
dialogue as it leaves them. -/
structure FDlgStepResult where
  bResult : Bool
  Context : UDlgContext
  Dialogue : UDlgDialogue
deriving DecidableEq, Repr

namespace UDlgContext

/-- Modelled from the spec: `UDlgContext::GetMutableNodeFromIndex` (`DlgContext.h` is not
among the sources) is the node of the dialogue at a valid index, null otherwise. -/
def GetMutableNodeFromIndex (d : UDlgDialogue) (NodeIndex : Int) : Option UDlgNode :=
  if d.IsValidNodeIndex NodeIndex then d.Nodes.getD NodeIndex.toNat none else none

/-- Modelled from the spec: `UDlgContext::SetNodeVisited` records the pair in the history,
an ordered set of (node index, GUID) pairs (spec 3). -/
def SetNodeVisited (Context : UDlgContext) (NodeIndex : Int) (NodeGUID : FGuid) :
    UDlgContext :=
  { Context with History := TSet.Add Context.History (NodeIndex, NodeGUID) }

/-- The two statements `Context.GetMutableOptionsArray().Empty()` and
`Context.GetAllMutableOptionsArray().Empty()`. -/
def EmptyOptions (Context : UDlgContext) : UDlgContext :=
  { Context with CurrentOptions := [], AllOptions := [] }

end UDlgContext

/-- Modelled from the spec: `UDlgNode::FireNodeEnterEvents` is defined in `DlgNode.cpp`,
which is not among the sources. It fires the enter events of the node in order (spec 3,
`enterEvents`); firing an event appends it to the trace of the context. -/
def UDlgNode.FireNodeEnterEvents (Node : UDlgNode) (Context : UDlgContext) : UDlgContext :=
  { Context with FiredEvents := Context.FiredEvents ++ Node.EnterEvents }

/-- The code the Speech node calls that is not among the sources, taken as parameters.
Each may read the context and the whole dialogue; the two base-class calls may also change
them. `ThisIndex` is the index of the node the call is made on. -/
structure FDlgNodeEnv where
  /-- The call `Edge.Evaluate(Context, this)` of `DlgEdge.cpp`, `this` by its index. -/
  EdgeEvaluate : UDlgContext → UDlgDialogue → Int → FDlgEdge → Bool
  /-- The base `UDlgNode::ReevaluateChildren`, for a Speech node that is not a virtual parent, and
  the `ReevaluateChildren` of the classes other than Speech and End. -/
  BaseReevaluateChildren : UDlgContext → UDlgDialogue → Int → List Int → FDlgStepResult
  /-- The base `UDlgNode::HandleNodeEnter`, the `Super::HandleNodeEnter` of the Speech node. -/
  BaseHandleNodeEnter : UDlgContext → UDlgDialogue → Int → List Int → FDlgStepResult
  /-- The text `FText::Format` builds from `Text` and the text arguments of the node. -/
  FormatText : UDlgContext → UDlgNode → String

/-- The assignment `VirtualParentFirstSatisfiedDirectChildIndex = Value` on the node at
`ThisIndex` (no change when the index holds no node). -/
def UDlgDialogue.SetVirtualParentIndex (d : UDlgDialogue) (ThisIndex : Int) (Value : Int) :
    UDlgDialogue :=
  match UDlgContext.GetMutableNodeFromIndex d ThisIndex with
  | some This =>
    { d with
      Nodes :=
        d.Nodes.set ThisIndex.toNat
          (some { This with VirtualParentFirstSatisfiedDirectChildIndex := Value }) }
  | none => d

/-! ## The End node -/

namespace UDlgNode_End

/-- Embeds `UDlgNode_End::ReevaluateChildren` (`DlgNode_End.h`): returns false. -/
def ReevaluateChildren (Context : UDlgContext) (d : UDlgDialogue) (_AlreadyEvaluated : List Int) :
    FDlgStepResult :=
  { bResult := false, Context := Context, Dialogue := d }

/-- Embeds `UDlgNode_End::OptionSelected` (`DlgNode_End.h`): returns false. -/
def OptionSelected (_OptionIndex : Int) (_bFromAll : Bool) (Context : UDlgContext)
    (d : UDlgDialogue) : FDlgStepResult :=
  { bResult := false, Context := Context, Dialogue := d }

end UDlgNode_End

/-! ## The Speech node -/

namespace UDlgNode_Speech

/-- The loop `for (const FDlgEdge& Edge : Children)` of `ReevaluateChildren` up to the edge
it returns on: the first edge that evaluates true and whose target index holds a node, with
that node. An edge that evaluates true over a missing node is passed over. -/
def FindFirstSatisfiedChild (Env : FDlgNodeEnv) (Context : UDlgContext) (d : UDlgDialogue)
    (ThisIndex : Int) : List FDlgEdge → Option (FDlgEdge × UDlgNode)
  | [] => none
  | Edge :: Rest =>
    if Env.EdgeEvaluate Context d ThisIndex Edge then
      match UDlgContext.GetMutableNodeFromIndex d Edge.TargetIndex with
      | some Node => some (Edge, Node)
      | none => FindFirstSatisfiedChild Env Context d ThisIndex Rest
    else FindFirstSatisfiedChild Env Context d ThisIndex Rest

/-- Embeds `UDlgNode_Speech::ReevaluateChildren` on the node `This` found at `ThisIndex`.
`Recurse` is the virtual call `Node->ReevaluateChildren(Context, AlreadyEvaluated)` on the
node at a given index; it answers `none` when it does not return. -/
def ReevaluateChildren (Env : FDlgNodeEnv)
    (Recurse : UDlgContext → UDlgDialogue → Int → List Int → Option FDlgStepResult)
    (Context : UDlgContext) (d : UDlgDialogue) (ThisIndex : Int) (This : UDlgNode)
    (AlreadyEvaluated : List Int) : Option FDlgStepResult :=
  if This.bIsVirtualParent then
    let d1 := d.SetVirtualParentIndex ThisIndex INDEX_NONE
    let Context1 := Context.EmptyOptions
    -- stop endless loop
    if ThisIndex ∈ AlreadyEvaluated then
      some { bResult := false, Context := Context1, Dialogue := d1 }
    else
      match FindFirstSatisfiedChild Env Context1 d1 ThisIndex This.Children with
      | some (Edge, _) =>
        -- Get Grandchildren
        match Recurse Context1 d1 Edge.TargetIndex (ThisIndex :: AlreadyEvaluated) with
        | none => none
        | some r =>
          some { bResult := r.bResult, Context := r.Context,
                 Dialogue :=
                   if r.bResult then r.Dialogue.SetVirtualParentIndex ThisIndex Edge.TargetIndex
                   else r.Dialogue }
      | none => some { bResult := false, Context := Context1, Dialogue := d1 }
  else
    -- Normal speech node
    some (Env.BaseReevaluateChildren Context d ThisIndex AlreadyEvaluated)

/-- Embeds `UDlgNode_Speech::RebuildConstructedText`. -/
def RebuildConstructedText (Env : FDlgNodeEnv) (Context : UDlgContext) (This : UDlgNode) :
    UDlgNode :=
  if This.TextArguments.length ≤ 0 then This
  else { This with ConstructedText := Env.FormatText Context This }

/-- The first two statements of `UDlgNode_Speech::HandleNodeEnter` on the node `This0` found
at `ThisIndex`: `RebuildConstructedText(Context)`, which writes the formatted text into the
node, then the call of `Super::HandleNodeEnter`. -/
def HandleNodeEnterSuper (Env : FDlgNodeEnv) (Context : UDlgContext) (d : UDlgDialogue)
    (ThisIndex : Int) (NodesEnteredWithThisStep : List Int) (This0 : UDlgNode) :
    FDlgStepResult :=
  Env.BaseHandleNodeEnter Context
    { d with
      Nodes := d.Nodes.set ThisIndex.toNat (some (RebuildConstructedText Env Context This0)) }
    ThisIndex NodesEnteredWithThisStep

/-- Embeds `UDlgNode_Speech::HandleNodeEnter` on the node at `ThisIndex`. The result is
`none` when the index holds no node, or when the slot of the resolved child holds a null
pointer, which `GetNodeGUIDForIndex` dereferences. The audio component of the participant
is outside the embedding. -/
def HandleNodeEnter (Env : FDlgNodeEnv) (Context : UDlgContext) (d : UDlgDialogue)
    (ThisIndex : Int) (NodesEnteredWithThisStep : List Int) : Option FDlgStepResult :=
  match UDlgContext.GetMutableNodeFromIndex d ThisIndex with
  | none => none
  | some This0 =>
    let r := HandleNodeEnterSuper Env Context d ThisIndex NodesEnteredWithThisStep This0
    match UDlgContext.GetMutableNodeFromIndex r.Dialogue ThisIndex with
    | none => none
    | some This =>
      -- Handle virtual parent enter events for direct children
      if r.bResult && This.bIsVirtualParent &&
          r.Dialogue.IsValidNodeIndex This.VirtualParentFirstSatisfiedDirectChildIndex then
        match r.Dialogue.GetNodeGUIDForIndex This.VirtualParentFirstSatisfiedDirectChildIndex with
        | none => none
        | some ChildGUID =>
          -- Add to history
          let Context1 :=
            r.Context.SetNodeVisited This.VirtualParentFirstSatisfiedDirectChildIndex ChildGUID
          -- Fire all the direct child enter events
          let Context2 :=
            if This.bVirtualParentFireDirectChildEnterEvents then
              match UDlgContext.GetMutableNodeFromIndex r.Dialogue
                  This.VirtualParentFirstSatisfiedDirectChildIndex with
              | some Node => Node.FireNodeEnterEvents Context1
              | none => Context1
            else Context1
          some { bResult := r.bResult, Context := Context2, Dialogue := r.Dialogue }
      else some r

end UDlgNode_Speech

/-! ## The virtual call `ReevaluateChildren` -/

namespace UDlgNode

/-- The virtual call `Node->ReevaluateChildren(Context, AlreadyEvaluated)` on the node at
`ThisIndex`, dispatched on the class of the node, with a bound on the depth of the nested
calls: `none` when the bound is used up or when the index holds no node. -/
def ReevaluateChildrenFuel (Env : FDlgNodeEnv) :
    Nat → UDlgContext → UDlgDialogue → Int → List Int → Option FDlgStepResult
  | 0, _, _, _, _ => none
  | Fuel + 1, Context, d, ThisIndex, AlreadyEvaluated =>
    match UDlgContext.GetMutableNodeFromIndex d ThisIndex with
    | none => none
    | some This =>
      match This.NodeClass with
      | EDlgNodeClass.End => some (UDlgNode_End.ReevaluateChildren Context d AlreadyEvaluated)
      | EDlgNodeClass.Speech =>
        UDlgNode_Speech.ReevaluateChildren Env (ReevaluateChildrenFuel Env Fuel) Context d
          ThisIndex This AlreadyEvaluated
      | _ => some (Env.BaseReevaluateChildren Context d ThisIndex AlreadyEvaluated)

/-- The virtual call with a depth bound no chain of virtual parents reaches: each nested call
is made by a virtual parent that was not in `AlreadyEvaluated` and is added to it. -/
def ReevaluateChildren (Env : FDlgNodeEnv) (Context : UDlgContext) (d : UDlgDialogue)
    (ThisIndex : Int) (AlreadyEvaluated : List Int) : Option FDlgStepResult :=
  ReevaluateChildrenFuel Env (d.Nodes.length + 1) Context d ThisIndex AlreadyEvaluated

end UDlgNode

/-- The number of node indices of the dialogue that are not in `AlreadyEvaluated`: the
number of virtual parents a chain of nested `ReevaluateChildren` calls can still pass. -/
def UDlgDialogue.UnevaluatedCount (d : UDlgDialogue) (AlreadyEvaluated : List Int) : Nat :=
  ((Finset.range d.Nodes.length).filter (fun (k : Nat) => (k : Int) ∉ AlreadyEvaluated)).card

/-! ## Sample dialogues -/

/-- Two valid GUIDs. -/
def SampleGuid1 : FGuid := { A := 1 }

/-- The second sample GUID. -/
def SampleGuid2 : FGuid := { D := 7 }

/-- A Speech node carrying `SampleGuid1`. -/
def SampleSpeech1 : UDlgNode := { NodeGUID := SampleGuid1 }

/-- An End node carrying `SampleGuid2`. -/
def SampleEnd2 : UDlgNode := { NodeClass := EDlgNodeClass.End, NodeGUID := SampleGuid2 }

/-- A node whose GUID was never generated. -/
def SampleNoGuid : UDlgNode := { NodeClass := EDlgNodeClass.Selector }

/-- A Selector node carrying `SampleGuid1`, the GUID of `SampleSpeech1`. -/
def SampleSelector1 : UDlgNode := { NodeClass := EDlgNodeClass.Selector, NodeGUID := SampleGuid1 }

/-- A freshly constructed dialogue: no node, empty map. -/
def EmptyDialogue : UDlgDialogue := {}

/-- A dialogue that holds `SampleSpeech1` alone, installed by `SetNodes`. -/
def OneSpeechDialogue : UDlgDialogue := EmptyDialogue.SetNodes [some SampleSpeech1]

/-- A node array with a null slot and a node without GUID between two nodes with GUIDs. -/
def SampleNodes : List (Option UDlgNode) :=
  [some SampleSpeech1, none, some SampleNoGuid, some SampleEnd2]

/-- Two nodes with valid, distinct GUIDs. -/
def SampleDistinctNodes : List (Option UDlgNode) := [some SampleSpeech1, some SampleEnd2]

/-- A graph of five nodes, all with their graph node; the single edge of node 2 has
`TargetIndex = 99`. -/
def FiveNodeDialogue : UDlgDialogue :=
  { Nodes :=
      [some { NodeGUID := { A := 10 }, bHasGraphNode := true,
              Children := [{ TargetIndex := 1 }, { TargetIndex := INDEX_NONE }] },
       some { NodeGUID := { A := 11 }, bHasGraphNode := true, Children := [{ TargetIndex := 2 }] },
       some { NodeGUID := { A := 12 }, bHasGraphNode := true, Children := [{ TargetIndex := 99 }] },
       some { NodeGUID := { A := 13 }, bHasGraphNode := true, Children := [{ TargetIndex := 4 }] },
       some { NodeClass := EDlgNodeClass.End, NodeGUID := { A := 14 }, bHasGraphNode := true }] }

/-- A graph that passes the node check: the edge of its only regular node is unset
(`TargetIndex = INDEX_NONE`) and the edge of its Start node, kept in `StartNodes`, points
to the index 7 of a one-node array. -/
def DanglingDialogue : UDlgDialogue :=
  { Nodes := [some { NodeGUID := { A := 20 }, Children := [{ TargetIndex := INDEX_NONE }] }],
    StartNodes := [some { NodeClass := EDlgNodeClass.Start, NodeGUID := { A := 21 },
                          Children := [{ TargetIndex := 7 }] }] }

/-! ## The participant data aggregator -/

/-- Engine `TMap::Contains`. -/
def TMap.Contains {K V : Type} [DecidableEq K] (m : TMap K V) (Key : K) : Bool :=
  (TMap.Find m Key).isSome

/-- Engine `TMap::FindOrAdd(Key)` followed by the write `Write` through the reference it
returns: the value under `Key` is rewritten in place, and a key that is absent is added at
the end with `Write Init`, `Init` being the default constructed value. -/
def TMap.FindOrAddThen {K V : Type} [DecidableEq K] (Key : K) (Init : V) (Write : V → V) :
    TMap K V → TMap K V
  | [] => [(Key, Write Init)]
  | (k, v) :: rest =>
    if k = Key then (k, Write v) :: rest else (k, v) :: TMap.FindOrAddThen Key Init Write rest

/-- Engine `TArray::RemoveAtSwap(Index)`: the last item takes the place of the removed one. -/
def TArray.RemoveAtSwap {α : Type} (a : List α) (Index : Nat) : List α :=
  match a.getLast? with
  | none => a
  | some Last => if Index + 1 = a.length then a.dropLast else (a.set Index Last).dropLast

/-- The pointers of an array, when none of them is null. -/
def TArray.Deref {α : Type} : List (Option α) → Option (List α)
  | [] => some []
  | none :: _ => none
  | some x :: rest => (TArray.Deref rest).map (fun xs => x :: xs)

/-- The code `UpdateAndRefreshData` calls that is not among the sources, and the settings it
reads, taken as parameters. -/
structure FDlgRefreshEnv where
  /-- What `RebuildAndUpdateNode(Node, Settings, bUpdateTextsNamespacesAndKeys)` makes of a
  node (`RebuildTextArguments`, the two text updates and `UpdateGraphNode` are not among the
  sources). -/
  RebuildAndUpdateNode : Bool → UDlgNode → UDlgNode
  /-- The setting `bAutoSetDefaultParticipantClasses`. -/
  bAutoSetDefaultParticipantClasses : Bool
  /-- The map `ConvertDialogueParticipantsClassesIntoMap(NativeClasses)`, by class. -/
  NativeClassesMap : TMap FName (List UClassPtr)
  /-- The map `ConvertDialogueParticipantsClassesIntoMap(BlueprintClasses)`, by class. -/
  BlueprintClassesMap : TMap FName (List UClassPtr)

namespace UDlgNode

/-- Getter `UDlgNode::GetNodeParticipantName` (`DlgNode.h`): returns `OwnerName`. -/
def GetNodeParticipantName (Node : UDlgNode) : FName := Node.OwnerName

/-- Getter `UDlgNode::GetNodeEnterConditions` (`DlgNode.h`). -/
def GetNodeEnterConditions (Node : UDlgNode) : List FDlgCondition := Node.EnterConditions

/-- Getter `UDlgNode::GetNodeEnterEvents` (`DlgNode.h`). -/
def GetNodeEnterEvents (Node : UDlgNode) : List FDlgEvent := Node.EnterEvents

/-- Virtual `GetTextArguments`: the base class returns an empty array (`DlgNode.h`), the
Speech node its `TextArguments`. -/
def GetTextArguments (Node : UDlgNode) : List FDlgTextArgument :=
  if Node.NodeClass = EDlgNodeClass.Speech then Node.TextArguments else []

/-- Virtual `AddAllSpeakerStatesIntoSet`: adds the speaker states the class of the node
contributes; the base class adds none (`DlgNode.h`). -/
def AddAllSpeakerStatesIntoSet (Node : UDlgNode) (OutStates : List FName) : List FName :=
  Node.NodeSpeakerStates.foldl TSet.Add OutStates

/-- Modelled from the spec: `UDlgNode::GetAssociatedParticipants` is defined in `DlgNode.cpp`,
which is not among the sources. It registers the participant name of the node (spec 4.3,
step 2a), added only if it is set and not yet in the array. -/
def GetAssociatedParticipantsBase (Node : UDlgNode) (OutArray : List FName) : List FName :=
  if Node.OwnerName ≠ NAME_None then TArray.AddUnique OutArray Node.OwnerName else OutArray

end UDlgNode

/-- Embeds `UDlgNode_Speech::GetAssociatedParticipants`. -/
def UDlgNode_Speech.GetAssociatedParticipants (Node : UDlgNode) (OutArray : List FName) :
    List FName :=
  Node.TextArguments.foldl
    (fun Out TextArgument =>
      if TextArgument.ParticipantName ≠ NAME_None then
        TArray.AddUnique Out TextArgument.ParticipantName
      else Out)
    (Node.GetAssociatedParticipantsBase OutArray)

/-- Virtual `GetAssociatedParticipants`, dispatched on the class of the node. -/
def UDlgNode.GetAssociatedParticipants (Node : UDlgNode) (OutArray : List FName) : List FName :=
  if Node.NodeClass = EDlgNodeClass.Speech then
    UDlgNode_Speech.GetAssociatedParticipants Node OutArray
  else Node.GetAssociatedParticipantsBase OutArray

namespace UDlgDialogue

/-- The key of the entry `GetParticipantDataEntry` returns a reference to; `none` stands for
the static `BlackHoleParticipant`, which is not an entry of `ParticipantsData`. -/
def GetParticipantDataEntryName (ParticipantName FallbackParticipantName : FName)
    (bCheckNone : Bool) : Option FName :=
  -- If the Participant Name is not set, it adopts the Node Owner Name
  let ValidParticipantName :=
    if ParticipantName = NAME_None then FallbackParticipantName else ParticipantName
  -- Parent/child is not valid, simply do nothing
  if bCheckNone && decide (ValidParticipantName = NAME_None) then none
  else some ValidParticipantName

/-- Embeds `UDlgDialogue::GetParticipantDataEntry` on the member `ParticipantsData`, together
with the write `Write` the caller makes through the returned reference. A write into
`BlackHoleParticipant` leaves `ParticipantsData` as it is. -/
def GetParticipantDataEntry (ParticipantsData : TMap FName FDlgParticipantData)
    (ParticipantName FallbackParticipantName : FName) (bCheckNone : Bool)
    (Write : FDlgParticipantData → FDlgParticipantData) : TMap FName FDlgParticipantData :=
  match GetParticipantDataEntryName ParticipantName FallbackParticipantName bCheckNone with
  | none => ParticipantsData
  | some ValidParticipantName =>
    TMap.FindOrAddThen ValidParticipantName {} Write ParticipantsData

/-- The loop over conditions that `UpdateAndRefreshData` runs on the enter conditions of a
node and `AddConditionsDataFromNodeEdges` on the conditions of an edge. -/
def AddConditionsData (ParticipantsData : TMap FName FDlgParticipantData)
    (FallbackParticipantName : FName) (Conditions : List FDlgCondition) :
    TMap FName FDlgParticipantData :=
  Conditions.foldl
    (fun Data Condition =>
      let Data1 :=
        if Condition.IsParticipantInvolved then
          GetParticipantDataEntry Data Condition.ParticipantName FallbackParticipantName true
            (fun Entry => Entry.AddConditionPrimaryData Condition)
        else Data
      if Condition.IsSecondParticipantInvolved then
        GetParticipantDataEntry Data1 Condition.OtherParticipantName FallbackParticipantName true
          (fun Entry => Entry.AddConditionSecondaryData Condition)
      else Data1)
    ParticipantsData

/-- Embeds `UDlgDialogue::AddConditionsDataFromNodeEdges` on the member `ParticipantsData`.
The node index and the target index of the edges only go into log messages. -/
def AddConditionsDataFromNodeEdges (ParticipantsData : TMap FName FDlgParticipantData)
    (Node : UDlgNode) : TMap FName FDlgParticipantData :=
  Node.GetNodeChildren.foldl
    (fun Data Edge => AddConditionsData Data Node.GetNodeParticipantName Edge.Conditions)
    ParticipantsData

/-- The loop of `UpdateAndRefreshData` over the start nodes: the aggregated data and the
start nodes as rebuilt. -/
def RefreshStartNodes (Env : FDlgRefreshEnv) (bUpdateTextsNamespacesAndKeys : Bool)
    (ParticipantsData : TMap FName FDlgParticipantData) :
    List UDlgNode → TMap FName FDlgParticipantData × List UDlgNode
  | [] => (ParticipantsData, [])
  | StartNode :: Rest =>
    let Data1 := AddConditionsDataFromNodeEdges ParticipantsData StartNode
    let Rebuilt := Env.RebuildAndUpdateNode bUpdateTextsNamespacesAndKeys StartNode
    let Result := RefreshStartNodes Env bUpdateTextsNamespacesAndKeys Data1 Rest
    (Result.1, Rebuilt :: Result.2)

/-- The body of the loop of `UpdateAndRefreshData` over the regular nodes, for one node: the
aggregated data, the speaker states and the node as rebuilt. -/
def RefreshNode (Env : FDlgRefreshEnv) (bUpdateTextsNamespacesAndKeys : Bool)
    (ParticipantsData : TMap FName FDlgParticipantData) (AllSpeakerStates : List FName)
    (Node0 : UDlgNode) : TMap FName FDlgParticipantData × List FName × UDlgNode :=
  let NodeParticipantName := Node0.GetNodeParticipantName
  -- Rebuild & Update
  let Node := Env.RebuildAndUpdateNode bUpdateTextsNamespacesAndKeys Node0
  -- participant names
  let Data1 :=
    (Node.GetAssociatedParticipants []).foldl
      (fun Data Participant =>
        if !TMap.Contains Data Participant then Data ++ [(Participant, ({} : FDlgParticipantData))]
        else Data)
      ParticipantsData
  -- gather SpeakerStates
  let States1 := Node.AddAllSpeakerStatesIntoSet AllSpeakerStates
  -- Conditions from nodes
  let Data2 := AddConditionsData Data1 NodeParticipantName Node.GetNodeEnterConditions
  -- Gather Edge Data
  let Data3 := AddConditionsDataFromNodeEdges Data2 Node
  -- Walk over edges of speaker nodes
  let EdgeResult :=
    Node.Children.foldl
      (fun (Acc : TMap FName FDlgParticipantData × List FName) Edge =>
        (Edge.GetTextArguments.foldl
            (fun Data TextArgument =>
              GetParticipantDataEntry Data TextArgument.ParticipantName NodeParticipantName true
                (fun Entry => Entry.AddTextArgumentData TextArgument))
            Acc.1,
          TSet.Add Acc.2 Edge.SpeakerState))
      (Data3, States1)
  -- Events
  let Data5 :=
    Node.GetNodeEnterEvents.foldl
      (fun Data Event =>
        GetParticipantDataEntry Data Event.ParticipantName NodeParticipantName true
          (fun Entry => Entry.AddEventData Event))
      EdgeResult.1
  -- Text arguments
  let Data6 :=
    Node.GetTextArguments.foldl
      (fun Data TextArgument =>
        GetParticipantDataEntry Data TextArgument.ParticipantName NodeParticipantName true
          (fun Entry => Entry.AddTextArgumentData TextArgument))
      Data5
  (Data6, EdgeResult.2, Node)

/-- The loop of `UpdateAndRefreshData` over the regular nodes. -/
def RefreshNodes (Env : FDlgRefreshEnv) (bUpdateTextsNamespacesAndKeys : Bool)
    (ParticipantsData : TMap FName FDlgParticipantData) (AllSpeakerStates : List FName) :
    List UDlgNode → TMap FName FDlgParticipantData × List FName × List UDlgNode
  | [] => (ParticipantsData, AllSpeakerStates, [])
  | Node0 :: Rest =>
    let Step := RefreshNode Env bUpdateTextsNamespacesAndKeys ParticipantsData AllSpeakerStates
      Node0
    let Result := RefreshNodes Env bUpdateTextsNamespacesAndKeys Step.1 Step.2.1 Rest
    (Result.1, Result.2.1, Step.2.2 :: Result.2.2)

/-- Modelled from the spec: `GetParticipantNames` is declared in `DlgDialogue.h`, which is not
among the sources. It is the set of the participant names present in the aggregated data
(spec 4.3, step 4). -/
def GetParticipantNames (ParticipantsData : TMap FName FDlgParticipantData) : List FName :=
  ParticipantsData.foldl (fun Names Element => TSet.Add Names Element.1) []

/-- Step 1 of the registry part of `UpdateAndRefreshData`, "remove outdated entries": the
loop `for (Index = Num - 1; Index >= 0; --Index)` from `Index = Count - 1` down, on the
registry and the set `Participants`. -/
def RemoveOutdatedEntries :
    Nat → List FDlgParticipantClass → List FName → List FDlgParticipantClass × List FName
  | 0, Classes, Participants => (Classes, Participants)
  | Index + 1, Classes, Participants =>
    match Classes[Index]? with
    | none => RemoveOutdatedEntries Index Classes Participants
    | some Examined =>
      let ExaminedName := Examined.ParticipantName
      let Classes1 :=
        if !decide (ExaminedName ∈ Participants) || decide (ExaminedName = NAME_None) then
          TArray.RemoveAtSwap Classes Index
        else Classes
      RemoveOutdatedEntries Index Classes1 (TSet.Remove Participants ExaminedName)

/-- Step 2, "add new entries", for the names left in `Participants`. -/
def AddNewEntries (Classes : List FDlgParticipantClass) (Participants : List FName) :
    List FDlgParticipantClass :=
  Participants.foldl
    (fun Acc Participant =>
      if Participant ≠ NAME_None then
        Acc ++ [{ ParticipantName := Participant, ParticipantClass := none }]
      else Acc)
    Classes

/-- The body of the loop of step 3, "Set auto default participant classes", on one entry. -/
def AutoSetParticipantClass (Env : FDlgRefreshEnv) (Struct : FDlgParticipantClass) :
    FDlgParticipantClass :=
  -- Participant Name is not set or Class is set, ignore
  if decide (Struct.ParticipantName = NAME_None) || Struct.ParticipantClass.isSome then Struct
  else
    -- Blueprint
    let Struct1 :=
      match TMap.Find Env.BlueprintClassesMap Struct.ParticipantName with
      | some [Class] => { Struct with ParticipantClass := Class }
      | _ => Struct
    -- Native last resort
    if Struct1.ParticipantClass.isNone then
      match TMap.Find Env.NativeClassesMap Struct.ParticipantName with
      | some [Class] => { Struct1 with ParticipantClass := Class }
      | _ => Struct1
    else Struct1

/-- Embeds `UDlgDialogue::UpdateAndRefreshData`. The result is `none` when a slot of
`StartNodes` or of `Nodes` holds a null pointer, which the loops dereference. Log messages
are left out. -/
def UpdateAndRefreshData (Env : FDlgRefreshEnv) (bUpdateTextsNamespacesAndKeys : Bool)
    (d : UDlgDialogue) : Option UDlgDialogue :=
  match TArray.Deref d.StartNodes, TArray.Deref d.Nodes with
  | some StartNodes, some Nodes =>
    -- ParticipantsData.Empty(); AllSpeakerStates.Empty();
    let Start := RefreshStartNodes Env bUpdateTextsNamespacesAndKeys [] StartNodes
    let Regular := RefreshNodes Env bUpdateTextsNamespacesAndKeys Start.1 [] Nodes
    -- Remove default values
    let States := TSet.Remove Regular.2.1 NAME_None
    -- Fill ParticipantClasses
    let Outdated :=
      RemoveOutdatedEntries d.ParticipantsClasses.length d.ParticipantsClasses
        (GetParticipantNames Regular.1)
    let Classes := AddNewEntries Outdated.1 Outdated.2
    let Classes1 :=
      if d.bWasLoaded && Env.bAutoSetDefaultParticipantClasses then
        Classes.map (AutoSetParticipantClass Env)
      else Classes
    some { d with
           StartNodes := Start.2.map some
           Nodes := Regular.2.2.map some
           ParticipantsData := Regular.1
           AllSpeakerStates := States
           ParticipantsClasses := Classes1 }
  | _, _ => none

end UDlgDialogue

/-! ## The fields a session writes in the graph -/

/-- The node with the two fields a session writes, the recorded first satisfied child and
the formatted text, put back to their defaults. -/
def UDlgNode.EraseSessionFields (Node : UDlgNode) : UDlgNode :=
  { Node with VirtualParentFirstSatisfiedDirectChildIndex := INDEX_NONE, ConstructedText := "" }

/-- The dialogue with those two fields put back to their defaults in every node. Two
dialogues with the same image differ at most in these fields of their nodes. -/
def UDlgDialogue.EraseSessionFields (d : UDlgDialogue) : UDlgDialogue :=
  { d with Nodes := d.Nodes.map (Option.map UDlgNode.EraseSessionFields) }

/-! ## Sample sessions -/

/-- A sample of the code that is not among the sources. An edge is satisfied when each of
its conditions names the callback "Yes" (an edge without conditions is satisfied); the base
`ReevaluateChildren` fills the option lists as spec 4.1 describes and succeeds when some
child is satisfied; the base `HandleNodeEnter` fires the enter events of the node; the
formatted text is the raw text. -/
def SampleEnv : FDlgNodeEnv :=
  { EdgeEvaluate := fun _ _ _ Edge => Edge.Conditions.all (fun c => decide (c.CallbackName = "Yes"))
    BaseReevaluateChildren := fun Context d ThisIndex _ =>
      match UDlgContext.GetMutableNodeFromIndex d ThisIndex with
      | some This =>
        { bResult :=
            !(This.Children.filter
              (fun e => e.Conditions.all (fun c => decide (c.CallbackName = "Yes")))).isEmpty
          Context :=
            { Context with
              CurrentOptions :=
                This.Children.filter
                  (fun e => e.Conditions.all (fun c => decide (c.CallbackName = "Yes")))
              AllOptions := This.Children }
          Dialogue := d }
      | none => { bResult := false, Context := Context, Dialogue := d }
    BaseHandleNodeEnter := fun Context d ThisIndex _ =>
      match UDlgContext.GetMutableNodeFromIndex d ThisIndex with
      | some This => { bResult := true, Context := This.FireNodeEnterEvents Context, Dialogue := d }
      | none => { bResult := false, Context := Context, Dialogue := d }
    FormatText := fun _ This => This.Text }

/-- An edge to `TargetIndex` guarded by one condition that does not hold in `SampleEnv`. -/
def SampleBlockedEdge (TargetIndex : Int) : FDlgEdge :=
  { TargetIndex := TargetIndex, Conditions := [{ CallbackName := "No" }] }

/-- Two virtual parents whose only edges point at each other: the chain A -> B -> A. -/
def CycleDialogue : UDlgDialogue :=
  { Nodes :=
      [some { NodeGUID := { A := 30 }, bIsVirtualParent := true, Children := [{ TargetIndex := 1 }] },
       some { NodeGUID := { A := 31 }, bIsVirtualParent := true,
              Children := [{ TargetIndex := 0 }] }] }

/-- The virtual parent of `OrderingDialogue`: its children are `[E0, E1, E2]` with `E0`
blocked, and it still holds the stale child index 3 of an earlier resolution. -/
def SampleVirtualParent : UDlgNode :=
  { NodeGUID := { A := 40 }, bIsVirtualParent := true,
    VirtualParentFirstSatisfiedDirectChildIndex := 3,
    Children := [SampleBlockedEdge 1, { TargetIndex := 2 }, { TargetIndex := 3 }] }

/-- The node `E1` of `OrderingDialogue` points to: a Speech node with one enter event and one
satisfied child. -/
def SampleChild : UDlgNode :=
  { NodeGUID := { A := 42 }, OwnerName := "Guard",
    EnterEvents := [{ ParticipantName := "Guard", EventName := "Greet" }],
    Children := [{ TargetIndex := 4 }] }

/-- A virtual parent at index 0 over three Speech nodes and an End node. -/
def OrderingDialogue : UDlgDialogue :=
  { Nodes :=
      [some SampleVirtualParent,
       some { NodeGUID := { A := 41 }, Children := [{ TargetIndex := 4 }] },
       some SampleChild,
       some { NodeGUID := { A := 43 }, Children := [{ TargetIndex := 4 }] },
       some { NodeClass := EDlgNodeClass.End, NodeGUID := { A := 44 } }] }

/-- A Speech node with a text argument, whose formatted text was not built yet. -/
def SampleTextNode : UDlgNode :=
  { NodeGUID := { A := 50 }, Text := "Hello, Name", OwnerName := "Guard",
    TextArguments := [{ DisplayString := "Name", ParticipantName := "Guard" }] }

/-- The dialogue `OrderingDialogue` after its virtual parent resolved to node 2, with the flag
`bVirtualParentFireDirectChildEnterEvents` of the virtual parent as given. -/
def ResolvedDialogue (bFire : Bool) : UDlgDialogue :=
  { OrderingDialogue with
    Nodes :=
      OrderingDialogue.Nodes.set 0
        (some { SampleVirtualParent with
                VirtualParentFirstSatisfiedDirectChildIndex := 2
                bVirtualParentFireDirectChildEnterEvents := bFire }) }

/-- A dialogue whose only node is `SampleTextNode`. -/
def TextDialogue : UDlgDialogue := { Nodes := [some SampleTextNode] }

/-- A sample of the absent code in which the base-class `HandleNodeEnter` fires the enter
events of the node and then resolves its children through the virtual call
`ReevaluateChildren`, as the spec describes for a virtual parent. -/
def ResolvingEnv : FDlgNodeEnv :=
  { SampleEnv with
    BaseHandleNodeEnter := fun Context d ThisIndex _ =>
      match UDlgContext.GetMutableNodeFromIndex d ThisIndex with
      | some This =>
        match UDlgNode.ReevaluateChildren SampleEnv (This.FireNodeEnterEvents Context) d
            ThisIndex [] with
        | some r => r
        | none => { bResult := false, Context := Context, Dialogue := d }
      | none => { bResult := false, Context := Context, Dialogue := d } }

/-! ## Sample graphs for the aggregator -/

/-- A sample of the parameters of `UpdateAndRefreshData`: the rebuild steps leave a node as
it is, no automatic class binding. -/
def SampleRefreshEnv : FDlgRefreshEnv :=
  { RebuildAndUpdateNode := fun _ Node => Node
    bAutoSetDefaultParticipantClasses := false
    NativeClassesMap := []
    BlueprintClassesMap := [] }

/-- A condition that names no participant of its own. -/
def SampleCondition : FDlgCondition := { CallbackName := "HasKey" }

/-- A Speech node owned by "Guard" whose enter condition has no participant name. -/
def GuardNode : UDlgNode :=
  { NodeGUID := { A := 60 }, OwnerName := "Guard", EnterConditions := [SampleCondition],
    Children := [{ TargetIndex := 1, SpeakerState := "Angry" }] }

/-- A start node, the node of the guard and an End node. -/
def GuardDialogue : UDlgDialogue :=
  { StartNodes := [some { NodeClass := EDlgNodeClass.Start, Children := [{ TargetIndex := 0 }] }]
    Nodes := [some GuardNode, some { NodeClass := EDlgNodeClass.End, NodeGUID := { A := 61 } }] }

/-- The write the aggregator makes for the enter condition of `GuardNode`. -/
def SampleWrite (Entry : FDlgParticipantData) : FDlgParticipantData :=
  Entry.AddConditionPrimaryData SampleCondition

/-- Aggregated data that already has an entry for "Player". -/
def SamplePlayerData : TMap FName FDlgParticipantData := [("Player", {})]

/-- A Speech node without owner whose enter condition, enter event, text argument and edge
items name no participant. -/
def AnonymousNode : UDlgNode :=
  { NodeGUID := { A := 70 }, EnterConditions := [SampleCondition],
    EnterEvents := [{ EventName := "OpenGate" }],
    TextArguments := [{ DisplayString := "Gold", VariableName := "Gold" }],
    Children :=
      [{ TargetIndex := 1, Conditions := [SampleCondition],
         TextArguments := [{ DisplayString := "Price", VariableName := "Price" }] }] }

/-- The aggregated data has an entry under `Key`, and the entry satisfies `Q`. -/
def TMap.Holds (m : TMap FName FDlgParticipantData) (Key : FName)
    (Q : FDlgParticipantData → Prop) : Prop :=
  ∃ Entry : FDlgParticipantData, TMap.Find m Key = some Entry ∧ Q Entry

/-- A property of an entry that none of the four writes of the aggregator undoes. -/
def FDlgParticipantData.Stable (Q : FDlgParticipantData → Prop) : Prop :=
  ∀ Entry : FDlgParticipantData, Q Entry →
    (∀ Condition, Q (Entry.AddConditionPrimaryData Condition)) ∧
    (∀ Condition, Q (Entry.AddConditionSecondaryData Condition)) ∧
    (∀ Event, Q (Entry.AddEventData Event)) ∧
    (∀ TextArgument, Q (Entry.AddTextArgumentData TextArgument))

/-- A start node with an enter event and an enter condition of "Guard", and one edge with the
speaker state "Happy" whose condition involves "Player" and, as second participant,
"Merchant". -/
def SampleStartNode : UDlgNode :=
  { NodeClass := EDlgNodeClass.Start
    EnterEvents := [{ ParticipantName := "Guard", EventName := "OpenGate" }]
    EnterConditions := [{ ParticipantName := "Guard", CallbackName := "HasKey" }]
    Children :=
      [{ TargetIndex := 0, SpeakerState := "Happy",
         Conditions :=
           [{ ParticipantName := "Player", OtherParticipantName := "Merchant",
              CallbackName := "HasGold", bSecondParticipantInvolved := true }] }] }

/-- The start node `SampleStartNode` and an End node. -/
def StartOnlyDialogue : UDlgDialogue :=
  { StartNodes := [some SampleStartNode]
    Nodes := [some { NodeClass := EDlgNodeClass.End, NodeGUID := { A := 72 } }] }

/-- The node `SampleStartNode` as a regular Speech node, and an End node. -/
def RegularOnlyDialogue : UDlgDialogue :=
  { Nodes :=
      [some { SampleStartNode with NodeClass := EDlgNodeClass.Speech, NodeGUID := { A := 73 } },
        some { NodeClass := EDlgNodeClass.End, NodeGUID := { A := 72 } }] }

/-- The node without its enter events and enter conditions. -/
def UDlgNode.WithoutEnterItems (Node : UDlgNode) : UDlgNode :=
  { Node with EnterEvents := [], EnterConditions := [] }

/-- The node with the target index of each of its edges replaced by `Target` of the edge. -/
def UDlgNode.WithTargets (Node : UDlgNode) (Target : FDlgEdge → Int) : UDlgNode :=
  { Node with Children := Node.Children.map (fun Edge => { Edge with TargetIndex := Target Edge }) }

/-- A Speech node owned by "Merchant" whose edge has a condition without participant name. -/
def MerchantNode : UDlgNode :=
  { NodeGUID := { A := 74 }, OwnerName := "Merchant",
    Children :=
      [{ TargetIndex := 1, SpeakerState := "Calm", Conditions := [{ CallbackName := "IsOpen" }] }] }

/-- The start node `SampleStartNode`, the node of the merchant and an End node. -/
def TradeDialogue : UDlgDialogue :=
  { StartNodes := [some SampleStartNode]
    Nodes := [some MerchantNode, some { NodeClass := EDlgNodeClass.End, NodeGUID := { A := 72 } }] }

/-- A Speech node of "Guard" whose text arguments name "Player" twice, no one once and
"Guard" once. -/
def SampleArgumentsNode : UDlgNode :=
  { NodeGUID := { A := 75 }, OwnerName := "Guard",
    TextArguments :=
      [{ DisplayString := "Name", ParticipantName := "Player", VariableName := "Name" },
        { DisplayString := "Day", VariableName := "Day" },
        { DisplayString := "Rank", ParticipantName := "Guard", VariableName := "Rank" },
        { DisplayString := "Gold", ParticipantName := "Player", VariableName := "Gold" },
        { DisplayString := "Shop", ParticipantName := "Merchant", VariableName := "Shop" }] }

/-- A virtual parent whose first edge leads to an End node and whose second edge leads to a
node with an open option. -/
def BacktrackDialogue : UDlgDialogue :=
  { Nodes :=
      [some { NodeGUID := { A := 80 }, bIsVirtualParent := true,
              Children := [{ TargetIndex := 1 }, { TargetIndex := 2 }] },
       some { NodeClass := EDlgNodeClass.End, NodeGUID := { A := 81 } },
       some { NodeGUID := { A := 82 }, Children := [{ TargetIndex := 3 }] },
       some { NodeClass := EDlgNodeClass.End, NodeGUID := { A := 83 } }] }

/-- A sample of the parameters of `UpdateAndRefreshData` with automatic class binding: for
"Guard" one blueprint class and one native class, for "Player" two blueprint classes and one
native class, for "Merchant" one native class, for "Thief" two native classes. -/
def AutoBindEnv : FDlgRefreshEnv :=
  { RebuildAndUpdateNode := fun _ Node => Node
    bAutoSetDefaultParticipantClasses := true
    NativeClassesMap :=
      [("Guard", [some 2]), ("Player", [some 5]), ("Merchant", [some 6]),
        ("Thief", [some 8, some 9])]
    BlueprintClassesMap := [("Guard", [some 1]), ("Player", [some 3, some 4])] }

/-- The dialogue `GuardDialogue` with a registry that holds "Guard" twice, the outdated name
"Ghost" and an entry without name. -/
def StaleRegistryDialogue : UDlgDialogue :=
  { GuardDialogue with
    ParticipantsClasses :=
      [{ ParticipantName := "Guard", ParticipantClass := some 7 },
        { ParticipantName := "Ghost", ParticipantClass := some 1 },
        { ParticipantName := NAME_None, ParticipantClass := some 2 },
        { ParticipantName := "Guard", ParticipantClass := some 8 }] }

/-- The dialogue `TradeDialogue`, loaded, with a registry that binds "Merchant" to the class
42 and holds the outdated name "Ghost". -/
def BoundRegistryDialogue : UDlgDialogue :=
  { TradeDialogue with
    bWasLoaded := true
    ParticipantsClasses :=
      [{ ParticipantName := "Ghost", ParticipantClass := some 1 },
        { ParticipantName := "Merchant", ParticipantClass := some 42 }] }

/-! ## The timer to the next speech -/

/-- The settings `RebuildNextSpeechTimer` reads from `UDlgSystemSettings`, whose header is not
among the sources. -/
structure UDlgSystemSettings where
  SecondsFor10Char : FFloat
  MinSpeechTime : FFloat

/-- Engine `FText::ToString`: the `FString` of the text, as the list of its `TCHAR` code
units (UTF-16: a character beyond the basic plane takes two units). -/
def FText.ToString (Text : String) : List Nat :=
  Text.toList.foldr
    (fun c Units =>
      if c.toNat < 0x10000 then c.toNat :: Units
      else
        (0xD800 + (c.toNat - 0x10000) / 0x400) :: (0xDC00 + (c.toNat - 0x10000) % 0x400) ::
          Units)
    []

/-- Engine `FString::RemoveAt(Index, Count)` on the code units of the string. -/
def FString.RemoveAt (s : List Nat) (Index Count : Nat) : List Nat :=
  s.take Index ++ s.drop (Index + Count)

namespace FRegexMatcher

/-- The number of code units the part `[^>]*>` of the pattern matches at the start of the
string: the units up to the first `>` and that `>`; `none` when there is no `>`. -/
def MatchRestOfTag : List Nat → Option Nat
  | [] => none
  | c :: rest => if c = '>'.toNat then some 1 else (MatchRestOfTag rest).map (fun n => n + 1)

/-- The number of code units the pattern `<[^>]*>` matches at the start of the string. -/
def MatchTagAt : List Nat → Option Nat
  | [] => none
  | c :: rest => if c = '<'.toNat then (MatchRestOfTag rest).map (fun n => n + 1) else none

/-- Engine `FRegexMatcher::FindNext` on a matcher just created for the pattern `<[^>]*>`:
the leftmost match, as the pair of `GetMatchBeginning()` and `GetMatchEnding()`. -/
def FindNext : List Nat → Option (Nat × Nat)
  | [] => none
  | c :: rest =>
    match MatchTagAt (c :: rest) with
    | some Length => some (0, Length)
    | none => (FindNext rest).map (fun m => (m.1 + 1, m.2 + 1))

end FRegexMatcher

namespace UDlgNode_Speech

/-- The loop `while (Matcher.FindNext())` of `RebuildNextSpeechTimer` on `SourceText`, the
matcher being created anew after each removal, with a bound on the number of turns: `none`
when the bound is used up. -/
def RemoveTagsFuel : Nat → List Nat → Option (List Nat)
  | 0, _ => none
  | Fuel + 1, SourceText =>
    match FRegexMatcher.FindNext SourceText with
    | none => some SourceText
    | some (MatchBegin, MatchEnd) =>
      RemoveTagsFuel Fuel (FString.RemoveAt SourceText MatchBegin (MatchEnd - MatchBegin))

/-- Embeds `UDlgNode_Speech::RebuildNextSpeechTimer`; `Settings` is what
`GetDefault<UDlgSystemSettings>()` returns, `Arithmetic` the `float` arithmetic. The loop is
given one turn more than the text has code units; the result is `none` if that does not
bring it to its end. -/
def RebuildNextSpeechTimer (Arithmetic : FFloatArithmetic)
    (Settings : Option UDlgSystemSettings) (This : UDlgNode) : Option UDlgNode :=
  if This.bCustomTimer then some This
  else
    match Settings with
    | none => some This
    | some Settings =>
      match RemoveTagsFuel ((FText.ToString This.Text).length + 1)
          (FText.ToString This.Text) with
      | none => none
      | some SourceText =>
        let CharCount : Int := SourceText.length
        let DelayPer10Char := Settings.SecondsFor10Char
        let MinSpeechTime := Settings.MinSpeechTime
        let SpeechTime :=
          Arithmetic.CeilToFloat
            (Arithmetic.Multiply (Arithmetic.Divide (Arithmetic.OfInt32 CharCount) FFloat.Ten)
              DelayPer10Char)
        some (This.SetTimeToNextSpeech
          (if Arithmetic.Greater SpeechTime MinSpeechTime then SpeechTime else MinSpeechTime))

end UDlgNode_Speech

/-- A Speech node whose text has markup tags, one of them inside another. -/
def SampleMarkupNode : UDlgNode :=
  { NodeGUID := { A := 90 }, Text := "<b>Hi</b> <a <i>>there>" }

/-- The node `SampleMarkupNode` with the custom-timer flag on and `10.0f` as time to the next
speech. -/
def SampleCustomTimerNode : UDlgNode :=
  { SampleMarkupNode with bCustomTimer := true, fTimeToNextSpeech := FFloat.Ten }

/-- The dialogue with the target index of every edge of every node replaced by `Target` of
the edge. -/
def UDlgDialogue.WithTargets (d : UDlgDialogue) (Target : FDlgEdge → Int) : UDlgDialogue :=
  { d with
    StartNodes := d.StartNodes.map (Option.map (fun n => n.WithTargets Target))
    Nodes := d.Nodes.map (Option.map (fun n => n.WithTargets Target)) }

/-- A condition that involves a participant and a second participant and names neither. -/
def SampleUnnamedSecondCondition : FDlgCondition :=
  { CallbackName := "HasGold", bSecondParticipantInvolved := true }

/-- A Speech node of "Guard" whose edge has the condition `SampleUnnamedSecondCondition`, and
an End node. -/
def UnnamedSecondDialogue : UDlgDialogue :=
  { Nodes :=
      [some { NodeGUID := { A := 78 }, OwnerName := "Guard",
              Children :=
                [{ TargetIndex := 1, Conditions := [SampleUnnamedSecondCondition] }] },
        some { NodeClass := EDlgNodeClass.End, NodeGUID := { A := 79 } }] }

/-- The node `AnonymousNode`, whose items name no participant, and an End node. -/
def AnonymousOnlyDialogue : UDlgDialogue :=
  { Nodes :=
      [some AnonymousNode, some { NodeClass := EDlgNodeClass.End, NodeGUID := { A := 71 } }] }

/-! # Properties -/

/-! ## The association list -/

theorem TMap.Find_filter_ne {K V : Type} [DecidableEq K] (m : TMap K V) (Key k : K)
    (h : Key ≠ k) :
    TMap.Find (m.filter (fun p => !decide (p.1 = Key))) k = TMap.Find m k := by
  induction m with
  | nil => rfl
  | cons p rest ih =>
    obtain ⟨a, b⟩ := p
    by_cases ha : a = Key
    · subst ha
      simp [List.filter, TMap.Find, h, ih]
    · simp [List.filter, TMap.Find, ha, ih]

theorem TMap.Find_Add {K V : Type} [DecidableEq K] (m : TMap K V) (Key k : K) (Value : V) :
    TMap.Find (TMap.Add m Key Value) k = if Key = k then some Value else TMap.Find m k := by
  unfold TMap.Add
  by_cases h : Key = k
  · simp [TMap.Find, h]
  · simp [TMap.Find, h, TMap.Find_filter_ne m Key k h]

theorem getD_none_eq_some_iff {α : Type} (l : List (Option α)) (i : Nat) (x : α) :
    l.getD i none = some x ↔ l[i]? = some (some x) := by
  rw [List.getD_eq_getElem?_getD]
  cases h : l[i]? with
  | none => simp
  | some y => simp

theorem FGuid.IsValid_zero : FGuid.zero.IsValid = false := by decide

namespace UDlgDialogue

/-! ## `UpdateGUIDToIndexMap` -/

theorem UpdateGUIDToIndexMap_Nodes (d : UDlgDialogue) (Node : Option UDlgNode) (i : Int) :
    (d.UpdateGUIDToIndexMap Node i).Nodes = d.Nodes := by
  unfold UpdateGUIDToIndexMap
  cases Node with
  | none => rfl
  | some n => dsimp only; split <;> rfl

theorem UpdateGUIDToIndexMap_Find (d : UDlgDialogue) (Node : Option UDlgNode) (i : Int)
    (g : FGuid) :
    TMap.Find (d.UpdateGUIDToIndexMap Node i).NodesGUIDToIndexMap g =
      match Node with
      | none => TMap.Find d.NodesGUIDToIndexMap g
      | some n =>
        if d.IsValidNodeIndex i = true ∧ n.HasGUID = true ∧ n.GetGUID = g then some i
        else TMap.Find d.NodesGUIDToIndexMap g := by
  unfold UpdateGUIDToIndexMap
  cases Node with
  | none => rfl
  | some n =>
    dsimp only
    by_cases hv : d.IsValidNodeIndex i = true
    · by_cases hg : n.HasGUID = true
      · simp [hv, hg, TMap.Find_Add]
      · simp [hv, hg]
    · simp [hv]

/-! ## The loop of `SetNodes` -/

theorem SetNodesLoop_zero (d : UDlgDialogue) : d.SetNodesLoop 0 = d := rfl

theorem SetNodesLoop_succ (d : UDlgDialogue) (k : Nat) :
    d.SetNodesLoop (k + 1) =
      (d.SetNodesLoop k).UpdateGUIDToIndexMap ((d.SetNodesLoop k).Nodes.getD k none) k := by
  simp [SetNodesLoop, List.range_succ, List.foldl_append]

theorem SetNodesLoop_Nodes (d : UDlgDialogue) (k : Nat) : (d.SetNodesLoop k).Nodes = d.Nodes := by
  induction k with
  | zero => rfl
  | succ k ih => rw [SetNodesLoop_succ, UpdateGUIDToIndexMap_Nodes, ih]

theorem IsValidNodeIndex_natCast (d : UDlgDialogue) (k : Nat) :
    d.IsValidNodeIndex (k : Int) = decide (k < d.Nodes.length) := by
  simp [IsValidNodeIndex, TArray.IsValidIndex]

/-- One more turn of the loop, read at the key `g`. -/
theorem SetNodesLoop_succ_Find (d : UDlgDialogue) (k : Nat) (g : FGuid) :
    TMap.Find (d.SetNodesLoop (k + 1)).NodesGUIDToIndexMap g =
      match d.Nodes.getD k none with
      | none => TMap.Find (d.SetNodesLoop k).NodesGUIDToIndexMap g
      | some n =>
        if k < d.Nodes.length ∧ n.HasGUID = true ∧ n.GetGUID = g then some (k : Int)
        else TMap.Find (d.SetNodesLoop k).NodesGUIDToIndexMap g := by
  rw [SetNodesLoop_succ, UpdateGUIDToIndexMap_Find, SetNodesLoop_Nodes]
  cases d.Nodes.getD k none with
  | none => rfl
  | some n =>
    simp only [IsValidNodeIndex_natCast, SetNodesLoop_Nodes, decide_eq_true_eq]

/-- A key carried by none of the first `k` nodes keeps the value it had. -/
theorem SetNodesLoop_Find_of_absent (d : UDlgDialogue) (g : FGuid) (k : Nat)
    (h : ∀ j n, j < k → d.Nodes.getD j none = some n → n.GetGUID ≠ g) :
    TMap.Find (d.SetNodesLoop k).NodesGUIDToIndexMap g = TMap.Find d.NodesGUIDToIndexMap g := by
  induction k with
  | zero => rfl
  | succ k ih =>
    have ih1 := ih (fun j n hj hn => h j n (Nat.lt_succ_of_lt hj) hn)
    rw [SetNodesLoop_succ_Find]
    cases hk : d.Nodes.getD k none with
    | none => exact ih1
    | some n =>
      have hne : n.GetGUID ≠ g := h k n (Nat.lt_succ_self k) hk
      simp [hne, ih1]

/-- The node at `i` carries a valid GUID that no other node carries: once the loop has
passed `i`, the GUID maps to `i`. -/
theorem SetNodesLoop_Find_of_unique (d : UDlgDialogue) (i : Nat) (n : UDlgNode)
    (hi : d.Nodes.getD i none = some n) (hg : n.HasGUID = true)
    (huniq : ∀ j m, d.Nodes.getD j none = some m → m.GetGUID = n.GetGUID → j = i)
    (k : Nat) (hik : i < k) (hk : k ≤ d.Nodes.length) :
    TMap.Find (d.SetNodesLoop k).NodesGUIDToIndexMap n.GetGUID = some (i : Int) := by
  induction k with
  | zero => omega
  | succ k ih =>
    rw [SetNodesLoop_succ_Find]
    by_cases hki : k = i
    · subst hki
      have hlt : k < d.Nodes.length := by omega
      rw [hi]
      simp [hg, hlt]
    · have hik1 : i < k := by omega
      have ih1 := ih hik1 (by omega)
      cases hkn : d.Nodes.getD k none with
      | none => exact ih1
      | some m =>
        have hne : m.GetGUID ≠ n.GetGUID := fun heq => hki (huniq k m hkn heq)
        simp [hne, ih1]

/-- Started on an empty map, the loop only stores pairs that the array backs. -/
theorem SetNodesLoop_backed (d : UDlgDialogue) (hempty : d.NodesGUIDToIndexMap = [])
    (k : Nat) (g : FGuid) (j : Int)
    (h : TMap.Find (d.SetNodesLoop k).NodesGUIDToIndexMap g = some j) :
    ∃ (i : Nat) (n : UDlgNode), j = (i : Int) ∧ i < k ∧ i < d.Nodes.length ∧ d.Nodes.getD i none = some n ∧
      n.HasGUID = true ∧ n.GetGUID = g := by
  induction k with
  | zero => simp [SetNodesLoop_zero, hempty, TMap.Find] at h
  | succ k ih =>
    rw [SetNodesLoop_succ_Find] at h
    have step : TMap.Find (d.SetNodesLoop k).NodesGUIDToIndexMap g = some j →
        ∃ (i : Nat) (n : UDlgNode), j = (i : Int) ∧ i < k + 1 ∧ i < d.Nodes.length ∧
          d.Nodes.getD i none = some n ∧ n.HasGUID = true ∧ n.GetGUID = g := by
      intro h1
      obtain ⟨i, n, h2, h3, h4⟩ := ih h1
      exact ⟨i, n, h2, Nat.lt_succ_of_lt h3, h4⟩
    cases hkn : d.Nodes.getD k none with
    | none =>
      rw [hkn] at h
      exact step h
    | some m =>
      rw [hkn] at h
      dsimp only at h
      split at h
      · rename_i hc
        obtain ⟨hlt, hmg, hmeq⟩ := hc
        have hj : j = (k : Int) := by
          injection h with h1
          exact h1.symm
        exact ⟨k, m, hj, Nat.lt_succ_self k, hlt, hkn, hmg, hmeq⟩
      · exact step h

theorem GetNodeIndexForGUID_eq_of_Find_eq (d e : UDlgDialogue) (g : FGuid)
    (h : TMap.Find d.NodesGUIDToIndexMap g = TMap.Find e.NodesGUIDToIndexMap g) :
    d.GetNodeIndexForGUID g = e.GetNodeIndexForGUID g := by
  unfold GetNodeIndexForGUID
  rw [h]

theorem SetNodes_Nodes (d : UDlgDialogue) (InNodes : List (Option UDlgNode)) :
    (d.SetNodes InNodes).Nodes = InNodes := by
  unfold SetNodes
  rw [SetNodesLoop_Nodes]

/-! ## C1 -/

theorem C1_aux (d : UDlgDialogue) (InNodes : List (Option UDlgNode))
    (i : Nat) (n : UDlgNode) (hi : InNodes[i]? = some (some n)) (hg : n.HasGUID = true)
    (huniq : ∀ (j : Nat) (m : UDlgNode),
      InNodes[j]? = some (some m) → m.GetGUID = n.GetGUID → j = i) :
    (d.SetNodes InNodes).GetNodeIndexForGUID n.GetGUID = (i : Int) := by
  have hlen : i < InNodes.length := by
    by_contra hge
    rw [List.getElem?_eq_none (Nat.le_of_not_lt hge)] at hi
    exact Option.noConfusion hi
  have hfind : TMap.Find (d.SetNodes InNodes).NodesGUIDToIndexMap n.GetGUID = some (i : Int) := by
    unfold SetNodes
    apply SetNodesLoop_Find_of_unique _ i n
    · exact (getD_none_eq_some_iff InNodes i n).mpr hi
    · exact hg
    · intro j m hj hm
      exact huniq j m ((getD_none_eq_some_iff InNodes j m).mp hj) hm
    · exact hlen
    · exact Nat.le_refl _
  unfold GetNodeIndexForGUID
  rw [hfind]

/-- C1: after `SetNodes(InNodes)`, whatever the map held before, every index `i` whose node
is not null and has a valid GUID that no other node of `InNodes` carries is the value
`GetNodeIndexForGUID` returns for that GUID. -/
theorem C1_SetNodes_index_of_unique_GUID (d : UDlgDialogue) (InNodes : List (Option UDlgNode))
    (i : Nat) (n : UDlgNode) (hi : InNodes[i]? = some (some n)) (hg : n.HasGUID = true)
    (huniq : ∀ (j : Nat) (m : UDlgNode),
      InNodes[j]? = some (some m) → m.GetGUID = n.GetGUID → j = i) :
    (d.SetNodes InNodes).GetNodeIndexForGUID n.GetGUID = (i : Int) :=
  C1_aux d InNodes i n hi hg huniq

/-- C1 at a concrete call: on a dialogue whose map already sends `SampleGuid2` to slot 0,
`SetNodes(SampleNodes)` makes the GUID of the End node at slot 3 resolve to 3. -/
theorem C1_SetNodes_index_of_unique_GUID_witness :
    SampleNodes[3]? = some (some SampleEnd2) ∧ SampleEnd2.HasGUID = true ∧
      (({ NodesGUIDToIndexMap := [(SampleGuid2, 0)] } : UDlgDialogue).SetNodes
        SampleNodes).GetNodeIndexForGUID SampleEnd2.GetGUID = 3 :=
  ⟨by decide, by decide,
    C1_SetNodes_index_of_unique_GUID { NodesGUIDToIndexMap := [(SampleGuid2, 0)] } SampleNodes 3
      SampleEnd2 (by decide) (by decide) (by
        intro j m hj hm
        match j, hj with
        | 0, hj =>
          have hm0 : m = SampleSpeech1 := by
            simp [SampleNodes] at hj
            exact hj.symm
          subst hm0
          exact absurd hm (by decide)
        | 1, hj => simp [SampleNodes] at hj
        | 2, hj =>
          have hm0 : m = SampleNoGuid := by
            simp [SampleNodes] at hj
            exact hj.symm
          subst hm0
          exact absurd hm (by decide)
        | 3, _ => rfl
        | j + 4, hj => simp [SampleNodes] at hj)⟩

/-! ## C2 -/

/-- C2 fails as stated: `SetNodes` does not clear the map. After `SetNodes([SampleEnd2])` on a
dialogue that held `SampleSpeech1`, the GUID of the replaced node, which no node of the new
list carries, still resolves to slot 0 instead of `INDEX_NONE`, and the map differs from the
one the same call builds on an empty dialogue. -/
theorem C2_counterexample :
    (∀ n, some n ∈ [some SampleEnd2] → n.GetGUID ≠ SampleGuid1) ∧
      (OneSpeechDialogue.SetNodes [some SampleEnd2]).GetNodeIndexForGUID SampleGuid1 = 0 ∧
      (EmptyDialogue.SetNodes [some SampleEnd2]).GetNodeIndexForGUID SampleGuid1 = INDEX_NONE ∧
      (OneSpeechDialogue.SetNodes [some SampleEnd2]).NodesGUIDToIndexMap ≠
        (EmptyDialogue.SetNodes [some SampleEnd2]).NodesGUIDToIndexMap := by
  refine ⟨?_, by decide, by decide, by decide⟩
  intro n hn
  have hn1 : n = SampleEnd2 := by simpa using hn
  subst hn1
  decide

/-- C2, amended: `SetNodes(InNodes)` installs `InNodes` as the node array and leaves the entry
of every GUID carried by no node of `InNodes` as it was: `GetNodeIndexForGUID` returns for it
what it returned before the call. -/
theorem C2_SetNodes_keeps_absent_GUID (d : UDlgDialogue) (InNodes : List (Option UDlgNode))
    (g : FGuid) (h : ∀ n, some n ∈ InNodes → n.GetGUID ≠ g) :
    (d.SetNodes InNodes).Nodes = InNodes ∧
      (d.SetNodes InNodes).GetNodeIndexForGUID g = d.GetNodeIndexForGUID g := by
  refine ⟨SetNodes_Nodes d InNodes, ?_⟩
  apply GetNodeIndexForGUID_eq_of_Find_eq
  unfold SetNodes
  rw [SetNodesLoop_Find_of_absent]
  intro j n _ hj
  have hj1 : InNodes[j]? = some (some n) := (getD_none_eq_some_iff InNodes j n).mp hj
  exact h n (List.getElem?_mem hj1)

/-- C2, amended, at a concrete call: `SampleGuid1` keeps slot 0 through
`SetNodes([SampleEnd2])`. -/
theorem C2_SetNodes_keeps_absent_GUID_witness :
    (OneSpeechDialogue.SetNodes [some SampleEnd2]).Nodes = [some SampleEnd2] ∧
      (OneSpeechDialogue.SetNodes [some SampleEnd2]).GetNodeIndexForGUID SampleGuid1 =
        OneSpeechDialogue.GetNodeIndexForGUID SampleGuid1 :=
  C2_SetNodes_keeps_absent_GUID OneSpeechDialogue [some SampleEnd2] SampleGuid1 (by
    intro n hn
    have hn1 : n = SampleEnd2 := by simpa using hn
    subst hn1
    decide)

/-! ## C3 -/

/-- C3: `SetNode(NodeIndex, InNode)` returns the dialogue it was given, node array and
GUID map included, when `NodeIndex` is not a valid node index or `InNode` is null. -/
theorem C3_SetNode_noop (d : UDlgDialogue) (NodeIndex : Int) (InNode : Option UDlgNode)
    (h : d.IsValidNodeIndex NodeIndex = false ∨ InNode = none) :
    d.SetNode NodeIndex InNode = d := by
  unfold SetNode
  cases InNode with
  | none => rfl
  | some n =>
    cases h with
    | inl hv => simp [hv]
    | inr hn => exact Option.noConfusion hn

/-- C3 at a concrete call: index 1 is stale for a one-node dialogue. -/
theorem C3_SetNode_noop_witness :
    OneSpeechDialogue.SetNode 1 (some SampleEnd2) = OneSpeechDialogue :=
  C3_SetNode_noop OneSpeechDialogue 1 (some SampleEnd2) (Or.inl (by decide))

/-! ## C4 -/

/-- C4: for a valid index and a node with a valid GUID, `SetNode` stores the node in that
slot, keeps every other slot (and the length) of the node array, maps the GUID of the node
to the index and keeps the entry of every other GUID. -/
theorem C4_SetNode_frame (d : UDlgDialogue) (NodeIndex : Int) (n : UDlgNode)
    (hi : d.IsValidNodeIndex NodeIndex = true) (hg : n.HasGUID = true) :
    (d.SetNode NodeIndex (some n)).Nodes[NodeIndex.toNat]? = some (some n) ∧
      (d.SetNode NodeIndex (some n)).Nodes.length = d.Nodes.length ∧
      (∀ j : Nat, j ≠ NodeIndex.toNat →
        (d.SetNode NodeIndex (some n)).Nodes[j]? = d.Nodes[j]?) ∧
      TMap.Find (d.SetNode NodeIndex (some n)).NodesGUIDToIndexMap n.GetGUID = some NodeIndex ∧
      (d.SetNode NodeIndex (some n)).GetNodeIndexForGUID n.GetGUID = NodeIndex ∧
      (∀ g : FGuid, g ≠ n.GetGUID →
        TMap.Find (d.SetNode NodeIndex (some n)).NodesGUIDToIndexMap g =
          TMap.Find d.NodesGUIDToIndexMap g) := by
  have hlt : NodeIndex.toNat < d.Nodes.length := by
    simp [IsValidNodeIndex, TArray.IsValidIndex] at hi
    omega
  have hN : (d.SetNode NodeIndex (some n)).Nodes = d.Nodes.set NodeIndex.toNat (some n) := by
    simp [SetNode, hi, UpdateGUIDToIndexMap_Nodes]
  have hv : ({ d with Nodes := d.Nodes.set NodeIndex.toNat (some n) } :
      UDlgDialogue).IsValidNodeIndex NodeIndex = true := by
    simpa [IsValidNodeIndex, TArray.IsValidIndex] using hi
  have hF : ∀ g, TMap.Find (d.SetNode NodeIndex (some n)).NodesGUIDToIndexMap g =
      if n.GetGUID = g then some NodeIndex else TMap.Find d.NodesGUIDToIndexMap g := by
    intro g
    simp only [SetNode, hi, Bool.not_true, Bool.false_eq_true, if_false]
    rw [UpdateGUIDToIndexMap_Find]
    simp only [hv, hg, true_and]
  refine ⟨?_, ?_, ?_, ?_, ?_, ?_⟩
  · rw [hN, List.getElem?_set_self hlt]
  · rw [hN, List.length_set]
  · intro j hj
    rw [hN, List.getElem?_set_ne (Ne.symm hj)]
  · rw [hF]; simp
  · unfold GetNodeIndexForGUID
    rw [hF]; simp
  · intro g hne
    rw [hF]
    simp [Ne.symm hne]

/-- C4 at a concrete call: overwriting slot 0 of the one-node dialogue. -/
theorem C4_SetNode_frame_witness :
    (OneSpeechDialogue.SetNode 0 (some SampleEnd2)).Nodes[(0 : Int).toNat]? =
        some (some SampleEnd2) ∧
      (OneSpeechDialogue.SetNode 0 (some SampleEnd2)).Nodes.length =
        OneSpeechDialogue.Nodes.length ∧
      (∀ j : Nat, j ≠ (0 : Int).toNat →
        (OneSpeechDialogue.SetNode 0 (some SampleEnd2)).Nodes[j]? = OneSpeechDialogue.Nodes[j]?) ∧
      TMap.Find (OneSpeechDialogue.SetNode 0 (some SampleEnd2)).NodesGUIDToIndexMap
        SampleEnd2.GetGUID = some 0 ∧
      (OneSpeechDialogue.SetNode 0 (some SampleEnd2)).GetNodeIndexForGUID SampleEnd2.GetGUID = 0 ∧
      (∀ g : FGuid, g ≠ SampleEnd2.GetGUID →
        TMap.Find (OneSpeechDialogue.SetNode 0 (some SampleEnd2)).NodesGUIDToIndexMap g =
          TMap.Find OneSpeechDialogue.NodesGUIDToIndexMap g) :=
  C4_SetNode_frame OneSpeechDialogue 0 SampleEnd2 (by decide) (by decide)

/-! ## `SetNode` -/

theorem SetNode_Nodes (d : UDlgDialogue) (NodeIndex : Int) (n : UDlgNode)
    (hi : d.IsValidNodeIndex NodeIndex = true) :
    (d.SetNode NodeIndex (some n)).Nodes = d.Nodes.set NodeIndex.toNat (some n) := by
  simp [SetNode, hi, UpdateGUIDToIndexMap_Nodes]

theorem SetNode_Find (d : UDlgDialogue) (NodeIndex : Int) (n : UDlgNode)
    (hi : d.IsValidNodeIndex NodeIndex = true) (g : FGuid) :
    TMap.Find (d.SetNode NodeIndex (some n)).NodesGUIDToIndexMap g =
      if n.HasGUID = true ∧ n.GetGUID = g then some NodeIndex
      else TMap.Find d.NodesGUIDToIndexMap g := by
  have hv : ({ d with Nodes := d.Nodes.set NodeIndex.toNat (some n) } :
      UDlgDialogue).IsValidNodeIndex NodeIndex = true := by
    simpa [IsValidNodeIndex, TArray.IsValidIndex] using hi
  simp only [SetNode, hi, Bool.not_true, Bool.false_eq_true, if_false]
  rw [UpdateGUIDToIndexMap_Find]
  simp only [hv, true_and]

theorem toNat_lt_of_IsValidNodeIndex (d : UDlgDialogue) (j : Int)
    (h : d.IsValidNodeIndex j = true) : 0 ≤ j ∧ j.toNat < d.Nodes.length := by
  simp [IsValidNodeIndex, TArray.IsValidIndex] at h
  omega

/-! ## C5 -/

theorem SetNodes_GUIDMapIsView (d : UDlgDialogue) (InNodes : List (Option UDlgNode)) :
    ({ d with NodesGUIDToIndexMap := [] } : UDlgDialogue).SetNodes InNodes |>.GUIDMapIsView := by
  intro g j h
  unfold SetNodes at h
  obtain ⟨i, n, hj, _, hlt, hn, _, hng⟩ := SetNodesLoop_backed _ rfl _ g j h
  have hlt1 : i < InNodes.length := hlt
  subst hj
  refine ⟨?_, n, ?_, hng⟩
  · rw [IsValidNodeIndex_natCast, SetNodes_Nodes]
    exact decide_eq_true hlt1
  · rw [SetNodes_Nodes]
    exact (getD_none_eq_some_iff InNodes i n).mp hn

theorem SetNode_GUIDMapIsView (d : UDlgDialogue) (NodeIndex : Int) (InNode : Option UDlgNode)
    (hview : d.GUIDMapIsView) (hkeep : d.SetNodeKeepsGUID NodeIndex InNode) :
    (d.SetNode NodeIndex InNode).GUIDMapIsView := by
  cases InNode with
  | none => exact hview
  | some n =>
    by_cases hi : d.IsValidNodeIndex NodeIndex = true
    · obtain ⟨h0, hlt⟩ := toNat_lt_of_IsValidNodeIndex d NodeIndex hi
      have hvalid : ∀ j : Int, d.IsValidNodeIndex j = true →
          (d.SetNode NodeIndex (some n)).IsValidNodeIndex j = true := by
        intro j hj
        simpa [IsValidNodeIndex, TArray.IsValidIndex, SetNode_Nodes d NodeIndex n hi] using hj
      have hslot : (d.SetNode NodeIndex (some n)).Nodes[NodeIndex.toNat]? = some (some n) := by
        rw [SetNode_Nodes d NodeIndex n hi, List.getElem?_set_self hlt]
      intro g j h
      rw [SetNode_Find d NodeIndex n hi] at h
      split at h
      · rename_i hc
        have hj : j = NodeIndex := by
          injection h with h1
          exact h1.symm
        subst hj
        exact ⟨hvalid j hi, n, hslot, hc.2⟩
      · obtain ⟨hjv, m, hm, hmg⟩ := hview g j h
        refine ⟨hvalid j hjv, ?_⟩
        by_cases hsame : j.toNat = NodeIndex.toNat
        · rw [hsame] at hm
          have hgg : m.GetGUID = n.GetGUID := hkeep n m rfl hi hm
          exact ⟨n, by rw [hsame]; exact hslot, by rw [← hgg]; exact hmg⟩
        · refine ⟨m, ?_, hmg⟩
          rw [SetNode_Nodes d NodeIndex n hi, List.getElem?_set_ne (Ne.symm hsame)]
          exact hm
    · have hno : d.SetNode NodeIndex (some n) = d := by
        simp [SetNode, hi]
      rw [hno]
      exact hview

theorem SetNodeCalls_GUIDMapIsView (calls : List (Int × Option UDlgNode)) :
    ∀ d : UDlgDialogue, d.GUIDMapIsView → d.SetNodeCallsKeepGUID calls →
      (d.SetNodeCalls calls).GUIDMapIsView := by
  induction calls with
  | nil => intro d hview _; exact hview
  | cons call rest ih =>
    intro d hview hkeep
    obtain ⟨h1, h2⟩ := hkeep
    exact ih (d.SetNode call.1 call.2) (SetNode_GUIDMapIsView d call.1 call.2 hview h1) h2

/-- C5 fails as stated: starting from an empty dialogue, `SetNodes([SampleSpeech1])` followed
by `SetNode(0, SampleEnd2)` leaves the pair `SampleGuid1 -> 0` in the map although slot 0 now
holds a node with another GUID: the GUID of the replaced node still resolves to that slot. -/
theorem C5_counterexample :
    TMap.Find (applyEdits EmptyDialogue
        [DlgEdit.SetNodes [some SampleSpeech1],
          DlgEdit.SetNode 0 (some SampleEnd2)]).NodesGUIDToIndexMap SampleGuid1 = some 0 ∧
      (applyEdits EmptyDialogue
        [DlgEdit.SetNodes [some SampleSpeech1],
          DlgEdit.SetNode 0 (some SampleEnd2)]).Nodes = [some SampleEnd2] ∧
      SampleEnd2.GetGUID ≠ SampleGuid1 ∧
      ¬ (applyEdits EmptyDialogue
        [DlgEdit.SetNodes [some SampleSpeech1],
          DlgEdit.SetNode 0 (some SampleEnd2)]).GUIDMapIsView := by
  refine ⟨by decide, by decide, by decide, ?_⟩
  intro hview
  obtain ⟨_, n, hn, hg⟩ := hview SampleGuid1 0 (by decide)
  have hn1 : n = SampleEnd2 := by
    have h0 : (applyEdits EmptyDialogue
        [DlgEdit.SetNodes [some SampleSpeech1],
          DlgEdit.SetNode 0 (some SampleEnd2)]).Nodes[(0 : Int).toNat]? =
        some (some SampleEnd2) := by decide
    rw [h0] at hn
    injection hn with hn
    injection hn with hn
    exact hn.symm
  subst hn1
  exact absurd hg (by decide)

/-- C5, amended: after `SetNodes(InNodes)` on an empty map, followed by any sequence of
`SetNode` calls each of which is ignored or overwrites a slot that is null or holds a node of
the same GUID as the new node, every pair `g -> j` of the map has `j` a valid index whose
node carries the GUID `g`. -/
theorem C5_map_is_view_of_nodes (d : UDlgDialogue) (InNodes : List (Option UDlgNode))
    (calls : List (Int × Option UDlgNode))
    (hkeep : (({ d with NodesGUIDToIndexMap := [] } : UDlgDialogue).SetNodes
      InNodes).SetNodeCallsKeepGUID calls) :
    ((({ d with NodesGUIDToIndexMap := [] } : UDlgDialogue).SetNodes InNodes).SetNodeCalls
      calls).GUIDMapIsView :=
  SetNodeCalls_GUIDMapIsView calls _ (SetNodes_GUIDMapIsView d InNodes) hkeep

/-- C5, amended, at a concrete run: `SetNodes(SampleNodes)`, then a node put into the null
slot 1, a call with the stale index 5, and slot 0 overwritten by a node of the same GUID. -/
theorem C5_map_is_view_of_nodes_witness :
    ((({ EmptyDialogue with NodesGUIDToIndexMap := [] } : UDlgDialogue).SetNodes
      SampleNodes).SetNodeCalls
        [(1, some SampleNoGuid), (5, some SampleEnd2), (0, some SampleSelector1)]).GUIDMapIsView :=
  C5_map_is_view_of_nodes EmptyDialogue SampleNodes
    [(1, some SampleNoGuid), (5, some SampleEnd2), (0, some SampleSelector1)]
    ⟨by
      intro n m _ _ hm
      have h1 : (({ EmptyDialogue with NodesGUIDToIndexMap := [] } : UDlgDialogue).SetNodes
          SampleNodes).Nodes[(1 : Int).toNat]? = some none := by decide
      rw [h1] at hm
      injection hm with hm
      exact Option.noConfusion hm,
    by
      intro n m _ hv _
      exact absurd hv (by decide),
    by
      intro n m hn _ hm
      have h0 : (((({ EmptyDialogue with NodesGUIDToIndexMap := [] } : UDlgDialogue).SetNodes
          SampleNodes).SetNode 1 (some SampleNoGuid)).SetNode 5
            (some SampleEnd2)).Nodes[(0 : Int).toNat]? = some (some SampleSpeech1) := by decide
      have hm1 : m = SampleSpeech1 := by
        rw [h0] at hm
        injection hm with hm
        injection hm with hm
        exact hm.symm
      have hn1 : n = SampleSelector1 := by
        injection hn with hn
        exact hn.symm
      subst hm1
      subst hn1
      decide,
    trivial⟩

/-! ## C6 -/

theorem UpdateGUIDToIndexMap_Find_zero (d : UDlgDialogue) (Node : Option UDlgNode) (i : Int) :
    TMap.Find (d.UpdateGUIDToIndexMap Node i).NodesGUIDToIndexMap FGuid.zero =
      TMap.Find d.NodesGUIDToIndexMap FGuid.zero := by
  rw [UpdateGUIDToIndexMap_Find]
  cases Node with
  | none => rfl
  | some n =>
    dsimp only
    have hno : ¬ (d.IsValidNodeIndex i = true ∧ n.HasGUID = true ∧ n.GetGUID = FGuid.zero) := by
      rintro ⟨_, hg, hz⟩
      have hval : n.NodeGUID.IsValid = true := hg
      have hzero : n.NodeGUID = FGuid.zero := hz
      rw [hzero, FGuid.IsValid_zero] at hval
      exact Bool.noConfusion hval
    rw [if_neg hno]

theorem SetNodesLoop_Find_zero (d : UDlgDialogue) (k : Nat) :
    TMap.Find (d.SetNodesLoop k).NodesGUIDToIndexMap FGuid.zero =
      TMap.Find d.NodesGUIDToIndexMap FGuid.zero := by
  induction k with
  | zero => rfl
  | succ k ih => rw [SetNodesLoop_succ, UpdateGUIDToIndexMap_Find_zero, ih]

theorem SetNodes_Find_zero (d : UDlgDialogue) (InNodes : List (Option UDlgNode)) :
    TMap.Find (d.SetNodes InNodes).NodesGUIDToIndexMap FGuid.zero =
      TMap.Find d.NodesGUIDToIndexMap FGuid.zero := by
  unfold SetNodes
  rw [SetNodesLoop_Find_zero]

theorem SetNode_Find_zero (d : UDlgDialogue) (NodeIndex : Int) (InNode : Option UDlgNode) :
    TMap.Find (d.SetNode NodeIndex InNode).NodesGUIDToIndexMap FGuid.zero =
      TMap.Find d.NodesGUIDToIndexMap FGuid.zero := by
  unfold SetNode
  cases InNode with
  | none => rfl
  | some n =>
    dsimp only
    split
    · rfl
    · rw [UpdateGUIDToIndexMap_Find_zero]

theorem applyEdits_Find_zero (edits : List DlgEdit) :
    ∀ d : UDlgDialogue,
      TMap.Find (applyEdits d edits).NodesGUIDToIndexMap FGuid.zero =
        TMap.Find d.NodesGUIDToIndexMap FGuid.zero := by
  induction edits with
  | nil => intro d; rfl
  | cons edit rest ih =>
    intro d
    have hstep : applyEdits d (edit :: rest) = applyEdits (DlgEdit.apply d edit) rest := rfl
    rw [hstep, ih]
    cases edit with
    | SetNodes InNodes => exact SetNodes_Find_zero d InNodes
    | SetNode NodeIndex InNode => exact SetNode_Find_zero d NodeIndex InNode

/-- C6: starting from an empty map (and any node array), after any sequence of `SetNodes` and
`SetNode` calls, null nodes and nodes without GUID included, the zero GUID is not a key of the
map: `GetNodeIndexForGUID` answers `INDEX_NONE` for it. -/
theorem C6_zero_GUID_never_a_key (d : UDlgDialogue) (edits : List DlgEdit) :
    TMap.Find (applyEdits { d with NodesGUIDToIndexMap := [] } edits).NodesGUIDToIndexMap
        FGuid.zero = none ∧
      (applyEdits { d with NodesGUIDToIndexMap := [] } edits).GetNodeIndexForGUID FGuid.zero =
        INDEX_NONE := by
  have h : TMap.Find (applyEdits { d with NodesGUIDToIndexMap := [] } edits).NodesGUIDToIndexMap
      FGuid.zero = none := by
    rw [applyEdits_Find_zero]
    rfl
  refine ⟨h, ?_⟩
  unfold GetNodeIndexForGUID
  rw [h]

/-! ## C7 -/

/-- C7: let the nodes be installed by `SetNodes` on an empty map, all of them non-null with
valid, pairwise distinct GUIDs. Then for a valid index `i` the GUID `GetNodeGUIDForIndex(i)`
is found and `GetNodeIndexForGUID` sends it back to `i`; for an invalid index `i` the GUID
returned is the zero GUID and `GetNodeIndexForGUID` of it is `INDEX_NONE`. -/
theorem C7_index_GUID_round_trip (d : UDlgDialogue) (InNodes : List (Option UDlgNode))
    (hnodes : ∀ x ∈ InNodes, ∃ n : UDlgNode, x = some n ∧ n.HasGUID = true)
    (hdistinct : ∀ (i j : Nat) (n m : UDlgNode), InNodes[i]? = some (some n) →
      InNodes[j]? = some (some m) → n.GetGUID = m.GetGUID → i = j)
    (i : Int) :
    ((({ d with NodesGUIDToIndexMap := [] } : UDlgDialogue).SetNodes InNodes).IsValidNodeIndex i
        = true →
      ∃ g : FGuid,
        (({ d with NodesGUIDToIndexMap := [] } : UDlgDialogue).SetNodes
          InNodes).GetNodeGUIDForIndex i = some g ∧
        (({ d with NodesGUIDToIndexMap := [] } : UDlgDialogue).SetNodes
          InNodes).GetNodeIndexForGUID g = i) ∧
    ((({ d with NodesGUIDToIndexMap := [] } : UDlgDialogue).SetNodes InNodes).IsValidNodeIndex i
        = false →
      (({ d with NodesGUIDToIndexMap := [] } : UDlgDialogue).SetNodes
          InNodes).GetNodeGUIDForIndex i = some FGuid.zero ∧
        (({ d with NodesGUIDToIndexMap := [] } : UDlgDialogue).SetNodes
          InNodes).GetNodeIndexForGUID FGuid.zero = INDEX_NONE) := by
  constructor
  · intro hv
    obtain ⟨h0, hlt⟩ := toNat_lt_of_IsValidNodeIndex _ i hv
    rw [SetNodes_Nodes] at hlt
    obtain ⟨n, hn, hg⟩ := hnodes (InNodes[i.toNat]) (List.getElem_mem hlt)
    have hget : InNodes[i.toNat]? = some (some n) := by
      rw [List.getElem?_eq_getElem hlt, hn]
    refine ⟨n.GetGUID, ?_, ?_⟩
    · unfold GetNodeGUIDForIndex
      rw [if_pos hv, SetNodes_Nodes, (getD_none_eq_some_iff InNodes i.toNat n).mpr hget]
    · rw [C1_aux { d with NodesGUIDToIndexMap := [] } InNodes i.toNat n hget hg
        (fun j m hj hm => hdistinct j i.toNat m n hj hget hm)]
      exact Int.toNat_of_nonneg h0
  · intro hv
    refine ⟨?_, ?_⟩
    · unfold GetNodeGUIDForIndex
      rw [hv]
      rfl
    · unfold GetNodeIndexForGUID
      rw [SetNodes_Find_zero]
      rfl

/-- C7 at a concrete dialogue: index 1 of a two-node dialogue goes to its GUID and back. -/
theorem C7_index_GUID_round_trip_witness :
    ∃ g : FGuid,
      (({ EmptyDialogue with NodesGUIDToIndexMap := [] } : UDlgDialogue).SetNodes
        SampleDistinctNodes).GetNodeGUIDForIndex 1 = some g ∧
      (({ EmptyDialogue with NodesGUIDToIndexMap := [] } : UDlgDialogue).SetNodes
        SampleDistinctNodes).GetNodeIndexForGUID g = 1 :=
  (C7_index_GUID_round_trip EmptyDialogue SampleDistinctNodes
    (by
      intro x hx
      simp only [SampleDistinctNodes, List.mem_cons, List.mem_singleton, List.not_mem_nil,
        or_false] at hx
      cases hx with
      | inl h => exact ⟨SampleSpeech1, h, by decide⟩
      | inr h => exact ⟨SampleEnd2, h, by decide⟩)
    (by
      intro i j n m hi hj hg
      match i, j, hi, hj with
      | 0, 0, _, _ => rfl
      | 1, 1, _, _ => rfl
      | 0, 1, hi, hj =>
        have hn : n = SampleSpeech1 := by
          simp [SampleDistinctNodes] at hi
          exact hi.symm
        have hm : m = SampleEnd2 := by
          simp [SampleDistinctNodes] at hj
          exact hj.symm
        subst hn
        subst hm
        exact absurd hg (by decide)
      | 1, 0, hi, hj =>
        have hn : n = SampleEnd2 := by
          simp [SampleDistinctNodes] at hi
          exact hi.symm
        have hm : m = SampleSpeech1 := by
          simp [SampleDistinctNodes] at hj
          exact hj.symm
        subst hn
        subst hm
        exact absurd hg (by decide)
      | i + 2, _, hi, _ => simp [SampleDistinctNodes] at hi
      | 0, j + 2, _, hj => simp [SampleDistinctNodes] at hj
      | 1, j + 2, _, hj => simp [SampleDistinctNodes] at hj)
    1).1 (by decide)

/-! ## C8 -/

/-- C8: `IsEndNode(NodeIndex)` returns true exactly when `NodeIndex` is a valid index into the
node array and the node in that slot is of the End class; for an index that is negative or
not below the node count it returns false. -/
theorem C8_IsEndNode_iff (d : UDlgDialogue) (NodeIndex : Int) :
    (d.IsEndNode NodeIndex = some true ↔
      (0 ≤ NodeIndex ∧ NodeIndex < (d.Nodes.length : Int) ∧
        ∃ n : UDlgNode, d.Nodes[NodeIndex.toNat]? = some (some n) ∧
          n.NodeClass = EDlgNodeClass.End)) ∧
    ((NodeIndex < 0 ∨ (d.Nodes.length : Int) ≤ NodeIndex) →
      d.IsEndNode NodeIndex = some false) := by
  constructor
  · by_cases hv : TArray.IsValidIndex d.Nodes NodeIndex = true
    · have hr : 0 ≤ NodeIndex ∧ NodeIndex < (d.Nodes.length : Int) := by
        simpa [TArray.IsValidIndex] using hv
      cases hslot : d.Nodes.getD NodeIndex.toNat none with
      | none =>
        have hE : d.IsEndNode NodeIndex = none := by
          unfold IsEndNode
          rw [hv, hslot]
          rfl
        rw [hE]
        constructor
        · intro h
          exact Option.noConfusion h
        · rintro ⟨_, _, n, hn, _⟩
          rw [(getD_none_eq_some_iff d.Nodes NodeIndex.toNat n).mpr hn] at hslot
          exact Option.noConfusion hslot
      | some m =>
        have hE : d.IsEndNode NodeIndex = some m.IsA_End := by
          unfold IsEndNode
          rw [hv, hslot]
          rfl
        have hm : d.Nodes[NodeIndex.toNat]? = some (some m) :=
          (getD_none_eq_some_iff d.Nodes NodeIndex.toNat m).mp hslot
        rw [hE]
        constructor
        · intro h
          have hc : m.IsA_End = true := by
            injection h
          exact ⟨hr.1, hr.2, m, hm, of_decide_eq_true hc⟩
        · rintro ⟨_, _, n, hn, hcl⟩
          rw [hm] at hn
          have hmn : m = n := by
            injection hn with hn
            injection hn
          subst hmn
          have hc : m.IsA_End = true := decide_eq_true hcl
          rw [hc]
    · have hE : d.IsEndNode NodeIndex = some false := by
        simp [IsEndNode, hv]
      rw [hE]
      constructor
      · intro h
        injection h with h
        exact Bool.noConfusion h
      · rintro ⟨h0, h1, _⟩
        exact absurd (by simpa [TArray.IsValidIndex] using And.intro h0 h1) hv
  · intro h
    have hv : TArray.IsValidIndex d.Nodes NodeIndex = false := by
      simp only [TArray.IsValidIndex, Bool.and_eq_false_iff, decide_eq_false_iff_not]
      omega
    simp [IsEndNode, hv]

/-- C8 at concrete indices of `SampleNodes`: slot 3 holds an End node, 4 and -1 are out of
range. -/
theorem C8_IsEndNode_iff_witness :
    ({ Nodes := SampleNodes } : UDlgDialogue).IsEndNode 3 = some true ∧
      ({ Nodes := SampleNodes } : UDlgDialogue).IsEndNode 4 = some false ∧
      ({ Nodes := SampleNodes } : UDlgDialogue).IsEndNode (-1) = some false :=
  ⟨(C8_IsEndNode_iff { Nodes := SampleNodes } 3).1.mpr
      ⟨by decide, by decide, SampleEnd2, by decide, by decide⟩,
    (C8_IsEndNode_iff { Nodes := SampleNodes } 4).2 (Or.inr (by decide)),
    (C8_IsEndNode_iff { Nodes := SampleNodes } (-1)).2 (Or.inl (by decide))⟩

/-! ## The node check of `PostLoad` -/

/-- The edge loop stops only through the fatal log. -/
theorem PostLoadCheckEdges_ok_or_Fatal (d : UDlgDialogue) (NodeIndex : Nat) :
    ∀ (NodeEdges : List FDlgEdge) (EdgeIndex : Nat),
      d.PostLoadCheckEdges NodeIndex NodeEdges EdgeIndex = Except.ok () ∨
        ∃ (ei : Nat) (t : Int), d.PostLoadCheckEdges NodeIndex NodeEdges EdgeIndex =
          Except.error (EPostLoadAbort.Fatal NodeIndex ei t) := by
  intro NodeEdges
  induction NodeEdges with
  | nil => intro _; exact Or.inl rfl
  | cons Edge rest ih =>
    intro EdgeIndex
    unfold PostLoadCheckEdges
    by_cases hval : Edge.IsValid = true
    · by_cases hin : TArray.IsValidIndex d.Nodes Edge.TargetIndex = true
      · simp only [hval, hin, Bool.not_true, Bool.false_eq_true, if_false]
        exact ih (EdgeIndex + 1)
      · simp only [hval, hin, Bool.not_true, Bool.false_eq_true, if_false, Bool.not_eq_true,
          Bool.not_false, if_true]
        exact Or.inr ⟨EdgeIndex, Edge.TargetIndex, by simp [hin]⟩
    · have hval0 : Edge.IsValid = false := by simpa using hval
      simp only [hval0, Bool.not_false, if_true]
      exact ih (EdgeIndex + 1)

/-- When the edge loop runs through, every edge is unset or points into the array. -/
theorem PostLoadCheckEdges_ok (d : UDlgDialogue) (NodeIndex : Nat) :
    ∀ (NodeEdges : List FDlgEdge) (EdgeIndex : Nat),
      d.PostLoadCheckEdges NodeIndex NodeEdges EdgeIndex = Except.ok () →
        ∀ e ∈ NodeEdges, e.IsValid = false ∨ TArray.IsValidIndex d.Nodes e.TargetIndex = true := by
  intro NodeEdges
  induction NodeEdges with
  | nil => intro _ _ e he; exact absurd he (List.not_mem_nil e)
  | cons Edge rest ih =>
    intro EdgeIndex h e he
    unfold PostLoadCheckEdges at h
    by_cases hval : Edge.IsValid = true
    · by_cases hin : TArray.IsValidIndex d.Nodes Edge.TargetIndex = true
      · simp only [hval, hin, Bool.not_true, Bool.false_eq_true, if_false] at h
        rcases List.mem_cons.mp he with heq | hmem
        · subst heq
          exact Or.inr hin
        · exact ih (EdgeIndex + 1) h e hmem
      · simp [hval, hin] at h
    · have hval0 : Edge.IsValid = false := by simpa using hval
      simp only [hval0, Bool.not_false, if_true] at h
      rcases List.mem_cons.mp he with heq | hmem
      · subst heq
        exact Or.inl hval0
      · exact ih (EdgeIndex + 1) h e hmem

/-- When the node loop runs through, no slot is null, every node has its graph node if the
editor module is there, and every edge is unset or points into the array. -/
theorem PostLoadCheckNodes_ok (d : UDlgDialogue) (bHasDialogueEditorModule : Bool) :
    ∀ (Rest : List (Option UDlgNode)) (NodeIndex : Nat),
      d.PostLoadCheckNodes bHasDialogueEditorModule Rest NodeIndex = Except.ok () →
        ∀ x ∈ Rest, ∃ n : UDlgNode, x = some n ∧
          (bHasDialogueEditorModule = true → n.bHasGraphNode = true) ∧
          ∀ e ∈ n.Children,
            e.IsValid = false ∨ TArray.IsValidIndex d.Nodes e.TargetIndex = true := by
  intro Rest
  induction Rest with
  | nil => intro _ _ x hx; exact absurd hx (List.not_mem_nil x)
  | cons Slot Rest ih =>
    intro NodeIndex h x hx
    cases Slot with
    | none => simp [PostLoadCheckNodes] at h
    | some Node =>
      unfold PostLoadCheckNodes at h
      by_cases hg : (bHasDialogueEditorModule && !Node.bHasGraphNode) = true
      · simp [hg] at h
      · simp only [hg, Bool.false_eq_true, if_false] at h
        cases hE : d.PostLoadCheckEdges NodeIndex Node.GetNodeChildren 0 with
        | error a => simp [hE] at h
        | ok u =>
          rw [hE] at h
          dsimp only at h
          rcases List.mem_cons.mp hx with heq | hmem
          · refine ⟨Node, heq, ?_, ?_⟩
            · intro hb
              cases hgn : Node.bHasGraphNode with
              | true => rfl
              | false => simp [hb, hgn] at hg
            · exact PostLoadCheckEdges_ok d NodeIndex Node.GetNodeChildren 0 hE
          · exact ih (NodeIndex + 1) h x hmem

/-- Over an array without null slot, whose nodes have their graph node if the editor module is
there, the node loop stops only through the fatal log. -/
theorem PostLoadCheckNodes_ok_or_Fatal (d : UDlgDialogue) (bHasDialogueEditorModule : Bool) :
    ∀ (Rest : List (Option UDlgNode)) (NodeIndex : Nat),
      (∀ x ∈ Rest, ∃ n : UDlgNode, x = some n ∧
        (bHasDialogueEditorModule = true → n.bHasGraphNode = true)) →
      d.PostLoadCheckNodes bHasDialogueEditorModule Rest NodeIndex = Except.ok () ∨
        ∃ (ni ei : Nat) (t : Int),
          d.PostLoadCheckNodes bHasDialogueEditorModule Rest NodeIndex =
            Except.error (EPostLoadAbort.Fatal ni ei t) := by
  intro Rest
  induction Rest with
  | nil => intro _ _; exact Or.inl rfl
  | cons Slot Rest ih =>
    intro NodeIndex hall
    obtain ⟨Node, hNode, hgraph⟩ := hall Slot (List.mem_cons_self Slot Rest)
    subst hNode
    have hg : (bHasDialogueEditorModule && !Node.bHasGraphNode) = false := by
      cases hb : bHasDialogueEditorModule with
      | false => rfl
      | true => simp [hgraph hb]
    unfold PostLoadCheckNodes
    simp only [hg, Bool.false_eq_true, if_false]
    rcases PostLoadCheckEdges_ok_or_Fatal d NodeIndex Node.GetNodeChildren 0 with hE | hE
    · rw [hE]
      exact ih (NodeIndex + 1) (fun x hx => hall x (List.mem_cons_of_mem _ hx))
    · obtain ⟨ei, t, hE⟩ := hE
      rw [hE]
      exact Or.inr ⟨NodeIndex, ei, t, rfl⟩

/-- An edge that points at or beyond the node count is a set edge out of the array. -/
theorem edge_beyond_count (d : UDlgDialogue) (e : FDlgEdge)
    (h : (d.Nodes.length : Int) ≤ e.TargetIndex) :
    ¬ (e.IsValid = false ∨ TArray.IsValidIndex d.Nodes e.TargetIndex = true) := by
  have h0 : (0 : Int) ≤ (d.Nodes.length : Int) := Int.ofNat_nonneg _
  rintro (hv | hin)
  · simp [FDlgEdge.IsValid, INDEX_NONE] at hv
    omega
  · simp [TArray.IsValidIndex] at hin
    omega

/-! ## C9 -/

/-- C9 fails as stated: with the dialogue editor module present and the graph nodes reported
out of sync, `PostLoad` returns before the node check. On the five-node graph whose node 2
has an edge with `TargetIndex = 99` it returns normally, without the fatal error. -/
theorem C9_counterexample :
    (∃ (n : UDlgNode) (e : FDlgEdge), some n ∈ FiveNodeDialogue.Nodes ∧ e ∈ n.Children ∧
        e.TargetIndex = 99 ∧ (FiveNodeDialogue.Nodes.length : Int) ≤ e.TargetIndex) ∧
      FiveNodeDialogue.Nodes.length = 5 ∧
      FiveNodeDialogue.PostLoad true false = Except.ok FiveNodeDialogue :=
  ⟨⟨{ NodeGUID := { A := 12 }, bHasGraphNode := true, Children := [{ TargetIndex := 99 }] },
      { TargetIndex := 99 }, by decide, by decide, rfl, by decide⟩, rfl, rfl⟩

/-- C9, amended: let some node of the node array have an edge whose target index is at or
beyond the node count. If the node check is reached (no dialogue editor module, or the graph
nodes in sync), no slot of the array is null and, with the editor module, every node has its
graph node, then `PostLoad` ends in the fatal log of the check. In every case `PostLoad` does
not mark the dialogue as loaded: it returns only through the editor guard (editor module
present, graph nodes out of sync), and then returns the dialogue unchanged. -/
theorem C9_PostLoad_fatal_on_target_beyond_count (d : UDlgDialogue)
    (bHasDialogueEditorModule bNodesInSync : Bool) (n : UDlgNode) (Edge : FDlgEdge)
    (hn : some n ∈ d.Nodes) (he : Edge ∈ n.Children)
    (hbad : (d.Nodes.length : Int) ≤ Edge.TargetIndex) :
    ((bHasDialogueEditorModule = false ∨ bNodesInSync = true) →
      (∀ x ∈ d.Nodes, ∃ m : UDlgNode, x = some m ∧
        (bHasDialogueEditorModule = true → m.bHasGraphNode = true)) →
      ∃ (NodeIndex EdgeIndex : Nat) (TargetIndex : Int),
        d.PostLoad bHasDialogueEditorModule bNodesInSync =
          Except.error (EPostLoadAbort.Fatal NodeIndex EdgeIndex TargetIndex)) ∧
    (∀ d2 : UDlgDialogue, d.PostLoad bHasDialogueEditorModule bNodesInSync = Except.ok d2 →
      bHasDialogueEditorModule = true ∧ bNodesInSync = false ∧ d2 = d) := by
  have hnotok : d.PostLoadCheckNodes bHasDialogueEditorModule d.Nodes 0 ≠ Except.ok () := by
    intro hok
    obtain ⟨m, hm, _, hedges⟩ := PostLoadCheckNodes_ok d bHasDialogueEditorModule d.Nodes 0 hok
      (some n) hn
    have hmn : n = m := by
      injection hm
    subst hmn
    exact edge_beyond_count d Edge hbad (hedges Edge he)
  constructor
  · intro hreach hall
    have hguard : (bHasDialogueEditorModule && !bNodesInSync) = false := by
      rcases hreach with h | h <;> simp [h]
    unfold PostLoad
    simp only [hguard, Bool.false_eq_true, if_false]
    rcases PostLoadCheckNodes_ok_or_Fatal d bHasDialogueEditorModule d.Nodes 0 hall with hE | hE
    · exact absurd hE hnotok
    · obtain ⟨ni, ei, t, hE⟩ := hE
      rw [hE]
      exact ⟨ni, ei, t, rfl⟩
  · intro d2 h
    unfold PostLoad at h
    by_cases hguard : (bHasDialogueEditorModule && !bNodesInSync) = true
    · simp only [hguard, if_true] at h
      injection h with h
      have hb : bHasDialogueEditorModule = true ∧ bNodesInSync = false := by
        simpa using hguard
      exact ⟨hb.1, hb.2, h.symm⟩
    · simp only [hguard, Bool.false_eq_true, if_false] at h
      cases hE : d.PostLoadCheckNodes bHasDialogueEditorModule d.Nodes 0 with
      | error a => simp [hE] at h
      | ok u => exact absurd hE hnotok

/-- C9, amended, on the five-node graph with an edge to 99, loaded without the editor: the
fatal log names node 2, edge 0 and the target 99. -/
theorem C9_PostLoad_fatal_on_target_beyond_count_witness :
    FiveNodeDialogue.PostLoad false false = Except.error (EPostLoadAbort.Fatal 2 0 99) ∧
      ∃ (NodeIndex EdgeIndex : Nat) (TargetIndex : Int),
        FiveNodeDialogue.PostLoad false false =
          Except.error (EPostLoadAbort.Fatal NodeIndex EdgeIndex TargetIndex) :=
  ⟨rfl,
    (C9_PostLoad_fatal_on_target_beyond_count FiveNodeDialogue false false
      { NodeGUID := { A := 12 }, bHasGraphNode := true, Children := [{ TargetIndex := 99 }] }
      { TargetIndex := 99 } (by decide) (by decide) (by decide)).1 (Or.inl rfl) (by
        intro x hx
        simp only [FiveNodeDialogue, List.mem_cons, List.mem_singleton, List.not_mem_nil,
          or_false] at hx
        rcases hx with h | h | h | h | h <;> exact ⟨_, h, fun hb => Bool.noConfusion hb⟩)⟩

/-! ## C10 -/

/-- C10 fails as stated: `PostLoad` (no editor module, so the node check runs) completes on
`DanglingDialogue` and marks it loaded, although the edge of its regular node has the
negative target `INDEX_NONE`, which is not a valid index, and the edge of its Start node
points to index 7 of a one-node array. -/
theorem C10_counterexample :
    DanglingDialogue.PostLoad false false =
        Except.ok { DanglingDialogue with bWasLoaded := true } ∧
      (∃ (n : UDlgNode) (e : FDlgEdge), some n ∈ DanglingDialogue.Nodes ∧ e ∈ n.Children ∧
        e.TargetIndex = -1 ∧ DanglingDialogue.IsValidNodeIndex e.TargetIndex = false) ∧
      (∃ (n : UDlgNode) (e : FDlgEdge), some n ∈ DanglingDialogue.StartNodes ∧
        n.NodeClass = EDlgNodeClass.Start ∧ e ∈ n.Children ∧
        e.TargetIndex = 7 ∧ DanglingDialogue.IsValidNodeIndex e.TargetIndex = false) :=
  ⟨rfl,
    ⟨{ NodeGUID := { A := 20 }, Children := [{ TargetIndex := INDEX_NONE }] },
      { TargetIndex := INDEX_NONE }, by decide, by decide, rfl, by decide⟩,
    ⟨{ NodeClass := EDlgNodeClass.Start, NodeGUID := { A := 21 },
        Children := [{ TargetIndex := 7 }] },
      { TargetIndex := 7 }, by decide, rfl, by decide, rfl, by decide⟩⟩

/-- C10, amended: if `PostLoad` reaches the node check (no dialogue editor module, or the graph
nodes in sync) and returns, then it has marked the dialogue as loaded, no slot of the node
array is null, and every edge of every node of the node array has a target index that is
negative (an unset edge, which the check skips) or a valid index into the node array. -/
theorem C10_PostLoad_checked_targets (d d2 : UDlgDialogue)
    (bHasDialogueEditorModule bNodesInSync : Bool)
    (hreach : bHasDialogueEditorModule = false ∨ bNodesInSync = true)
    (hok : d.PostLoad bHasDialogueEditorModule bNodesInSync = Except.ok d2) :
    d2 = { d with bWasLoaded := true } ∧
      ∀ x ∈ d.Nodes, ∃ n : UDlgNode, x = some n ∧
        ∀ e ∈ n.Children, e.TargetIndex < 0 ∨ d.IsValidNodeIndex e.TargetIndex = true := by
  have hguard : (bHasDialogueEditorModule && !bNodesInSync) = false := by
    rcases hreach with h | h <;> simp [h]
  unfold PostLoad at hok
  simp only [hguard, Bool.false_eq_true, if_false] at hok
  cases hE : d.PostLoadCheckNodes bHasDialogueEditorModule d.Nodes 0 with
  | error a => simp [hE] at hok
  | ok u =>
    rw [hE] at hok
    dsimp only at hok
    refine ⟨?_, ?_⟩
    · injection hok with hok
      exact hok.symm
    · intro x hx
      obtain ⟨n, hxn, _, hedges⟩ :=
        PostLoadCheckNodes_ok d bHasDialogueEditorModule d.Nodes 0 hE x hx
      refine ⟨n, hxn, ?_⟩
      intro e he
      rcases hedges e he with hv | hin
      · left
        simp [FDlgEdge.IsValid, INDEX_NONE] at hv
        omega
      · right
        exact hin

/-- C10, amended, on `DanglingDialogue`: the check passes and the edge of the regular node
is an unset one. -/
theorem C10_PostLoad_checked_targets_witness :
    DanglingDialogue.PostLoad false false =
        Except.ok { DanglingDialogue with bWasLoaded := true } ∧
      ∀ x ∈ DanglingDialogue.Nodes, ∃ n : UDlgNode, x = some n ∧
        ∀ e ∈ n.Children,
          e.TargetIndex < 0 ∨ DanglingDialogue.IsValidNodeIndex e.TargetIndex = true :=
  ⟨rfl,
    (C10_PostLoad_checked_targets DanglingDialogue { DanglingDialogue with bWasLoaded := true }
      false false (Or.inl rfl) rfl).2⟩

end UDlgDialogue

/-! ## Nodes addressed by index -/

namespace UDlgContext

theorem GetMutableNodeFromIndex_eq_some (d : UDlgDialogue) (i : Int) (n : UDlgNode)
    (h : GetMutableNodeFromIndex d i = some n) :
    d.IsValidNodeIndex i = true ∧ d.Nodes.getD i.toNat none = some n := by
  unfold GetMutableNodeFromIndex at h
  by_cases hv : d.IsValidNodeIndex i = true
  · rw [if_pos hv] at h
    exact ⟨hv, h⟩
  · rw [if_neg hv] at h
    exact Option.noConfusion h

theorem GetMutableNodeFromIndex_of_valid (d : UDlgDialogue) (i : Int)
    (hv : d.IsValidNodeIndex i = true) :
    GetMutableNodeFromIndex d i = d.Nodes.getD i.toNat none := by
  unfold GetMutableNodeFromIndex
  rw [if_pos hv]

theorem EmptyOptions_EmptyOptions (Context : UDlgContext) :
    Context.EmptyOptions.EmptyOptions = Context.EmptyOptions := rfl

end UDlgContext

namespace UDlgDialogue

theorem SetVirtualParentIndex_length (d : UDlgDialogue) (i v : Int) :
    (d.SetVirtualParentIndex i v).Nodes.length = d.Nodes.length := by
  unfold SetVirtualParentIndex
  cases UDlgContext.GetMutableNodeFromIndex d i with
  | none => rfl
  | some n => simp

theorem SetVirtualParentIndex_IsValidNodeIndex (d : UDlgDialogue) (i v j : Int) :
    (d.SetVirtualParentIndex i v).IsValidNodeIndex j = d.IsValidNodeIndex j := by
  unfold IsValidNodeIndex TArray.IsValidIndex
  rw [SetVirtualParentIndex_length]

/-- The node read at `j` after the assignment at `i`. -/
theorem GetMutableNodeFromIndex_SetVirtualParentIndex (d : UDlgDialogue) (i v j : Int) :
    UDlgContext.GetMutableNodeFromIndex (d.SetVirtualParentIndex i v) j =
      (UDlgContext.GetMutableNodeFromIndex d j).map
        (fun n => if j = i then { n with VirtualParentFirstSatisfiedDirectChildIndex := v }
          else n) := by
  by_cases hj : d.IsValidNodeIndex j = true
  · have hj2 : (d.SetVirtualParentIndex i v).IsValidNodeIndex j = true := by
      rw [SetVirtualParentIndex_IsValidNodeIndex]; exact hj
    rw [UDlgContext.GetMutableNodeFromIndex_of_valid _ j hj2,
      UDlgContext.GetMutableNodeFromIndex_of_valid _ j hj]
    obtain ⟨hj0, hjlt⟩ := toNat_lt_of_IsValidNodeIndex d j hj
    cases hi : UDlgContext.GetMutableNodeFromIndex d i with
    | none =>
      have hd : d.SetVirtualParentIndex i v = d := by
        unfold SetVirtualParentIndex
        rw [hi]
      rw [hd]
      by_cases hji : j = i
      · subst hji
        rw [UDlgContext.GetMutableNodeFromIndex_of_valid _ j hj] at hi
        rw [hi]
        rfl
      · cases d.Nodes.getD j.toNat none with
        | none => rfl
        | some n => simp [hji]
    | some This =>
      obtain ⟨hiv, hin⟩ := UDlgContext.GetMutableNodeFromIndex_eq_some d i This hi
      obtain ⟨hi0, hilt⟩ := toNat_lt_of_IsValidNodeIndex d i hiv
      have hN : (d.SetVirtualParentIndex i v).Nodes =
          d.Nodes.set i.toNat
            (some { This with VirtualParentFirstSatisfiedDirectChildIndex := v }) := by
        unfold SetVirtualParentIndex
        rw [hi]
      rw [hN]
      by_cases hji : j = i
      · subst hji
        rw [hin]
        rw [List.getD_eq_getElem?_getD, List.getElem?_set_self hjlt]
        simp
      · have hne : i.toNat ≠ j.toNat := by omega
        rw [List.getD_eq_getElem?_getD, List.getElem?_set_ne hne,
          ← List.getD_eq_getElem?_getD]
        cases d.Nodes.getD j.toNat none with
        | none => rfl
        | some n => simp [hji]
  · have hj2 : ¬ (d.SetVirtualParentIndex i v).IsValidNodeIndex j = true := by
      rw [SetVirtualParentIndex_IsValidNodeIndex]; exact hj
    unfold UDlgContext.GetMutableNodeFromIndex
    rw [if_neg hj, if_neg hj2]
    rfl

theorem SetVirtualParentIndex_of_some (d : UDlgDialogue) (i x : Int) (This : UDlgNode)
    (hi : UDlgContext.GetMutableNodeFromIndex d i = some This) :
    d.SetVirtualParentIndex i x =
      { d with
        Nodes :=
          d.Nodes.set i.toNat
            (some { This with VirtualParentFirstSatisfiedDirectChildIndex := x }) } := by
  unfold SetVirtualParentIndex
  rw [hi]

theorem SetVirtualParentIndex_of_none (d : UDlgDialogue) (i x : Int)
    (hi : UDlgContext.GetMutableNodeFromIndex d i = none) :
    d.SetVirtualParentIndex i x = d := by
  unfold SetVirtualParentIndex
  rw [hi]

/-- Only the last of two assignments on the same node is seen. -/
theorem SetVirtualParentIndex_twice (d : UDlgDialogue) (i v w : Int) :
    (d.SetVirtualParentIndex i v).SetVirtualParentIndex i w = d.SetVirtualParentIndex i w := by
  cases hi : UDlgContext.GetMutableNodeFromIndex d i with
  | none =>
    rw [SetVirtualParentIndex_of_none d i v hi, SetVirtualParentIndex_of_none d i w hi]
  | some This =>
    have h2 := GetMutableNodeFromIndex_SetVirtualParentIndex d i v i
    rw [hi] at h2
    simp only [Option.map_some', if_true] at h2
    rw [SetVirtualParentIndex_of_some _ i w _ h2, SetVirtualParentIndex_of_some d i v This hi,
      SetVirtualParentIndex_of_some d i w This hi]
    simp only [List.set_set]

/-- Adding a valid index that was not yet evaluated lowers the count. -/
theorem UnevaluatedCount_cons_lt (d : UDlgDialogue) (i : Int) (AE : List Int)
    (hv : d.IsValidNodeIndex i = true) (hi : i ∉ AE) :
    d.UnevaluatedCount (i :: AE) < d.UnevaluatedCount AE := by
  obtain ⟨h0, hlt⟩ := toNat_lt_of_IsValidNodeIndex d i hv
  unfold UnevaluatedCount
  apply Finset.card_lt_card
  rw [Finset.ssubset_iff_of_subset]
  · refine ⟨i.toNat, ?_, ?_⟩
    · rw [Finset.mem_filter, Finset.mem_range, Int.toNat_of_nonneg h0]
      exact ⟨hlt, hi⟩
    · rw [Finset.mem_filter, Int.toNat_of_nonneg h0]
      simp
  · intro k hk
    rw [Finset.mem_filter] at hk ⊢
    refine ⟨hk.1, ?_⟩
    intro hmem
    exact hk.2 (List.mem_cons_of_mem _ hmem)

theorem UnevaluatedCount_SetVirtualParentIndex (d : UDlgDialogue) (i v : Int) (AE : List Int) :
    (d.SetVirtualParentIndex i v).UnevaluatedCount AE = d.UnevaluatedCount AE := by
  unfold UnevaluatedCount
  rw [SetVirtualParentIndex_length]

end UDlgDialogue

/-! ## The nested calls of `ReevaluateChildren` -/

namespace UDlgNode_Speech

/-- What the loop over the children returns on. -/
theorem FindFirstSatisfiedChild_eq_some (Env : FDlgNodeEnv) (Context : UDlgContext)
    (d : UDlgDialogue) (ThisIndex : Int) (Edge : FDlgEdge) (Node : UDlgNode) :
    ∀ Children : List FDlgEdge,
      FindFirstSatisfiedChild Env Context d ThisIndex Children = some (Edge, Node) →
        Edge ∈ Children ∧ Env.EdgeEvaluate Context d ThisIndex Edge = true ∧
          UDlgContext.GetMutableNodeFromIndex d Edge.TargetIndex = some Node := by
  intro Children
  induction Children with
  | nil => intro h; exact Option.noConfusion h
  | cons E Rest ih =>
    intro h
    unfold FindFirstSatisfiedChild at h
    by_cases hE : Env.EdgeEvaluate Context d ThisIndex E = true
    · rw [if_pos hE] at h
      cases hN : UDlgContext.GetMutableNodeFromIndex d E.TargetIndex with
      | none =>
        rw [hN] at h
        obtain ⟨h1, h2⟩ := ih h
        exact ⟨List.mem_cons_of_mem _ h1, h2⟩
      | some N =>
        rw [hN] at h
        injection h with h
        injection h with h1 h2
        subst h1
        subst h2
        exact ⟨List.mem_cons_self _ _, hE, hN⟩
    · rw [if_neg hE] at h
      obtain ⟨h1, h2⟩ := ih h
      exact ⟨List.mem_cons_of_mem _ h1, h2⟩

/-- No edge evaluates true: the loop runs to its end. -/
theorem FindFirstSatisfiedChild_eq_none (Env : FDlgNodeEnv) (Context : UDlgContext)
    (d : UDlgDialogue) (ThisIndex : Int) :
    ∀ Children : List FDlgEdge,
      (∀ e ∈ Children, Env.EdgeEvaluate Context d ThisIndex e = false) →
        FindFirstSatisfiedChild Env Context d ThisIndex Children = none := by
  intro Children
  induction Children with
  | nil => intro _; rfl
  | cons E Rest ih =>
    intro h
    unfold FindFirstSatisfiedChild
    rw [h E (List.mem_cons_self _ _)]
    simp only [Bool.false_eq_true, if_false]
    exact ih (fun e he => h e (List.mem_cons_of_mem _ he))

/-- The edges before the first one that evaluates true are passed over. -/
theorem FindFirstSatisfiedChild_append (Env : FDlgNodeEnv) (Context : UDlgContext)
    (d : UDlgDialogue) (ThisIndex : Int) (Edge : FDlgEdge) (Node : UDlgNode)
    (Post : List FDlgEdge) :
    ∀ Pre : List FDlgEdge,
      (∀ e ∈ Pre, Env.EdgeEvaluate Context d ThisIndex e = false) →
      Env.EdgeEvaluate Context d ThisIndex Edge = true →
      UDlgContext.GetMutableNodeFromIndex d Edge.TargetIndex = some Node →
        FindFirstSatisfiedChild Env Context d ThisIndex (Pre ++ Edge :: Post) =
          some (Edge, Node) := by
  intro Pre
  induction Pre with
  | nil =>
    intro _ hE hN
    simp only [List.nil_append]
    unfold FindFirstSatisfiedChild
    rw [if_pos hE, hN]
  | cons E Rest ih =>
    intro h hE hN
    simp only [List.cons_append]
    unfold FindFirstSatisfiedChild
    rw [h E (List.mem_cons_self _ _)]
    simp only [Bool.false_eq_true, if_false]
    exact ih (fun e he => h e (List.mem_cons_of_mem _ he)) hE hN

/-- A nested call that returns more often makes the Speech node return more often, with the
same result. -/
theorem ReevaluateChildren_mono (Env : FDlgNodeEnv)
    (Rec1 Rec2 : UDlgContext → UDlgDialogue → Int → List Int → Option FDlgStepResult)
    (hRec : ∀ c dd i ae r, Rec1 c dd i ae = some r → Rec2 c dd i ae = some r)
    (Context : UDlgContext) (d : UDlgDialogue) (ThisIndex : Int) (This : UDlgNode)
    (AE : List Int) (r : FDlgStepResult)
    (h : ReevaluateChildren Env Rec1 Context d ThisIndex This AE = some r) :
    ReevaluateChildren Env Rec2 Context d ThisIndex This AE = some r := by
  unfold ReevaluateChildren at h ⊢
  by_cases hvp : This.bIsVirtualParent = true
  · rw [if_pos hvp] at h ⊢
    dsimp only at h ⊢
    by_cases hmem : ThisIndex ∈ AE
    · rw [if_pos hmem] at h ⊢
      exact h
    · rw [if_neg hmem] at h ⊢
      cases hF : FindFirstSatisfiedChild Env Context.EmptyOptions
          (d.SetVirtualParentIndex ThisIndex INDEX_NONE) ThisIndex This.Children with
      | none =>
        rw [hF] at h
        exact h
      | some p =>
        obtain ⟨Edge, Node⟩ := p
        rw [hF] at h
        dsimp only at h ⊢
        cases hR : Rec1 Context.EmptyOptions (d.SetVirtualParentIndex ThisIndex INDEX_NONE)
            Edge.TargetIndex (ThisIndex :: AE) with
        | none =>
          rw [hR] at h
          exact Option.noConfusion h
        | some r1 =>
          rw [hR] at h
          rw [hRec _ _ _ _ r1 hR]
          exact h
  · rw [if_neg hvp] at h ⊢
    exact h

end UDlgNode_Speech

namespace UDlgNode

/-- The virtual call on a Speech node is the method of the Speech class. -/
theorem ReevaluateChildrenFuel_Speech (Env : FDlgNodeEnv) (Fuel : Nat) (Context : UDlgContext)
    (d : UDlgDialogue) (ThisIndex : Int) (This : UDlgNode) (AE : List Int)
    (hThis : UDlgContext.GetMutableNodeFromIndex d ThisIndex = some This)
    (hClass : This.NodeClass = EDlgNodeClass.Speech) :
    ReevaluateChildrenFuel Env (Fuel + 1) Context d ThisIndex AE =
      UDlgNode_Speech.ReevaluateChildren Env (ReevaluateChildrenFuel Env Fuel) Context d
        ThisIndex This AE := by
  rw [ReevaluateChildrenFuel, hThis]
  dsimp only
  rw [hClass]

/-- A call that returns within a depth bound returns the same within a larger one. -/
theorem ReevaluateChildrenFuel_succ (Env : FDlgNodeEnv) :
    ∀ (Fuel : Nat) (Context : UDlgContext) (d : UDlgDialogue) (ThisIndex : Int) (AE : List Int)
      (r : FDlgStepResult),
      ReevaluateChildrenFuel Env Fuel Context d ThisIndex AE = some r →
        ReevaluateChildrenFuel Env (Fuel + 1) Context d ThisIndex AE = some r := by
  intro Fuel
  induction Fuel with
  | zero =>
    intro Context d ThisIndex AE r h
    rw [ReevaluateChildrenFuel] at h
    exact Option.noConfusion h
  | succ Fuel ih =>
    intro Context d ThisIndex AE r h
    cases hThis : UDlgContext.GetMutableNodeFromIndex d ThisIndex with
    | none =>
      rw [ReevaluateChildrenFuel, hThis] at h
      exact Option.noConfusion h
    | some This =>
      cases hClass : This.NodeClass with
      | Speech =>
        rw [ReevaluateChildrenFuel_Speech Env _ Context d ThisIndex This AE hThis hClass] at h ⊢
        exact UDlgNode_Speech.ReevaluateChildren_mono Env _ _ ih Context d ThisIndex This AE r h
      | End =>
        rw [ReevaluateChildrenFuel, hThis] at h ⊢
        dsimp only at h ⊢
        rw [hClass] at h ⊢
        exact h
      | Start =>
        rw [ReevaluateChildrenFuel, hThis] at h ⊢
        dsimp only at h ⊢
        rw [hClass] at h ⊢
        exact h
      | Selector =>
        rw [ReevaluateChildrenFuel, hThis] at h ⊢
        dsimp only at h ⊢
        rw [hClass] at h ⊢
        exact h
      | Proxy =>
        rw [ReevaluateChildrenFuel, hThis] at h ⊢
        dsimp only at h ⊢
        rw [hClass] at h ⊢
        exact h

theorem ReevaluateChildrenFuel_le (Env : FDlgNodeEnv) (Fuel1 Fuel2 : Nat) (hle : Fuel1 ≤ Fuel2)
    (Context : UDlgContext) (d : UDlgDialogue) (ThisIndex : Int) (AE : List Int)
    (r : FDlgStepResult)
    (h : ReevaluateChildrenFuel Env Fuel1 Context d ThisIndex AE = some r) :
    ReevaluateChildrenFuel Env Fuel2 Context d ThisIndex AE = some r := by
  induction hle with
  | refl => exact h
  | step _ ih => exact ReevaluateChildrenFuel_succ Env _ Context d ThisIndex AE r ih

/-- The call returns as soon as the depth bound exceeds the number of node indices that are
not in `AlreadyEvaluated`. -/
theorem ReevaluateChildrenFuel_returns (Env : FDlgNodeEnv) :
    ∀ (Fuel : Nat) (Context : UDlgContext) (d : UDlgDialogue) (ThisIndex : Int) (AE : List Int)
      (This : UDlgNode),
      UDlgContext.GetMutableNodeFromIndex d ThisIndex = some This →
      d.UnevaluatedCount AE < Fuel →
        ∃ r, ReevaluateChildrenFuel Env Fuel Context d ThisIndex AE = some r := by
  intro Fuel
  induction Fuel with
  | zero =>
    intro _ _ _ _ _ _ hlt
    exact absurd hlt (Nat.not_lt_zero _)
  | succ Fuel ih =>
    intro Context d ThisIndex AE This hThis hlt
    cases hClass : This.NodeClass with
    | Speech =>
      rw [ReevaluateChildrenFuel_Speech Env _ Context d ThisIndex This AE hThis hClass]
      unfold UDlgNode_Speech.ReevaluateChildren
      by_cases hvp : This.bIsVirtualParent = true
      · rw [if_pos hvp]
        dsimp only
        by_cases hmem : ThisIndex ∈ AE
        · rw [if_pos hmem]
          exact ⟨_, rfl⟩
        · rw [if_neg hmem]
          cases hF : UDlgNode_Speech.FindFirstSatisfiedChild Env Context.EmptyOptions
              (d.SetVirtualParentIndex ThisIndex INDEX_NONE) ThisIndex This.Children with
          | none => exact ⟨_, rfl⟩
          | some p =>
            obtain ⟨Edge, Node⟩ := p
            dsimp only
            obtain ⟨_, _, hNode⟩ :=
              UDlgNode_Speech.FindFirstSatisfiedChild_eq_some Env _ _ _ Edge Node _ hF
            have hvalid := (UDlgContext.GetMutableNodeFromIndex_eq_some d ThisIndex This hThis).1
            have hcount : (d.SetVirtualParentIndex ThisIndex INDEX_NONE).UnevaluatedCount
                (ThisIndex :: AE) < Fuel := by
              rw [UDlgDialogue.UnevaluatedCount_SetVirtualParentIndex]
              have := UDlgDialogue.UnevaluatedCount_cons_lt d ThisIndex AE hvalid hmem
              omega
            obtain ⟨r1, hr1⟩ := ih Context.EmptyOptions
              (d.SetVirtualParentIndex ThisIndex INDEX_NONE) Edge.TargetIndex (ThisIndex :: AE)
              Node hNode hcount
            rw [hr1]
            exact ⟨_, rfl⟩
      · rw [if_neg hvp]
        exact ⟨_, rfl⟩
    | End =>
      rw [ReevaluateChildrenFuel, hThis]
      dsimp only
      rw [hClass]
      exact ⟨_, rfl⟩
    | Start =>
      rw [ReevaluateChildrenFuel, hThis]
      dsimp only
      rw [hClass]
      exact ⟨_, rfl⟩
    | Selector =>
      rw [ReevaluateChildrenFuel, hThis]
      dsimp only
      rw [hClass]
      exact ⟨_, rfl⟩
    | Proxy =>
      rw [ReevaluateChildrenFuel, hThis]
      dsimp only
      rw [hClass]
      exact ⟨_, rfl⟩

theorem UnevaluatedCount_le_length (d : UDlgDialogue) (AE : List Int) :
    d.UnevaluatedCount AE ≤ d.Nodes.length := by
  unfold UDlgDialogue.UnevaluatedCount
  calc _ ≤ (Finset.range d.Nodes.length).card := Finset.card_filter_le _ _
    _ = d.Nodes.length := Finset.card_range _

/-- The virtual call returns on every node of every dialogue. -/
theorem ReevaluateChildren_returns (Env : FDlgNodeEnv) (Context : UDlgContext)
    (d : UDlgDialogue) (ThisIndex : Int) (AE : List Int) (This : UDlgNode)
    (hThis : UDlgContext.GetMutableNodeFromIndex d ThisIndex = some This) :
    ∃ r, ReevaluateChildren Env Context d ThisIndex AE = some r := by
  unfold ReevaluateChildren
  apply ReevaluateChildrenFuel_returns Env _ Context d ThisIndex AE This hThis
  have := UnevaluatedCount_le_length d AE
  omega

/-- The result of the virtual call is the result within any depth bound that suffices. -/
theorem ReevaluateChildren_eq_of_Fuel (Env : FDlgNodeEnv) (Fuel : Nat) (Context : UDlgContext)
    (d : UDlgDialogue) (ThisIndex : Int) (AE : List Int) (r : FDlgStepResult)
    (h : ReevaluateChildrenFuel Env Fuel Context d ThisIndex AE = some r) :
    ReevaluateChildren Env Context d ThisIndex AE = some r := by
  have hThis : ∃ This, UDlgContext.GetMutableNodeFromIndex d ThisIndex = some This := by
    cases Fuel with
    | zero =>
      rw [ReevaluateChildrenFuel] at h
      exact Option.noConfusion h
    | succ Fuel =>
      cases hT : UDlgContext.GetMutableNodeFromIndex d ThisIndex with
      | none =>
        rw [ReevaluateChildrenFuel, hT] at h
        exact Option.noConfusion h
      | some This => exact ⟨This, rfl⟩
  obtain ⟨This, hThis⟩ := hThis
  obtain ⟨r2, hr2⟩ := ReevaluateChildren_returns Env Context d ThisIndex AE This hThis
  rw [hr2]
  unfold ReevaluateChildren at hr2
  rcases Nat.le_total Fuel (d.Nodes.length + 1) with hle | hle
  · have h3 := ReevaluateChildrenFuel_le Env _ _ hle Context d ThisIndex AE r h
    rw [h3] at hr2
    exact hr2.symm
  · have h3 := ReevaluateChildrenFuel_le Env _ _ hle Context d ThisIndex AE r2 hr2
    rw [h3] at h
    exact h

end UDlgNode

/-! ## The three ways out of a virtual parent -/

namespace UDlgNode

/-- The cycle guard: a virtual parent found in `AlreadyEvaluated` returns false at once. -/
theorem ReevaluateChildrenFuel_guard (Env : FDlgNodeEnv) (Fuel : Nat) (Context : UDlgContext)
    (d : UDlgDialogue) (ThisIndex : Int) (This : UDlgNode) (AE : List Int)
    (hThis : UDlgContext.GetMutableNodeFromIndex d ThisIndex = some This)
    (hClass : This.NodeClass = EDlgNodeClass.Speech) (hvp : This.bIsVirtualParent = true)
    (hmem : ThisIndex ∈ AE) :
    ReevaluateChildrenFuel Env (Fuel + 1) Context d ThisIndex AE =
      some { bResult := false, Context := Context.EmptyOptions,
             Dialogue := d.SetVirtualParentIndex ThisIndex INDEX_NONE } := by
  rw [ReevaluateChildrenFuel_Speech Env _ Context d ThisIndex This AE hThis hClass]
  unfold UDlgNode_Speech.ReevaluateChildren
  rw [if_pos hvp]
  dsimp only
  rw [if_pos hmem]

/-- No child to go to: the virtual parent returns false. -/
theorem ReevaluateChildrenFuel_no_child (Env : FDlgNodeEnv) (Fuel : Nat) (Context : UDlgContext)
    (d : UDlgDialogue) (ThisIndex : Int) (This : UDlgNode) (AE : List Int)
    (hThis : UDlgContext.GetMutableNodeFromIndex d ThisIndex = some This)
    (hClass : This.NodeClass = EDlgNodeClass.Speech) (hvp : This.bIsVirtualParent = true)
    (hF : UDlgNode_Speech.FindFirstSatisfiedChild Env Context.EmptyOptions
      (d.SetVirtualParentIndex ThisIndex INDEX_NONE) ThisIndex This.Children = none) :
    ReevaluateChildrenFuel Env (Fuel + 1) Context d ThisIndex AE =
      some { bResult := false, Context := Context.EmptyOptions,
             Dialogue := d.SetVirtualParentIndex ThisIndex INDEX_NONE } := by
  rw [ReevaluateChildrenFuel_Speech Env _ Context d ThisIndex This AE hThis hClass]
  unfold UDlgNode_Speech.ReevaluateChildren
  rw [if_pos hvp]
  dsimp only
  rw [hF]
  split <;> rfl

/-- A child to go to: the virtual parent returns what the nested call returns, and records the
target of the edge when that is true. -/
theorem ReevaluateChildrenFuel_child (Env : FDlgNodeEnv) (Fuel : Nat) (Context : UDlgContext)
    (d : UDlgDialogue) (ThisIndex : Int) (This : UDlgNode) (AE : List Int)
    (Edge : FDlgEdge) (Node : UDlgNode)
    (hThis : UDlgContext.GetMutableNodeFromIndex d ThisIndex = some This)
    (hClass : This.NodeClass = EDlgNodeClass.Speech) (hvp : This.bIsVirtualParent = true)
    (hmem : ThisIndex ∉ AE)
    (hF : UDlgNode_Speech.FindFirstSatisfiedChild Env Context.EmptyOptions
      (d.SetVirtualParentIndex ThisIndex INDEX_NONE) ThisIndex This.Children =
        some (Edge, Node)) :
    ReevaluateChildrenFuel Env (Fuel + 1) Context d ThisIndex AE =
      (ReevaluateChildrenFuel Env Fuel Context.EmptyOptions
        (d.SetVirtualParentIndex ThisIndex INDEX_NONE) Edge.TargetIndex (ThisIndex :: AE)).map
        (fun r =>
          { bResult := r.bResult, Context := r.Context,
            Dialogue :=
              if r.bResult then r.Dialogue.SetVirtualParentIndex ThisIndex Edge.TargetIndex
              else r.Dialogue }) := by
  rw [ReevaluateChildrenFuel_Speech Env _ Context d ThisIndex This AE hThis hClass]
  unfold UDlgNode_Speech.ReevaluateChildren
  rw [if_pos hvp]
  dsimp only
  rw [if_neg hmem, hF]
  dsimp only
  cases ReevaluateChildrenFuel Env Fuel Context.EmptyOptions
      (d.SetVirtualParentIndex ThisIndex INDEX_NONE) Edge.TargetIndex (ThisIndex :: AE) with
  | none => rfl
  | some r => rfl

/-- The assignment of the child index keeps every node in place, with its class, its
virtual-parent flag and its children. -/
theorem GetMutableNodeFromIndex_SetVirtualParentIndex_some (d : UDlgDialogue) (i v j : Int)
    (n : UDlgNode) (h : UDlgContext.GetMutableNodeFromIndex d j = some n) :
    ∃ m : UDlgNode,
      UDlgContext.GetMutableNodeFromIndex (d.SetVirtualParentIndex i v) j = some m ∧
        m.NodeClass = n.NodeClass ∧ m.bIsVirtualParent = n.bIsVirtualParent ∧
        m.Children = n.Children := by
  rw [UDlgDialogue.GetMutableNodeFromIndex_SetVirtualParentIndex, h]
  by_cases hji : j = i
  · exact ⟨{ n with VirtualParentFirstSatisfiedDirectChildIndex := v },
      by simp only [Option.map_some', if_pos hji], rfl, rfl, rfl⟩
  · exact ⟨n, by simp only [Option.map_some', if_neg hji], rfl, rfl, rfl⟩

/-! ## C11 -/

/-- C11: cycle safety. On every dialogue and from every node that exists, the virtual call
`ReevaluateChildren` on a virtual-parent Speech node `A` returns. If the loop of `A` returns on
an edge to a virtual-parent Speech node `B` and the loop of `B` returns on an edge back to `A`
(the chain A -> B -> A), the call returns false, with both option lists emptied: the nested call
on `A` finds `A` in the already-evaluated set. -/
theorem C11_ReevaluateChildren_terminates_and_breaks_cycle (Env : FDlgNodeEnv)
    (Context : UDlgContext) (d : UDlgDialogue) (iA : Int) (A : UDlgNode) (AE : List Int)
    (hA : UDlgContext.GetMutableNodeFromIndex d iA = some A)
    (hAc : A.NodeClass = EDlgNodeClass.Speech) (hAvp : A.bIsVirtualParent = true) :
    (∃ r, ReevaluateChildren Env Context d iA AE = some r) ∧
    ∀ (iB : Int) (B : UDlgNode) (eA eB : FDlgEdge) (nB nA : UDlgNode),
      UDlgContext.GetMutableNodeFromIndex d iB = some B →
      B.NodeClass = EDlgNodeClass.Speech → B.bIsVirtualParent = true →
      UDlgNode_Speech.FindFirstSatisfiedChild Env Context.EmptyOptions
        (d.SetVirtualParentIndex iA INDEX_NONE) iA A.Children = some (eA, nB) →
      eA.TargetIndex = iB →
      UDlgNode_Speech.FindFirstSatisfiedChild Env Context.EmptyOptions
        ((d.SetVirtualParentIndex iA INDEX_NONE).SetVirtualParentIndex iB INDEX_NONE) iB
        B.Children = some (eB, nA) →
      eB.TargetIndex = iA →
      ∃ r, ReevaluateChildren Env Context d iA AE = some r ∧ r.bResult = false ∧
        r.Context = Context.EmptyOptions := by
  refine ⟨ReevaluateChildren_returns Env Context d iA AE A hA, ?_⟩
  intro iB B eA eB nB nA hB hBc hBvp hAB heA hBA heB
  have h3 : ∃ r, ReevaluateChildrenFuel Env 3 Context d iA AE = some r ∧ r.bResult = false ∧
      r.Context = Context.EmptyOptions := by
    by_cases hmemA : iA ∈ AE
    · exact ⟨_, ReevaluateChildrenFuel_guard Env 2 Context d iA A AE hA hAc hAvp hmemA, rfl, rfl⟩
    · rw [ReevaluateChildrenFuel_child Env 2 Context d iA A AE eA nB hA hAc hAvp hmemA hAB, heA]
      obtain ⟨B1, hB1, hB1c, hB1vp, hB1ch⟩ :=
        GetMutableNodeFromIndex_SetVirtualParentIndex_some d iA INDEX_NONE iB B hB
      rw [hBc] at hB1c
      rw [hBvp] at hB1vp
      by_cases hmemB : iB ∈ iA :: AE
      · rw [ReevaluateChildrenFuel_guard Env 1 _ _ iB B1 _ hB1 hB1c hB1vp hmemB]
        exact ⟨_, rfl, rfl, rfl⟩
      · have hBA1 : UDlgNode_Speech.FindFirstSatisfiedChild Env
            Context.EmptyOptions.EmptyOptions
            ((d.SetVirtualParentIndex iA INDEX_NONE).SetVirtualParentIndex iB INDEX_NONE) iB
            B1.Children = some (eB, nA) := by
          rw [hB1ch]
          exact hBA
        rw [ReevaluateChildrenFuel_child Env 1 _ _ iB B1 _ eB nA hB1 hB1c hB1vp hmemB hBA1, heB]
        obtain ⟨A1, hA1, hA1c, hA1vp, _⟩ :=
          GetMutableNodeFromIndex_SetVirtualParentIndex_some d iA INDEX_NONE iA A hA
        obtain ⟨A2, hA2, hA2c, hA2vp, _⟩ :=
          GetMutableNodeFromIndex_SetVirtualParentIndex_some
            (d.SetVirtualParentIndex iA INDEX_NONE) iB INDEX_NONE iA A1 hA1
        rw [hA1c, hAc] at hA2c
        rw [hA1vp, hAvp] at hA2vp
        have hmemA2 : iA ∈ iB :: iA :: AE :=
          List.mem_cons_of_mem _ (List.mem_cons_self _ _)
        rw [ReevaluateChildrenFuel_guard Env 0 _ _ iA A2 _ hA2 hA2c hA2vp hmemA2]
        exact ⟨_, rfl, rfl, rfl⟩
  obtain ⟨r, hr, hb, hc⟩ := h3
  exact ⟨r, ReevaluateChildren_eq_of_Fuel Env 3 Context d iA AE r hr, hb, hc⟩

/-- C11 on `CycleDialogue`, two virtual parents pointing at each other: the call on node 0
returns false. -/
theorem C11_ReevaluateChildren_terminates_and_breaks_cycle_witness :
    (ReevaluateChildren SampleEnv {} CycleDialogue 0 []).map (fun r => r.bResult) = some false ∧
      ∃ r, ReevaluateChildren SampleEnv {} CycleDialogue 0 [] = some r ∧ r.bResult = false ∧
        r.Context = UDlgContext.EmptyOptions {} :=
  ⟨by decide,
    (C11_ReevaluateChildren_terminates_and_breaks_cycle SampleEnv {} CycleDialogue 0
      { NodeGUID := { A := 30 }, bIsVirtualParent := true, Children := [{ TargetIndex := 1 }] } []
      (by decide) rfl rfl).2 1
      { NodeGUID := { A := 31 }, bIsVirtualParent := true, Children := [{ TargetIndex := 0 }] }
      { TargetIndex := 1 } { TargetIndex := 0 }
      { NodeGUID := { A := 31 }, bIsVirtualParent := true, Children := [{ TargetIndex := 0 }] }
      { NodeGUID := { A := 30 }, bIsVirtualParent := true, Children := [{ TargetIndex := 1 }] }
      (by decide) rfl rfl (by decide) rfl (by decide) rfl⟩

/-! ## C12 -/

/-- C12: edge ordering. Let `A` be a virtual-parent Speech node that is not in the
already-evaluated set, and let `Edge` be the lowest-index child edge of `A` that evaluates
true (every edge of `Pre`, before it, evaluates false; for `[E0, E1, E2]` with `E0` false and
`E1` true, `Pre = [E0]` and `Edge = E1`), its target being a node of the dialogue. Then
`ReevaluateChildren` makes its one nested call on the target of `Edge`, returns the result of
that call, and when the result is true records the target index of `Edge` as the first
satisfied direct child. -/
theorem C12_virtual_parent_picks_first_true_edge (Env : FDlgNodeEnv) (Context : UDlgContext)
    (d : UDlgDialogue) (iA : Int) (A : UDlgNode) (AE : List Int)
    (Pre : List FDlgEdge) (Edge : FDlgEdge) (Post : List FDlgEdge) (Target : UDlgNode)
    (hA : UDlgContext.GetMutableNodeFromIndex d iA = some A)
    (hAc : A.NodeClass = EDlgNodeClass.Speech) (hAvp : A.bIsVirtualParent = true)
    (hAE : iA ∉ AE) (hChildren : A.Children = Pre ++ Edge :: Post)
    (hPre : ∀ e ∈ Pre, Env.EdgeEvaluate Context.EmptyOptions
      (d.SetVirtualParentIndex iA INDEX_NONE) iA e = false)
    (hEdge : Env.EdgeEvaluate Context.EmptyOptions
      (d.SetVirtualParentIndex iA INDEX_NONE) iA Edge = true)
    (hTarget : UDlgContext.GetMutableNodeFromIndex (d.SetVirtualParentIndex iA INDEX_NONE)
      Edge.TargetIndex = some Target) :
    ∃ r : FDlgStepResult,
      ReevaluateChildren Env Context.EmptyOptions (d.SetVirtualParentIndex iA INDEX_NONE)
        Edge.TargetIndex (iA :: AE) = some r ∧
      ReevaluateChildren Env Context d iA AE =
        some { bResult := r.bResult, Context := r.Context,
               Dialogue :=
                 if r.bResult then r.Dialogue.SetVirtualParentIndex iA Edge.TargetIndex
                 else r.Dialogue } := by
  have hF : UDlgNode_Speech.FindFirstSatisfiedChild Env Context.EmptyOptions
      (d.SetVirtualParentIndex iA INDEX_NONE) iA A.Children = some (Edge, Target) := by
    rw [hChildren]
    exact UDlgNode_Speech.FindFirstSatisfiedChild_append Env _ _ iA Edge Target Post Pre hPre
      hEdge hTarget
  have hvalid := (UDlgContext.GetMutableNodeFromIndex_eq_some d iA A hA).1
  have hcount : (d.SetVirtualParentIndex iA INDEX_NONE).UnevaluatedCount (iA :: AE) <
      d.Nodes.length := by
    rw [UDlgDialogue.UnevaluatedCount_SetVirtualParentIndex]
    have h1 := UDlgDialogue.UnevaluatedCount_cons_lt d iA AE hvalid hAE
    have h2 := UnevaluatedCount_le_length d AE
    omega
  obtain ⟨r, hr⟩ := ReevaluateChildrenFuel_returns Env d.Nodes.length Context.EmptyOptions
    (d.SetVirtualParentIndex iA INDEX_NONE) Edge.TargetIndex (iA :: AE) Target hTarget hcount
  refine ⟨r, ReevaluateChildren_eq_of_Fuel Env _ _ _ _ _ r hr, ?_⟩
  unfold ReevaluateChildren
  rw [ReevaluateChildrenFuel_child Env _ Context d iA A AE Edge Target hA hAc hAvp hAE hF, hr]
  rfl

/-- C12 on `OrderingDialogue`, whose virtual parent has the children `[E0, E1, E2]` with `E0`
blocked: the call goes to node 2, the target of `E1`, returns its result `true` with its
options, and records 2 as the first satisfied direct child. -/
theorem C12_virtual_parent_picks_first_true_edge_witness :
    (ReevaluateChildren SampleEnv {} OrderingDialogue 0 []).map
        (fun r => (r.bResult, r.Context.CurrentOptions,
          (UDlgContext.GetMutableNodeFromIndex r.Dialogue 0).map
            (fun n => n.VirtualParentFirstSatisfiedDirectChildIndex))) =
        some (true, [{ TargetIndex := 4 }], some 2) ∧
      ∃ r : FDlgStepResult,
        ReevaluateChildren SampleEnv (UDlgContext.EmptyOptions {})
          (OrderingDialogue.SetVirtualParentIndex 0 INDEX_NONE) 2 [0] = some r ∧
        ReevaluateChildren SampleEnv {} OrderingDialogue 0 [] =
          some { bResult := r.bResult, Context := r.Context,
                 Dialogue :=
                   if r.bResult then r.Dialogue.SetVirtualParentIndex 0 2 else r.Dialogue } :=
  ⟨by decide,
    C12_virtual_parent_picks_first_true_edge SampleEnv {} OrderingDialogue 0 SampleVirtualParent []
      [SampleBlockedEdge 1] { TargetIndex := 2 } [{ TargetIndex := 3 }] SampleChild
      (by decide) rfl rfl (by decide) rfl
      (by
        intro e he
        have he1 : e = SampleBlockedEdge 1 := by simpa using he
        subst he1
        decide)
      (by decide) (by decide)⟩

/-! ## C13 -/

/-- C13: when the cycle guard fires at a virtual-parent Speech node, or none of its child edges
evaluates true, `ReevaluateChildren` returns false, the two option lists of the context are
empty afterwards and the recorded first satisfied child of the node is `INDEX_NONE`. -/
theorem C13_failed_resolution_leaves_no_options (Env : FDlgNodeEnv) (Context : UDlgContext)
    (d : UDlgDialogue) (iA : Int) (A : UDlgNode) (AE : List Int)
    (hA : UDlgContext.GetMutableNodeFromIndex d iA = some A)
    (hAc : A.NodeClass = EDlgNodeClass.Speech) (hAvp : A.bIsVirtualParent = true)
    (hfail : iA ∈ AE ∨ ∀ e ∈ A.Children, Env.EdgeEvaluate Context.EmptyOptions
      (d.SetVirtualParentIndex iA INDEX_NONE) iA e = false) :
    ∃ r : FDlgStepResult,
      ReevaluateChildren Env Context d iA AE = some r ∧ r.bResult = false ∧
        r.Context.CurrentOptions = [] ∧ r.Context.AllOptions = [] ∧
        (UDlgContext.GetMutableNodeFromIndex r.Dialogue iA).map
          (fun n => n.VirtualParentFirstSatisfiedDirectChildIndex) = some INDEX_NONE := by
  have hidx : (UDlgContext.GetMutableNodeFromIndex (d.SetVirtualParentIndex iA INDEX_NONE)
      iA).map (fun n => n.VirtualParentFirstSatisfiedDirectChildIndex) = some INDEX_NONE := by
    rw [UDlgDialogue.GetMutableNodeFromIndex_SetVirtualParentIndex, hA]
    simp
  have hres : ReevaluateChildren Env Context d iA AE =
      some { bResult := false, Context := Context.EmptyOptions,
             Dialogue := d.SetVirtualParentIndex iA INDEX_NONE } := by
    unfold ReevaluateChildren
    by_cases hmem : iA ∈ AE
    · exact ReevaluateChildrenFuel_guard Env _ Context d iA A AE hA hAc hAvp hmem
    · have hall := hfail.resolve_left hmem
      exact ReevaluateChildrenFuel_no_child Env _ Context d iA A AE hA hAc hAvp
        (UDlgNode_Speech.FindFirstSatisfiedChild_eq_none Env _ _ iA A.Children hall)
  exact ⟨_, hres, rfl, rfl, rfl, hidx⟩

/-- C13 on `OrderingDialogue` with the cycle guard firing at node 0, which held the stale
child index 3. -/
theorem C13_failed_resolution_leaves_no_options_witness :
    ∃ r : FDlgStepResult,
      ReevaluateChildren SampleEnv { CurrentOptions := [{ TargetIndex := 4 }] } OrderingDialogue
          0 [0] = some r ∧ r.bResult = false ∧
        r.Context.CurrentOptions = [] ∧ r.Context.AllOptions = [] ∧
        (UDlgContext.GetMutableNodeFromIndex r.Dialogue 0).map
          (fun n => n.VirtualParentFirstSatisfiedDirectChildIndex) = some INDEX_NONE :=
  C13_failed_resolution_leaves_no_options SampleEnv { CurrentOptions := [{ TargetIndex := 4 }] }
    OrderingDialogue 0 SampleVirtualParent [0] (by decide) rfl rfl (Or.inl (by decide))

/-! ## C16 -/

/-- C16: determinism. `ReevaluateChildren` is a function of the context, the graph and the
already-evaluated set, and on a virtual-parent Speech node its whole outcome (the boolean, the
context with both option lists in their order, and the dialogue with the recorded first
satisfied child) is the same whatever value `v` the first-satisfied-child index of the node
held before the call. -/
theorem C16_ReevaluateChildren_ignores_prior_child_index (Env : FDlgNodeEnv)
    (Context : UDlgContext) (d : UDlgDialogue) (iA : Int) (A : UDlgNode) (AE : List Int)
    (v : Int)
    (hA : UDlgContext.GetMutableNodeFromIndex d iA = some A)
    (hAc : A.NodeClass = EDlgNodeClass.Speech) (hAvp : A.bIsVirtualParent = true) :
    ReevaluateChildren Env Context (d.SetVirtualParentIndex iA v) iA AE =
      ReevaluateChildren Env Context d iA AE := by
  obtain ⟨A1, hA1, hA1c, hA1vp, hA1ch⟩ :=
    GetMutableNodeFromIndex_SetVirtualParentIndex_some d iA v iA A hA
  rw [hAc] at hA1c
  rw [hAvp] at hA1vp
  unfold ReevaluateChildren
  rw [UDlgDialogue.SetVirtualParentIndex_length,
    ReevaluateChildrenFuel_Speech Env _ Context _ iA A1 AE hA1 hA1c,
    ReevaluateChildrenFuel_Speech Env _ Context d iA A AE hA hAc]
  unfold UDlgNode_Speech.ReevaluateChildren
  rw [if_pos hAvp, if_pos hA1vp, hA1ch, UDlgDialogue.SetVirtualParentIndex_twice]

/-- C16 on `OrderingDialogue`: with the stale child index of node 0 replaced by 1, the call
returns what it returns with the stale index 3. -/
theorem C16_ReevaluateChildren_ignores_prior_child_index_witness :
    ReevaluateChildren SampleEnv {} (OrderingDialogue.SetVirtualParentIndex 0 1) 0 [] =
      ReevaluateChildren SampleEnv {} OrderingDialogue 0 [] :=
  C16_ReevaluateChildren_ignores_prior_child_index SampleEnv {} OrderingDialogue 0
    SampleVirtualParent [] 1 (by decide) rfl rfl

/-! ## C17 -/

/-- C17: an End node is terminal. `UDlgNode_End::ReevaluateChildren` and
`UDlgNode_End::OptionSelected` return false and hand back the context (option lists, active
node index) and the dialogue as they were; so does the virtual call `ReevaluateChildren` on
every node of the End class. -/
theorem C17_End_node_is_terminal (Env : FDlgNodeEnv) (Context : UDlgContext) (d : UDlgDialogue)
    (AE : List Int) (OptionIndex : Int) (bFromAll : Bool) :
    UDlgNode_End.ReevaluateChildren Context d AE =
        { bResult := false, Context := Context, Dialogue := d } ∧
      UDlgNode_End.OptionSelected OptionIndex bFromAll Context d =
        { bResult := false, Context := Context, Dialogue := d } ∧
      ∀ (ThisIndex : Int) (This : UDlgNode),
        UDlgContext.GetMutableNodeFromIndex d ThisIndex = some This →
        This.NodeClass = EDlgNodeClass.End →
          ReevaluateChildren Env Context d ThisIndex AE =
            some { bResult := false, Context := Context, Dialogue := d } := by
  refine ⟨rfl, rfl, ?_⟩
  intro ThisIndex This hThis hClass
  unfold ReevaluateChildren
  rw [ReevaluateChildrenFuel, hThis]
  dsimp only
  rw [hClass]
  rfl

/-- C17 on the End node of `OrderingDialogue`, with options on offer in the context. -/
theorem C17_End_node_is_terminal_witness :
    ReevaluateChildren SampleEnv { ActiveNodeIndex := 4, CurrentOptions := [{ TargetIndex := 1 }] }
        OrderingDialogue 4 [] =
      some { bResult := false,
             Context := { ActiveNodeIndex := 4, CurrentOptions := [{ TargetIndex := 1 }] },
             Dialogue := OrderingDialogue } :=
  (C17_End_node_is_terminal SampleEnv
    { ActiveNodeIndex := 4, CurrentOptions := [{ TargetIndex := 1 }] } OrderingDialogue [] 0
    false).2.2 4 { NodeClass := EDlgNodeClass.End, NodeGUID := { A := 44 } } (by decide) rfl

end UDlgNode

/-! ## The frame of a session in the graph -/

namespace UDlgDialogue

/-- Replacing a node by one that differs from it in the two session fields at most keeps the
image of the dialogue. -/
theorem EraseSessionFields_set (d : UDlgDialogue) (i : Int) (n m : UDlgNode)
    (hn : UDlgContext.GetMutableNodeFromIndex d i = some n)
    (hm : m.EraseSessionFields = n.EraseSessionFields) :
    ({ d with Nodes := d.Nodes.set i.toNat (some m) } : UDlgDialogue).EraseSessionFields =
      d.EraseSessionFields := by
  obtain ⟨hv, hget⟩ := UDlgContext.GetMutableNodeFromIndex_eq_some d i n hn
  obtain ⟨_, hlt⟩ := toNat_lt_of_IsValidNodeIndex d i hv
  have hslot : d.Nodes[i.toNat]? = some (some n) :=
    (getD_none_eq_some_iff d.Nodes i.toNat n).mp hget
  have hlist : (d.Nodes.set i.toNat (some m)).map (Option.map UDlgNode.EraseSessionFields) =
      d.Nodes.map (Option.map UDlgNode.EraseSessionFields) := by
    apply List.ext_getElem?
    intro k
    rw [List.getElem?_map, List.getElem?_map]
    by_cases hk : i.toNat = k
    · subst hk
      rw [List.getElem?_set_self hlt, hslot]
      simp only [Option.map_some', hm]
    · rw [List.getElem?_set_ne hk]
  unfold EraseSessionFields
  simp only [hlist]

theorem EraseSessionFields_SetVirtualParentIndex (d : UDlgDialogue) (i v : Int) :
    (d.SetVirtualParentIndex i v).EraseSessionFields = d.EraseSessionFields := by
  cases hi : UDlgContext.GetMutableNodeFromIndex d i with
  | none => rw [SetVirtualParentIndex_of_none d i v hi]
  | some This =>
    rw [SetVirtualParentIndex_of_some d i v This hi]
    exact EraseSessionFields_set d i This _ hi rfl

end UDlgDialogue

namespace UDlgNode

/-- The nested calls of `ReevaluateChildren` write nothing but recorded child indices, as long
as the base-class `ReevaluateChildren` writes nothing but the two session fields. -/
theorem ReevaluateChildrenFuel_EraseSessionFields (Env : FDlgNodeEnv)
    (hBase : ∀ c dd i ae,
      (Env.BaseReevaluateChildren c dd i ae).Dialogue.EraseSessionFields =
        dd.EraseSessionFields) :
    ∀ (Fuel : Nat) (Context : UDlgContext) (d : UDlgDialogue) (ThisIndex : Int) (AE : List Int)
      (r : FDlgStepResult),
      ReevaluateChildrenFuel Env Fuel Context d ThisIndex AE = some r →
        r.Dialogue.EraseSessionFields = d.EraseSessionFields := by
  intro Fuel
  induction Fuel with
  | zero =>
    intro Context d ThisIndex AE r h
    rw [ReevaluateChildrenFuel] at h
    exact Option.noConfusion h
  | succ Fuel ih =>
    intro Context d ThisIndex AE r h
    have hother : some (Env.BaseReevaluateChildren Context d ThisIndex AE) = some r →
        r.Dialogue.EraseSessionFields = d.EraseSessionFields := by
      intro h1
      injection h1 with h1
      rw [← h1]
      exact hBase Context d ThisIndex AE
    cases hThis : UDlgContext.GetMutableNodeFromIndex d ThisIndex with
    | none =>
      rw [ReevaluateChildrenFuel, hThis] at h
      exact Option.noConfusion h
    | some This =>
      cases hClass : This.NodeClass with
      | Speech =>
        by_cases hvp : This.bIsVirtualParent = true
        · by_cases hmem : ThisIndex ∈ AE
          · rw [ReevaluateChildrenFuel_guard Env _ Context d ThisIndex This AE hThis hClass hvp
              hmem] at h
            injection h with h
            rw [← h]
            exact UDlgDialogue.EraseSessionFields_SetVirtualParentIndex d ThisIndex INDEX_NONE
          · cases hF : UDlgNode_Speech.FindFirstSatisfiedChild Env Context.EmptyOptions
                (d.SetVirtualParentIndex ThisIndex INDEX_NONE) ThisIndex This.Children with
            | none =>
              rw [ReevaluateChildrenFuel_no_child Env _ Context d ThisIndex This AE hThis hClass
                hvp hF] at h
              injection h with h
              rw [← h]
              exact UDlgDialogue.EraseSessionFields_SetVirtualParentIndex d ThisIndex INDEX_NONE
            | some p =>
              obtain ⟨Edge, Node⟩ := p
              rw [ReevaluateChildrenFuel_child Env _ Context d ThisIndex This AE Edge Node hThis
                hClass hvp hmem hF] at h
              cases hR : ReevaluateChildrenFuel Env Fuel Context.EmptyOptions
                  (d.SetVirtualParentIndex ThisIndex INDEX_NONE) Edge.TargetIndex
                  (ThisIndex :: AE) with
              | none =>
                rw [hR] at h
                exact Option.noConfusion h
              | some r1 =>
                rw [hR] at h
                have h1 := ih _ _ _ _ r1 hR
                rw [UDlgDialogue.EraseSessionFields_SetVirtualParentIndex] at h1
                simp only [Option.map_some'] at h
                injection h with h
                rw [← h]
                dsimp only
                split
                · rw [UDlgDialogue.EraseSessionFields_SetVirtualParentIndex]
                  exact h1
                · exact h1
        · rw [ReevaluateChildrenFuel_Speech Env _ Context d ThisIndex This AE hThis hClass] at h
          unfold UDlgNode_Speech.ReevaluateChildren at h
          rw [if_neg hvp] at h
          exact hother h
      | End =>
        rw [ReevaluateChildrenFuel, hThis] at h
        dsimp only at h
        rw [hClass] at h
        injection h with h
        rw [← h]
        rfl
      | Start =>
        rw [ReevaluateChildrenFuel, hThis] at h
        dsimp only at h
        rw [hClass] at h
        exact hother h
      | Selector =>
        rw [ReevaluateChildrenFuel, hThis] at h
        dsimp only at h
        rw [hClass] at h
        exact hother h
      | Proxy =>
        rw [ReevaluateChildrenFuel, hThis] at h
        dsimp only at h
        rw [hClass] at h
        exact hother h

end UDlgNode

namespace UDlgNode_Speech

theorem RebuildConstructedText_EraseSessionFields (Env : FDlgNodeEnv) (Context : UDlgContext)
    (This : UDlgNode) :
    (RebuildConstructedText Env Context This).EraseSessionFields = This.EraseSessionFields := by
  unfold RebuildConstructedText
  split <;> rfl

/-- The dialogue `HandleNodeEnter` hands back is the one `Super::HandleNodeEnter` handed
back. -/
theorem HandleNodeEnter_Dialogue (Env : FDlgNodeEnv) (Context : UDlgContext) (d : UDlgDialogue)
    (ThisIndex : Int) (NE : List Int) (This0 : UDlgNode) (r : FDlgStepResult)
    (hThis0 : UDlgContext.GetMutableNodeFromIndex d ThisIndex = some This0)
    (h : HandleNodeEnter Env Context d ThisIndex NE = some r) :
    r.Dialogue = (HandleNodeEnterSuper Env Context d ThisIndex NE This0).Dialogue := by
  unfold HandleNodeEnter at h
  rw [hThis0] at h
  dsimp only at h
  split at h
  · exact Option.noConfusion h
  · split at h
    · split at h
      · exact Option.noConfusion h
      · injection h with h
        rw [← h]
    · injection h with h
      rw [← h]

theorem SampleEnv_BaseReevaluateChildren_Dialogue (c : UDlgContext) (dd : UDlgDialogue)
    (i : Int) (ae : List Int) : (SampleEnv.BaseReevaluateChildren c dd i ae).Dialogue = dd := by
  simp only [SampleEnv]
  split <;> rfl

theorem SampleEnv_BaseHandleNodeEnter_Dialogue (c : UDlgContext) (dd : UDlgDialogue)
    (i : Int) (ne : List Int) : (SampleEnv.BaseHandleNodeEnter c dd i ne).Dialogue = dd := by
  simp only [SampleEnv]
  split <;> rfl

/-- The base-class calls of `SampleEnv` write nothing into the dialogue. -/
theorem SampleEnv_BaseReevaluateChildren_image (c : UDlgContext) (dd : UDlgDialogue)
    (i : Int) (ae : List Int) :
    (SampleEnv.BaseReevaluateChildren c dd i ae).Dialogue.EraseSessionFields =
      dd.EraseSessionFields := by
  rw [SampleEnv_BaseReevaluateChildren_Dialogue]

theorem SampleEnv_BaseHandleNodeEnter_image (c : UDlgContext) (dd : UDlgDialogue)
    (i : Int) (ne : List Int) :
    (SampleEnv.BaseHandleNodeEnter c dd i ne).Dialogue.EraseSessionFields =
      dd.EraseSessionFields := by
  rw [SampleEnv_BaseHandleNodeEnter_Dialogue]

/-- The base-class `HandleNodeEnter` of `ResolvingEnv`, which resolves virtual parents, writes
nothing but the two session fields. -/
theorem ResolvingEnv_BaseHandleNodeEnter_image (c : UDlgContext) (dd : UDlgDialogue)
    (i : Int) (ne : List Int) :
    (ResolvingEnv.BaseHandleNodeEnter c dd i ne).Dialogue.EraseSessionFields =
      dd.EraseSessionFields := by
  simp only [ResolvingEnv]
  cases hThis : UDlgContext.GetMutableNodeFromIndex dd i with
  | none => rfl
  | some This =>
    dsimp only
    cases hR : UDlgNode.ReevaluateChildren SampleEnv (This.FireNodeEnterEvents c) dd i [] with
    | none => rfl
    | some r =>
      exact UDlgNode.ReevaluateChildrenFuel_EraseSessionFields SampleEnv
        SampleEnv_BaseReevaluateChildren_image _ _ dd i [] r hR

/-! ## C14 -/

/-- C14 fails as stated: a session writes into the nodes of the graph. On `OrderingDialogue`
the call `ReevaluateChildren` on the virtual parent changes the field
`VirtualParentFirstSatisfiedDirectChildIndex` of node 0 from 3 to 2, and on `TextDialogue` the
call `HandleNodeEnter` changes the field `ConstructedText` of node 0. -/
theorem C14_counterexample :
    (UDlgContext.GetMutableNodeFromIndex OrderingDialogue 0).map
        (fun n => n.VirtualParentFirstSatisfiedDirectChildIndex) = some 3 ∧
      (UDlgNode.ReevaluateChildren SampleEnv {} OrderingDialogue 0 []).map
        (fun r => (UDlgContext.GetMutableNodeFromIndex r.Dialogue 0).map
          (fun n => n.VirtualParentFirstSatisfiedDirectChildIndex)) = some (some 2) ∧
      (UDlgNode.ReevaluateChildren SampleEnv {} OrderingDialogue 0 []).map
        (fun r => decide (r.Dialogue.Nodes = OrderingDialogue.Nodes)) = some false ∧
      (UDlgContext.GetMutableNodeFromIndex TextDialogue 0).map
        (fun n => n.ConstructedText) = some "" ∧
      (HandleNodeEnter SampleEnv {} TextDialogue 0 []).map
        (fun r => (UDlgContext.GetMutableNodeFromIndex r.Dialogue 0).map
          (fun n => n.ConstructedText)) = some (some "Hello, Name") ∧
      (HandleNodeEnter SampleEnv {} TextDialogue 0 []).map
        (fun r => decide (r.Dialogue.Nodes = TextDialogue.Nodes)) = some false := by
  refine ⟨by decide, by decide, by decide, by decide, by decide, by decide⟩

/-- C14, amended: the virtual call `ReevaluateChildren` and the `HandleNodeEnter` of a Speech
node hand back a dialogue that differs from the one they were given at most in the fields
`VirtualParentFirstSatisfiedDirectChildIndex` and `ConstructedText` of its nodes: the node
array has the same slots, every other field of every node and every other member of the
dialogue is unchanged. The base-class `ReevaluateChildren` and `HandleNodeEnter`, which are
not among the sources, are taken to write no field but these two either; they may write
these, as a base `HandleNodeEnter` does that resolves a virtual parent through
`ReevaluateChildren`. -/
theorem C14_session_writes_only_two_node_fields (Env : FDlgNodeEnv)
    (hBaseR : ∀ c dd i ae,
      (Env.BaseReevaluateChildren c dd i ae).Dialogue.EraseSessionFields =
        dd.EraseSessionFields)
    (hBaseH : ∀ c dd i ne,
      (Env.BaseHandleNodeEnter c dd i ne).Dialogue.EraseSessionFields =
        dd.EraseSessionFields)
    (Context : UDlgContext) (d : UDlgDialogue) (ThisIndex : Int) (AE NE : List Int)
    (r : FDlgStepResult) :
    (UDlgNode.ReevaluateChildren Env Context d ThisIndex AE = some r →
      r.Dialogue.EraseSessionFields = d.EraseSessionFields) ∧
    (HandleNodeEnter Env Context d ThisIndex NE = some r →
      r.Dialogue.EraseSessionFields = d.EraseSessionFields) := by
  constructor
  · intro h
    exact UDlgNode.ReevaluateChildrenFuel_EraseSessionFields Env hBaseR _ Context d ThisIndex AE
      r h
  · intro h
    cases hThis0 : UDlgContext.GetMutableNodeFromIndex d ThisIndex with
    | none =>
      unfold HandleNodeEnter at h
      rw [hThis0] at h
      exact Option.noConfusion h
    | some This0 =>
      rw [HandleNodeEnter_Dialogue Env Context d ThisIndex NE This0 r hThis0 h]
      unfold HandleNodeEnterSuper
      rw [hBaseH]
      exact UDlgDialogue.EraseSessionFields_set d ThisIndex This0 _ hThis0
        (RebuildConstructedText_EraseSessionFields Env Context This0)

/-- C14, amended, on the two calls of the counterexample, and on `HandleNodeEnter` in
`ResolvingEnv`, whose base-class call resolves the virtual parent of `OrderingDialogue`: the
recorded child index of node 0 goes from 3 to 2 and nothing else changes. -/
theorem C14_session_writes_only_two_node_fields_witness :
    (HandleNodeEnter ResolvingEnv {} OrderingDialogue 0 []).map
        (fun r => (UDlgContext.GetMutableNodeFromIndex r.Dialogue 0).map
          (fun n => n.VirtualParentFirstSatisfiedDirectChildIndex)) = some (some 2) ∧
      (UDlgNode.ReevaluateChildren SampleEnv {} OrderingDialogue 0 []).map
        (fun r => r.Dialogue.EraseSessionFields) = some OrderingDialogue.EraseSessionFields ∧
      (HandleNodeEnter SampleEnv {} TextDialogue 0 []).map
        (fun r => r.Dialogue.EraseSessionFields) = some TextDialogue.EraseSessionFields ∧
      (HandleNodeEnter ResolvingEnv {} OrderingDialogue 0 []).map
        (fun r => r.Dialogue.EraseSessionFields) = some OrderingDialogue.EraseSessionFields := by
  refine ⟨by decide, ?_, ?_, ?_⟩
  · cases h : UDlgNode.ReevaluateChildren SampleEnv {} OrderingDialogue 0 [] with
    | none => exact absurd h (by decide)
    | some r =>
      exact congrArg some
        ((C14_session_writes_only_two_node_fields SampleEnv
          SampleEnv_BaseReevaluateChildren_image SampleEnv_BaseHandleNodeEnter_image {}
          OrderingDialogue 0 [] [] r).1 h)
  · cases h : HandleNodeEnter SampleEnv {} TextDialogue 0 [] with
    | none => exact absurd h (by decide)
    | some r =>
      exact congrArg some
        ((C14_session_writes_only_two_node_fields SampleEnv
          SampleEnv_BaseReevaluateChildren_image SampleEnv_BaseHandleNodeEnter_image {}
          TextDialogue 0 [] [] r).2 h)
  · cases h : HandleNodeEnter ResolvingEnv {} OrderingDialogue 0 [] with
    | none => exact absurd h (by decide)
    | some r =>
      exact congrArg some
        ((C14_session_writes_only_two_node_fields ResolvingEnv
          SampleEnv_BaseReevaluateChildren_image ResolvingEnv_BaseHandleNodeEnter_image {}
          OrderingDialogue 0 [] [] r).2 h)

/-! ## C15 -/

theorem TSet.mem_Add_self {α : Type} [DecidableEq α] (s : List α) (x : α) :
    x ∈ TSet.Add s x := by
  unfold TSet.Add
  split
  · assumption
  · simp

/-- C15 fails as stated: with the flag `bVirtualParentFireDirectChildEnterEvents` of the
virtual parent cleared, a successful `HandleNodeEnter` records the resolved child (node 2) in
the history but fires none of its enter events; with the flag set it fires them once. -/
theorem C15_counterexample :
    SampleChild.EnterEvents = [{ ParticipantName := "Guard", EventName := "Greet" }] ∧
      (UDlgContext.GetMutableNodeFromIndex (ResolvedDialogue false) 0).map
        (fun n => (n.bIsVirtualParent, n.VirtualParentFirstSatisfiedDirectChildIndex)) =
          some (true, 2) ∧
      (HandleNodeEnter SampleEnv {} (ResolvedDialogue false) 0 []).map
        (fun r => (r.bResult, r.Context.History, r.Context.FiredEvents)) =
          some (true, [(2, SampleChild.GetGUID)], []) ∧
      (HandleNodeEnter SampleEnv {} (ResolvedDialogue true) 0 []).map
        (fun r => (r.bResult, r.Context.History, r.Context.FiredEvents)) =
          some (true, [(2, SampleChild.GetGUID)],
            [{ ParticipantName := "Guard", EventName := "Greet" }]) := by
  refine ⟨by decide, by decide, by decide, by decide⟩

/-- C15, amended: let `Super::HandleNodeEnter` succeed on the virtual-parent Speech node `A`,
whose recorded first satisfied direct child is the node `C`. Then `HandleNodeEnter` succeeds,
the pair of the index and the GUID of `C` is in the history, and after the events fired by
`Super::HandleNodeEnter` the enter events of `C` are fired exactly once if the flag
`bVirtualParentFireDirectChildEnterEvents` of `A` is set, and not at all if it is cleared. -/
theorem C15_HandleNodeEnter_fires_child_events_if_flag (Env : FDlgNodeEnv)
    (Context : UDlgContext) (d : UDlgDialogue) (iA : Int) (NE : List Int) (A0 A C : UDlgNode)
    (hA0 : UDlgContext.GetMutableNodeFromIndex d iA = some A0)
    (hres : (HandleNodeEnterSuper Env Context d iA NE A0).bResult = true)
    (hA : UDlgContext.GetMutableNodeFromIndex
      (HandleNodeEnterSuper Env Context d iA NE A0).Dialogue iA = some A)
    (hAvp : A.bIsVirtualParent = true)
    (hC : UDlgContext.GetMutableNodeFromIndex
      (HandleNodeEnterSuper Env Context d iA NE A0).Dialogue
      A.VirtualParentFirstSatisfiedDirectChildIndex = some C) :
    ∃ r : FDlgStepResult,
      HandleNodeEnter Env Context d iA NE = some r ∧ r.bResult = true ∧
        (A.VirtualParentFirstSatisfiedDirectChildIndex, C.GetGUID) ∈ r.Context.History ∧
        r.Context.FiredEvents =
          (HandleNodeEnterSuper Env Context d iA NE A0).Context.FiredEvents ++
            (if A.bVirtualParentFireDirectChildEnterEvents then C.EnterEvents else []) := by
  obtain ⟨hCv, hCget⟩ := UDlgContext.GetMutableNodeFromIndex_eq_some _ _ C hC
  have hguid : (HandleNodeEnterSuper Env Context d iA NE A0).Dialogue.GetNodeGUIDForIndex
      A.VirtualParentFirstSatisfiedDirectChildIndex = some C.GetGUID := by
    unfold UDlgDialogue.GetNodeGUIDForIndex
    rw [if_pos hCv, hCget]
  have hcond : ((HandleNodeEnterSuper Env Context d iA NE A0).bResult && A.bIsVirtualParent &&
      (HandleNodeEnterSuper Env Context d iA NE A0).Dialogue.IsValidNodeIndex
        A.VirtualParentFirstSatisfiedDirectChildIndex) = true := by
    rw [hres, hAvp, hCv]
    rfl
  unfold HandleNodeEnter
  rw [hA0]
  dsimp only
  rw [hA]
  dsimp only
  rw [if_pos hcond, hguid]
  dsimp only
  rw [hC]
  refine ⟨_, rfl, hres, ?_, ?_⟩
  · dsimp only
    split
    · exact TSet.mem_Add_self _ _
    · exact TSet.mem_Add_self _ _
  · dsimp only
    split
    · rfl
    · simp [UDlgContext.SetNodeVisited]

/-- C15, amended, on `ResolvedDialogue true`: the enter event of node 2 is fired once. -/
theorem C15_HandleNodeEnter_fires_child_events_if_flag_witness :
    ∃ r : FDlgStepResult,
      HandleNodeEnter SampleEnv {} (ResolvedDialogue true) 0 [] = some r ∧ r.bResult = true ∧
        ((2 : Int), SampleChild.GetGUID) ∈ r.Context.History ∧
        r.Context.FiredEvents =
          [] ++ (if true then SampleChild.EnterEvents else []) :=
  C15_HandleNodeEnter_fires_child_events_if_flag SampleEnv {} (ResolvedDialogue true) 0 []
    { SampleVirtualParent with VirtualParentFirstSatisfiedDirectChildIndex := 2
                               bVirtualParentFireDirectChildEnterEvents := true }
    { SampleVirtualParent with VirtualParentFirstSatisfiedDirectChildIndex := 2
                               bVirtualParentFireDirectChildEnterEvents := true }
    SampleChild (by decide) (by decide) (by decide) rfl (by decide)

end UDlgNode_Speech

/-! ## The aggregation pass -/

theorem TArray.Deref_map_some {α : Type} (xs : List α) :
    TArray.Deref (xs.map some) = some xs := by
  induction xs with
  | nil => rfl
  | cons x rest ih => simp [TArray.Deref, ih]

theorem TArray.Deref_eq_some {α : Type} :
    ∀ (l : List (Option α)) (xs : List α), TArray.Deref l = some xs → l = xs.map some := by
  intro l
  induction l with
  | nil =>
    intro xs h
    simp only [TArray.Deref, Option.some.injEq] at h
    rw [← h]
    rfl
  | cons a rest ih =>
    intro xs h
    cases a with
    | none => simp [TArray.Deref] at h
    | some x =>
      simp only [TArray.Deref, Option.map_eq_some'] at h
      obtain ⟨ys, hys, hxs⟩ := h
      rw [← hxs, ih ys hys]
      rfl

theorem TArray.Deref_isSome {α : Type} :
    ∀ l : List (Option α), (∀ x ∈ l, x ≠ none) → ∃ xs, TArray.Deref l = some xs := by
  intro l
  induction l with
  | nil => intro _; exact ⟨[], rfl⟩
  | cons a rest ih =>
    intro h
    cases a with
    | none => exact absurd rfl (h none (List.mem_cons_self _ _))
    | some x =>
      obtain ⟨ys, hys⟩ := ih (fun y hy => h y (List.mem_cons_of_mem _ hy))
      exact ⟨x :: ys, by simp [TArray.Deref, hys]⟩

namespace UDlgDialogue

theorem RefreshStartNodes_snd (Env : FDlgRefreshEnv) (b : Bool) :
    ∀ (l : List UDlgNode) (Data : TMap FName FDlgParticipantData),
      (RefreshStartNodes Env b Data l).2 = l.map (Env.RebuildAndUpdateNode b) := by
  intro l
  induction l with
  | nil => intro _; rfl
  | cons n rest ih =>
    intro Data
    simp only [RefreshStartNodes, List.map_cons, ih]

theorem RefreshNode_Node (Env : FDlgRefreshEnv) (b : Bool)
    (Data : TMap FName FDlgParticipantData) (States : List FName) (n : UDlgNode) :
    (RefreshNode Env b Data States n).2.2 = Env.RebuildAndUpdateNode b n := rfl

theorem RefreshNodes_Nodes (Env : FDlgRefreshEnv) (b : Bool) :
    ∀ (l : List UDlgNode) (Data : TMap FName FDlgParticipantData) (States : List FName),
      (RefreshNodes Env b Data States l).2.2 = l.map (Env.RebuildAndUpdateNode b) := by
  intro l
  induction l with
  | nil => intro _ _; rfl
  | cons n rest ih =>
    intro Data States
    simp only [RefreshNodes, List.map_cons, ih, RefreshNode_Node]

/-- The flag passed to the rebuild steps matters only through what they make of the nodes. -/
theorem RefreshStartNodes_fst_congr (Env : FDlgRefreshEnv) (b1 b2 : Bool) :
    ∀ (l : List UDlgNode) (Data : TMap FName FDlgParticipantData),
      (RefreshStartNodes Env b1 Data l).1 = (RefreshStartNodes Env b2 Data l).1 := by
  intro l
  induction l with
  | nil => intro _; rfl
  | cons n rest ih =>
    intro Data
    simp only [RefreshStartNodes, ih]

theorem RefreshNode_congr (Env : FDlgRefreshEnv) (b1 b2 : Bool)
    (Data : TMap FName FDlgParticipantData) (States : List FName) (n : UDlgNode)
    (h : Env.RebuildAndUpdateNode b1 n = Env.RebuildAndUpdateNode b2 n) :
    RefreshNode Env b1 Data States n = RefreshNode Env b2 Data States n := by
  simp only [RefreshNode, h]

theorem RefreshNodes_congr (Env : FDlgRefreshEnv) (b1 b2 : Bool) :
    ∀ (l : List UDlgNode) (Data : TMap FName FDlgParticipantData) (States : List FName),
      (∀ n ∈ l, Env.RebuildAndUpdateNode b1 n = Env.RebuildAndUpdateNode b2 n) →
      RefreshNodes Env b1 Data States l = RefreshNodes Env b2 Data States l := by
  intro l
  induction l with
  | nil => intro _ _ _; rfl
  | cons n rest ih =>
    intro Data States h
    have hn := RefreshNode_congr Env b1 b2 Data States n (h n (List.mem_cons_self _ _))
    simp only [RefreshNodes, hn, ih _ _ (fun m hm => h m (List.mem_cons_of_mem _ hm))]

theorem map_eq_self_of_fixed {α : Type} (f : α → α) :
    ∀ l : List α, (∀ x ∈ l, f x = x) → l.map f = l := by
  intro l
  induction l with
  | nil => intro _; rfl
  | cons a rest ih =>
    intro h
    rw [List.map_cons, h a (List.mem_cons_self _ _),
      ih (fun x hx => h x (List.mem_cons_of_mem _ hx))]

/-- What `UpdateAndRefreshData` returns, spelt out on the nodes behind the pointers. -/
theorem UpdateAndRefreshData_eq (Env : FDlgRefreshEnv) (b : Bool) (d : UDlgDialogue)
    (StartNodes Nodes : List UDlgNode)
    (hS : TArray.Deref d.StartNodes = some StartNodes) (hN : TArray.Deref d.Nodes = some Nodes) :
    ∃ Classes : List FDlgParticipantClass,
      UpdateAndRefreshData Env b d =
        some { d with
               StartNodes := (StartNodes.map (Env.RebuildAndUpdateNode b)).map some
               Nodes := (Nodes.map (Env.RebuildAndUpdateNode b)).map some
               ParticipantsData :=
                 (RefreshNodes Env b (RefreshStartNodes Env b [] StartNodes).1 [] Nodes).1
               AllSpeakerStates :=
                 TSet.Remove
                   (RefreshNodes Env b (RefreshStartNodes Env b [] StartNodes).1 [] Nodes).2.1
                   NAME_None
               ParticipantsClasses := Classes } := by
  unfold UpdateAndRefreshData
  rw [hS, hN]
  dsimp only
  rw [RefreshStartNodes_snd, RefreshNodes_Nodes]
  exact ⟨_, rfl⟩

/-! ## C18 -/

/-- C18: idempotence of refresh. On a dialogue without null slots whose nodes the rebuild
steps leave unchanged, `UpdateAndRefreshData` returns, a second call on the dialogue it
returned returns too, and the second call yields the same `ParticipantsData` and the same
speaker-state set as the first. -/
theorem C18_refresh_twice_same_data (Env : FDlgRefreshEnv) (b1 b2 : Bool) (d : UDlgDialogue)
    (hnn : ∀ x ∈ d.StartNodes ++ d.Nodes, x ≠ none)
    (hfix : ∀ (b : Bool) (n : UDlgNode), some n ∈ d.StartNodes ++ d.Nodes →
      Env.RebuildAndUpdateNode b n = n) :
    ∃ d1 d2 : UDlgDialogue,
      UpdateAndRefreshData Env b1 d = some d1 ∧ UpdateAndRefreshData Env b2 d1 = some d2 ∧
        d2.ParticipantsData = d1.ParticipantsData ∧
        d2.AllSpeakerStates = d1.AllSpeakerStates := by
  obtain ⟨S, hS⟩ := TArray.Deref_isSome d.StartNodes
    (fun x hx => hnn x (List.mem_append_left _ hx))
  obtain ⟨N, hN⟩ := TArray.Deref_isSome d.Nodes
    (fun x hx => hnn x (List.mem_append_right _ hx))
  have hSeq := TArray.Deref_eq_some d.StartNodes S hS
  have hNeq := TArray.Deref_eq_some d.Nodes N hN
  have hSfix : ∀ b, ∀ n ∈ S, Env.RebuildAndUpdateNode b n = n := by
    intro b n hn
    apply hfix b n
    rw [hSeq]
    exact List.mem_append_left _ (List.mem_map_of_mem some hn)
  have hNfix : ∀ b, ∀ n ∈ N, Env.RebuildAndUpdateNode b n = n := by
    intro b n hn
    apply hfix b n
    rw [hNeq]
    exact List.mem_append_right _ (List.mem_map_of_mem some hn)
  obtain ⟨C1, h1⟩ := UpdateAndRefreshData_eq Env b1 d S N hS hN
  rw [map_eq_self_of_fixed _ S (hSfix b1), map_eq_self_of_fixed _ N (hNfix b1)] at h1
  obtain ⟨C2, h2⟩ := UpdateAndRefreshData_eq Env b2
    { d with
      StartNodes := S.map some
      Nodes := N.map some
      ParticipantsData := (RefreshNodes Env b1 (RefreshStartNodes Env b1 [] S).1 [] N).1
      AllSpeakerStates :=
        TSet.Remove (RefreshNodes Env b1 (RefreshStartNodes Env b1 [] S).1 [] N).2.1 NAME_None
      ParticipantsClasses := C1 }
    S N (TArray.Deref_map_some S) (TArray.Deref_map_some N)
  refine ⟨_, _, h1, h2, ?_, ?_⟩
  · dsimp only
    rw [RefreshStartNodes_fst_congr Env b2 b1,
      RefreshNodes_congr Env b2 b1 N _ _ (fun n hn => by rw [hNfix b2 n hn, hNfix b1 n hn])]
  · dsimp only
    rw [RefreshStartNodes_fst_congr Env b2 b1,
      RefreshNodes_congr Env b2 b1 N _ _ (fun n hn => by rw [hNfix b2 n hn, hNfix b1 n hn])]

/-- C18 on `GuardDialogue`: both calls yield the entry of "Guard" with the one condition, and
the speaker state "Angry". -/
theorem C18_refresh_twice_same_data_witness :
    (UpdateAndRefreshData SampleRefreshEnv false GuardDialogue).map
        (fun r => (r.ParticipantsData, r.AllSpeakerStates)) =
        some ([("Guard", { ConditionsPrimary := [SampleCondition] })], ["Angry"]) ∧
      ∃ d1 d2 : UDlgDialogue,
        UpdateAndRefreshData SampleRefreshEnv false GuardDialogue = some d1 ∧
          UpdateAndRefreshData SampleRefreshEnv true d1 = some d2 ∧
          d2.ParticipantsData = d1.ParticipantsData ∧
          d2.AllSpeakerStates = d1.AllSpeakerStates :=
  ⟨by decide,
    C18_refresh_twice_same_data SampleRefreshEnv false true GuardDialogue
      (by
        intro x hx
        simp only [GuardDialogue, List.cons_append, List.nil_append, List.mem_cons,
          List.not_mem_nil, or_false] at hx
        rcases hx with h | h | h <;> rw [h] <;> exact Option.some_ne_none _)
      (fun _ _ _ => rfl)⟩

/-! ## C19 -/

/-- C19 fails as stated: the participant-class registry that `UpdateAndRefreshData` produces
depends on the registry held before. On the same graph, `GuardDialogue`, a prior registry that
binds "Guard" to the class 7 gives a registry with that binding, an empty prior registry gives
one with "Guard" unbound. -/
theorem C19_counterexample :
    ({ GuardDialogue with
        ParticipantsClasses := [{ ParticipantName := "Guard", ParticipantClass := some 7 }] } :
        UDlgDialogue).Nodes = GuardDialogue.Nodes ∧
      ({ GuardDialogue with
        ParticipantsClasses := [{ ParticipantName := "Guard", ParticipantClass := some 7 }] } :
        UDlgDialogue).StartNodes = GuardDialogue.StartNodes ∧
      (UpdateAndRefreshData SampleRefreshEnv false
        { GuardDialogue with
          ParticipantsClasses := [{ ParticipantName := "Guard", ParticipantClass := some 7 }] }).map
        (fun r => r.ParticipantsClasses) =
          some [{ ParticipantName := "Guard", ParticipantClass := some 7 }] ∧
      (UpdateAndRefreshData SampleRefreshEnv false GuardDialogue).map
        (fun r => r.ParticipantsClasses) =
          some [{ ParticipantName := "Guard", ParticipantClass := none }] := by
  refine ⟨rfl, rfl, by decide, by decide⟩

/-- C19, amended: for the same graph, `UpdateAndRefreshData` does not depend on the
`ParticipantsData` and the speaker-state set held before, and the `ParticipantsData` and the
speaker-state set it produces, as well as the rebuilt nodes, depend neither on these nor on
the participant-class registry and the loaded flag held before. -/
theorem C19_refresh_data_independent_of_prior_state (Env : FDlgRefreshEnv) (b : Bool)
    (d : UDlgDialogue) (Data0 : TMap FName FDlgParticipantData) (States0 : List FName)
    (Classes0 : List FDlgParticipantClass) (bWasLoaded0 : Bool) :
    UpdateAndRefreshData Env b { d with ParticipantsData := Data0, AllSpeakerStates := States0 } =
        UpdateAndRefreshData Env b d ∧
      (UpdateAndRefreshData Env b
        { d with ParticipantsData := Data0, AllSpeakerStates := States0,
                 ParticipantsClasses := Classes0, bWasLoaded := bWasLoaded0 }).map
        (fun r => (r.ParticipantsData, r.AllSpeakerStates, r.StartNodes, r.Nodes)) =
      (UpdateAndRefreshData Env b d).map
        (fun r => (r.ParticipantsData, r.AllSpeakerStates, r.StartNodes, r.Nodes)) := by
  constructor
  · rfl
  · unfold UpdateAndRefreshData
    dsimp only
    cases TArray.Deref d.StartNodes with
    | none => rfl
    | some S =>
      cases TArray.Deref d.Nodes with
      | none => rfl
      | some N => rfl

/-! ## C20 -/

theorem TMap.Find_FindOrAddThen_self {K V : Type} [DecidableEq K] (Key : K) (Init : V)
    (Write : V → V) :
    ∀ m : TMap K V,
      TMap.Find (TMap.FindOrAddThen Key Init Write m) Key =
        some (Write ((TMap.Find m Key).getD Init)) := by
  intro m
  induction m with
  | nil => simp [TMap.FindOrAddThen, TMap.Find]
  | cons p rest ih =>
    obtain ⟨k, v⟩ := p
    by_cases hk : k = Key
    · simp [TMap.FindOrAddThen, TMap.Find, hk]
    · simp [TMap.FindOrAddThen, TMap.Find, hk, ih]

theorem TMap.Find_FindOrAddThen_ne {K V : Type} [DecidableEq K] (Key k1 : K) (Init : V)
    (Write : V → V) (hne : k1 ≠ Key) :
    ∀ m : TMap K V, TMap.Find (TMap.FindOrAddThen Key Init Write m) k1 = TMap.Find m k1 := by
  intro m
  induction m with
  | nil => simp [TMap.FindOrAddThen, TMap.Find, Ne.symm hne]
  | cons p rest ih =>
    obtain ⟨k, v⟩ := p
    by_cases hk : k = Key
    · subst hk
      simp [TMap.FindOrAddThen, TMap.Find, Ne.symm hne]
    · by_cases hk1 : k = k1
      · subst hk1
        simp [TMap.FindOrAddThen, TMap.Find, hk]
      · simp [TMap.FindOrAddThen, TMap.Find, hk, hk1, ih]

/-- The entry written through the reference, and the entries left alone. -/
theorem GetParticipantDataEntry_of_name (Data : TMap FName FDlgParticipantData)
    (ParticipantName FallbackParticipantName ValidName : FName) (bCheckNone : Bool)
    (Write : FDlgParticipantData → FDlgParticipantData)
    (h : GetParticipantDataEntryName ParticipantName FallbackParticipantName bCheckNone =
      some ValidName) :
    TMap.Find (GetParticipantDataEntry Data ParticipantName FallbackParticipantName bCheckNone
        Write) ValidName = some (Write ((TMap.Find Data ValidName).getD {})) ∧
      ∀ k : FName, k ≠ ValidName →
        TMap.Find (GetParticipantDataEntry Data ParticipantName FallbackParticipantName
          bCheckNone Write) k = TMap.Find Data k := by
  unfold GetParticipantDataEntry
  rw [h]
  dsimp only
  exact ⟨TMap.Find_FindOrAddThen_self ValidName {} Write Data,
    fun k hk => TMap.Find_FindOrAddThen_ne ValidName k {} Write hk Data⟩

/-- C20: aggregation fallback. `GetParticipantDataEntry` gives the entry of `ParticipantsData`
keyed by the given participant name when that name is set, and the entry keyed by the
participant name of the owning node when the given name is unset and that of the node is set.
The entry is created from the default value when absent, the write the caller makes lands in
it, and the entry of every other name is left as it was: a condition without participant name
on a node owned by "Guard" is attributed to "Guard" and to no other participant. -/
theorem C20_GetParticipantDataEntry_fallback (Data : TMap FName FDlgParticipantData)
    (ParticipantName FallbackParticipantName : FName) (bCheckNone : Bool)
    (Write : FDlgParticipantData → FDlgParticipantData) :
    (ParticipantName ≠ NAME_None →
      GetParticipantDataEntryName ParticipantName FallbackParticipantName bCheckNone =
          some ParticipantName ∧
        TMap.Find (GetParticipantDataEntry Data ParticipantName FallbackParticipantName
          bCheckNone Write) ParticipantName =
            some (Write ((TMap.Find Data ParticipantName).getD {})) ∧
        ∀ k : FName, k ≠ ParticipantName →
          TMap.Find (GetParticipantDataEntry Data ParticipantName FallbackParticipantName
            bCheckNone Write) k = TMap.Find Data k) ∧
    (ParticipantName = NAME_None → FallbackParticipantName ≠ NAME_None →
      GetParticipantDataEntryName ParticipantName FallbackParticipantName bCheckNone =
          some FallbackParticipantName ∧
        TMap.Find (GetParticipantDataEntry Data ParticipantName FallbackParticipantName
          bCheckNone Write) FallbackParticipantName =
            some (Write ((TMap.Find Data FallbackParticipantName).getD {})) ∧
        ∀ k : FName, k ≠ FallbackParticipantName →
          TMap.Find (GetParticipantDataEntry Data ParticipantName FallbackParticipantName
            bCheckNone Write) k = TMap.Find Data k) := by
  constructor
  · intro hset
    have hname : GetParticipantDataEntryName ParticipantName FallbackParticipantName
        bCheckNone = some ParticipantName := by
      simp [GetParticipantDataEntryName, hset]
    exact ⟨hname, GetParticipantDataEntry_of_name Data _ _ _ bCheckNone Write hname⟩
  · intro hunset hfallback
    have hname : GetParticipantDataEntryName ParticipantName FallbackParticipantName
        bCheckNone = some FallbackParticipantName := by
      simp [GetParticipantDataEntryName, hunset, hfallback]
    exact ⟨hname, GetParticipantDataEntry_of_name Data _ _ _ bCheckNone Write hname⟩

/-- C20 on the scenario of the spec: the condition `SampleCondition`, which has no participant
name, on a node owned by "Guard", with an entry of "Player" already there. The entry of
"Guard" is created and holds the condition; refreshing `GuardDialogue` attributes the
condition to "Guard" alone. -/
theorem C20_GetParticipantDataEntry_fallback_witness :
    (UpdateAndRefreshData SampleRefreshEnv false GuardDialogue).map
        (fun r => r.ParticipantsData) =
        some [("Guard", { ConditionsPrimary := [SampleCondition] })] ∧
      (GetParticipantDataEntryName SampleCondition.ParticipantName "Guard" true = some "Guard" ∧
        TMap.Find (GetParticipantDataEntry SamplePlayerData SampleCondition.ParticipantName
          "Guard" true SampleWrite) "Guard" =
            some (SampleWrite ((TMap.Find SamplePlayerData "Guard").getD {})) ∧
        ∀ k : FName, k ≠ "Guard" →
          TMap.Find (GetParticipantDataEntry SamplePlayerData SampleCondition.ParticipantName
            "Guard" true SampleWrite) k = TMap.Find SamplePlayerData k) :=
  ⟨by decide,
    (C20_GetParticipantDataEntry_fallback SamplePlayerData SampleCondition.ParticipantName
      "Guard" true SampleWrite).2 rfl (by decide)⟩

end UDlgDialogue

namespace UDlgDialogue

/-! ## C21 -/

end UDlgDialogue

/-! ## What the aggregation pass keeps -/

theorem TSet.mem_Add_of_mem {α : Type} [DecidableEq α] (s : List α) (x y : α) (h : x ∈ s) :
    x ∈ TSet.Add s y := by
  unfold TSet.Add
  split
  · exact h
  · exact List.mem_append_left _ h

theorem TSet.mem_Add {α : Type} [DecidableEq α] (s : List α) (x : α) : x ∈ TSet.Add s x := by
  unfold TSet.Add
  split
  · assumption
  · exact List.mem_append_right _ (List.mem_singleton_self x)

theorem TMap.Find_append_of_some {K V : Type} [DecidableEq K] (m2 : TMap K V) (Key : K) (v : V) :
    ∀ m : TMap K V, TMap.Find m Key = some v → TMap.Find (m ++ m2) Key = some v := by
  intro m
  induction m with
  | nil => intro h; simp [TMap.Find] at h
  | cons p rest ih =>
    obtain ⟨k, w⟩ := p
    intro h
    by_cases hk : k = Key
    · simpa [TMap.Find, hk] using h
    · simp only [TMap.Find, hk, if_false] at h
      simpa [TMap.Find, hk] using ih h

theorem foldl_preserves {α β : Type} (step : β → α → β) (Inv : β → Prop)
    (hpres : ∀ b a, Inv b → Inv (step b a)) :
    ∀ (l : List α) (b : β), Inv b → Inv (l.foldl step b) := by
  intro l
  induction l with
  | nil => intro b hb; exact hb
  | cons a rest ih => intro b hb; exact ih _ (hpres b a hb)

theorem foldl_establishes {α β : Type} (step : β → α → β) (Inv : β → Prop)
    (hpres : ∀ b a, Inv b → Inv (step b a)) (x : α) (hest : ∀ b, Inv (step b x)) :
    ∀ (l : List α), x ∈ l → ∀ b : β, Inv (l.foldl step b) := by
  intro l
  induction l with
  | nil => intro hx; simp at hx
  | cons a rest ih =>
    intro hx b
    rcases List.mem_cons.mp hx with h | h
    · subst h
      exact foldl_preserves step Inv hpres rest _ (hest b)
    · exact ih h _

namespace FDlgParticipantData

theorem Stable_ConditionsPrimary (Condition : FDlgCondition) :
    Stable (fun Entry => Condition ∈ Entry.ConditionsPrimary) := by
  intro Entry h
  exact ⟨fun c => TSet.mem_Add_of_mem _ _ c h, fun _ => h, fun _ => h, fun _ => h⟩

theorem Stable_ConditionsSecondary (Condition : FDlgCondition) :
    Stable (fun Entry => Condition ∈ Entry.ConditionsSecondary) := by
  intro Entry h
  exact ⟨fun _ => h, fun c => TSet.mem_Add_of_mem _ _ c h, fun _ => h, fun _ => h⟩

theorem Stable_Events (Event : FDlgEvent) :
    Stable (fun Entry => Event ∈ Entry.Events) := by
  intro Entry h
  exact ⟨fun _ => h, fun _ => h, fun e => TSet.mem_Add_of_mem _ _ e h, fun _ => h⟩

theorem Stable_TextArguments (TextArgument : FDlgTextArgument) :
    Stable (fun Entry => TextArgument ∈ Entry.TextArguments) := by
  intro Entry h
  exact ⟨fun _ => h, fun _ => h, fun _ => h, fun t => TSet.mem_Add_of_mem _ _ t h⟩

end FDlgParticipantData

namespace UDlgDialogue

/-- A write through `GetParticipantDataEntry` keeps what the entries hold. -/
theorem Holds_GetParticipantDataEntry (Q : FDlgParticipantData → Prop)
    (Data : TMap FName FDlgParticipantData) (P ParticipantName FallbackParticipantName : FName)
    (bCheckNone : Bool) (Write : FDlgParticipantData → FDlgParticipantData)
    (hW : ∀ Entry, Q Entry → Q (Write Entry)) (h : TMap.Holds Data P Q) :
    TMap.Holds
      (GetParticipantDataEntry Data ParticipantName FallbackParticipantName bCheckNone Write)
      P Q := by
  obtain ⟨Entry, hFind, hQ⟩ := h
  cases hN : GetParticipantDataEntryName ParticipantName FallbackParticipantName bCheckNone with
  | none =>
    unfold GetParticipantDataEntry
    rw [hN]
    exact ⟨Entry, hFind, hQ⟩
  | some V =>
    obtain ⟨hself, hne⟩ := GetParticipantDataEntry_of_name Data ParticipantName
      FallbackParticipantName V bCheckNone Write hN
    by_cases hPV : P = V
    · subst hPV
      refine ⟨_, hself, ?_⟩
      rw [hFind]
      exact hW Entry hQ
    · exact ⟨Entry, (hne P hPV).trans hFind, hQ⟩

/-- A write through `GetParticipantDataEntry` lands in the entry of the resolved name. -/
theorem Holds_GetParticipantDataEntry_self (Q : FDlgParticipantData → Prop)
    (Data : TMap FName FDlgParticipantData) (P ParticipantName FallbackParticipantName : FName)
    (bCheckNone : Bool) (Write : FDlgParticipantData → FDlgParticipantData)
    (hW : ∀ Entry, Q (Write Entry))
    (hN : GetParticipantDataEntryName ParticipantName FallbackParticipantName bCheckNone =
      some P) :
    TMap.Holds
      (GetParticipantDataEntry Data ParticipantName FallbackParticipantName bCheckNone Write)
      P Q :=
  ⟨_, (GetParticipantDataEntry_of_name Data ParticipantName FallbackParticipantName P
    bCheckNone Write hN).1, hW _⟩

/-- The step of `AddConditionsData` for one condition keeps what the entries hold. -/
theorem Holds_AddConditionsData (Q : FDlgParticipantData → Prop)
    (hQ : FDlgParticipantData.Stable Q) (P FallbackParticipantName : FName)
    (Conditions : List FDlgCondition) (Data : TMap FName FDlgParticipantData)
    (h : TMap.Holds Data P Q) :
    TMap.Holds (AddConditionsData Data FallbackParticipantName Conditions) P Q := by
  unfold AddConditionsData
  refine foldl_preserves _ (fun D => TMap.Holds D P Q) ?_ Conditions Data h
  intro D Condition hD
  dsimp only
  have h1 : TMap.Holds
      (if Condition.IsParticipantInvolved then
        GetParticipantDataEntry D Condition.ParticipantName FallbackParticipantName true
          (fun Entry => Entry.AddConditionPrimaryData Condition)
      else D) P Q := by
    split
    · exact Holds_GetParticipantDataEntry Q D P _ _ true _
        (fun Entry hE => (hQ Entry hE).1 Condition) hD
    · exact hD
  split
  · exact Holds_GetParticipantDataEntry Q _ P _ _ true _
      (fun Entry hE => (hQ Entry hE).2.1 Condition) h1
  · exact h1

theorem Holds_AddConditionsDataFromNodeEdges (Q : FDlgParticipantData → Prop)
    (hQ : FDlgParticipantData.Stable Q) (P : FName) (Node : UDlgNode)
    (Data : TMap FName FDlgParticipantData) (h : TMap.Holds Data P Q) :
    TMap.Holds (AddConditionsDataFromNodeEdges Data Node) P Q := by
  unfold AddConditionsDataFromNodeEdges
  exact foldl_preserves _ (fun D => TMap.Holds D P Q)
    (fun D Edge hD => Holds_AddConditionsData Q hQ P _ Edge.Conditions D hD) _ Data h

theorem Holds_RefreshStartNodes (Env : FDlgRefreshEnv) (b : Bool)
    (Q : FDlgParticipantData → Prop) (hQ : FDlgParticipantData.Stable Q) (P : FName) :
    ∀ (StartNodes : List UDlgNode) (Data : TMap FName FDlgParticipantData),
      TMap.Holds Data P Q → TMap.Holds (RefreshStartNodes Env b Data StartNodes).1 P Q := by
  intro StartNodes
  induction StartNodes with
  | nil => intro Data h; exact h
  | cons StartNode Rest ih =>
    intro Data h
    exact ih _ (Holds_AddConditionsDataFromNodeEdges Q hQ P StartNode Data h)

end UDlgDialogue

namespace UDlgDialogue

theorem AddConditionsData_append (Data : TMap FName FDlgParticipantData)
    (FallbackParticipantName : FName) (l1 l2 : List FDlgCondition) :
    AddConditionsData Data FallbackParticipantName (l1 ++ l2) =
      AddConditionsData (AddConditionsData Data FallbackParticipantName l1)
        FallbackParticipantName l2 := by
  unfold AddConditionsData
  rw [List.foldl_append]

/-- A condition of the list whose step makes the entry of `P` hold `Q` makes the whole loop
do so. -/
theorem Holds_AddConditionsData_of_mem (Q : FDlgParticipantData → Prop)
    (hQ : FDlgParticipantData.Stable Q) (P FallbackParticipantName : FName)
    (Conditions : List FDlgCondition) (Condition : FDlgCondition)
    (hmem : Condition ∈ Conditions)
    (hest : ∀ D, TMap.Holds (AddConditionsData D FallbackParticipantName [Condition]) P Q)
    (Data : TMap FName FDlgParticipantData) :
    TMap.Holds (AddConditionsData Data FallbackParticipantName Conditions) P Q := by
  obtain ⟨s, t, hst⟩ := List.append_of_mem hmem
  rw [hst, AddConditionsData_append, ← List.singleton_append, AddConditionsData_append]
  exact Holds_AddConditionsData Q hQ P _ t _ (hest _)

/-- The primary write of one condition. -/
theorem Holds_AddConditionsData_primary (P FallbackParticipantName : FName)
    (Condition : FDlgCondition) (hInvolved : Condition.IsParticipantInvolved = true)
    (hN : GetParticipantDataEntryName Condition.ParticipantName FallbackParticipantName true =
      some P)
    (Data : TMap FName FDlgParticipantData) :
    TMap.Holds (AddConditionsData Data FallbackParticipantName [Condition]) P
      (fun Entry => Condition ∈ Entry.ConditionsPrimary) := by
  unfold AddConditionsData
  simp only [List.foldl_cons, List.foldl_nil]
  rw [if_pos hInvolved]
  have h1 := Holds_GetParticipantDataEntry_self
    (fun Entry => Condition ∈ Entry.ConditionsPrimary) Data P Condition.ParticipantName
    FallbackParticipantName true (fun Entry => Entry.AddConditionPrimaryData Condition)
    (fun Entry => TSet.mem_Add _ _) hN
  split
  · exact Holds_GetParticipantDataEntry _ _ P _ _ true _ (fun Entry hE => hE) h1
  · exact h1

/-- The secondary write of one condition. -/
theorem Holds_AddConditionsData_secondary (P FallbackParticipantName : FName)
    (Condition : FDlgCondition) (hInvolved : Condition.IsSecondParticipantInvolved = true)
    (hN : GetParticipantDataEntryName Condition.OtherParticipantName FallbackParticipantName
      true = some P)
    (Data : TMap FName FDlgParticipantData) :
    TMap.Holds (AddConditionsData Data FallbackParticipantName [Condition]) P
      (fun Entry => Condition ∈ Entry.ConditionsSecondary) := by
  unfold AddConditionsData
  simp only [List.foldl_cons, List.foldl_nil]
  rw [if_pos hInvolved]
  exact Holds_GetParticipantDataEntry_self
    (fun Entry => Condition ∈ Entry.ConditionsSecondary) _ P Condition.OtherParticipantName
    FallbackParticipantName true (fun Entry => Entry.AddConditionSecondaryData Condition)
    (fun Entry => TSet.mem_Add _ _) hN

/-- An edge of the node whose conditions make the entry of `P` hold `Q` makes
`AddConditionsDataFromNodeEdges` do so. -/
theorem Holds_AddConditionsDataFromNodeEdges_of_mem (Q : FDlgParticipantData → Prop)
    (hQ : FDlgParticipantData.Stable Q) (P : FName) (Node : UDlgNode) (Edge : FDlgEdge)
    (hmem : Edge ∈ Node.GetNodeChildren)
    (hest : ∀ D, TMap.Holds (AddConditionsData D Node.GetNodeParticipantName Edge.Conditions) P Q)
    (Data : TMap FName FDlgParticipantData) :
    TMap.Holds (AddConditionsDataFromNodeEdges Data Node) P Q := by
  unfold AddConditionsDataFromNodeEdges
  exact foldl_establishes _ (fun D => TMap.Holds D P Q)
    (fun D E hD => Holds_AddConditionsData Q hQ P _ E.Conditions D hD) Edge hest _ hmem Data

/-- A start node whose edges make the entry of `P` hold `Q` makes the loop over the start
nodes do so. -/
theorem Holds_RefreshStartNodes_of_mem (Env : FDlgRefreshEnv) (b : Bool)
    (Q : FDlgParticipantData → Prop) (hQ : FDlgParticipantData.Stable Q) (P : FName)
    (StartNode : UDlgNode)
    (hest : ∀ D, TMap.Holds (AddConditionsDataFromNodeEdges D StartNode) P Q) :
    ∀ (StartNodes : List UDlgNode), StartNode ∈ StartNodes →
      ∀ Data : TMap FName FDlgParticipantData,
        TMap.Holds (RefreshStartNodes Env b Data StartNodes).1 P Q := by
  intro StartNodes
  induction StartNodes with
  | nil => intro h; simp at h
  | cons S Rest ih =>
    intro hmem Data
    rcases List.mem_cons.mp hmem with h | h
    · subst h
      exact Holds_RefreshStartNodes Env b Q hQ P Rest _ (hest Data)
    · exact ih h _

/-- The registration of the associated participants keeps what the entries hold. -/
theorem Holds_associated (Q : FDlgParticipantData → Prop) (P : FName)
    (Participants : List FName) (Data : TMap FName FDlgParticipantData)
    (h : TMap.Holds Data P Q) :
    TMap.Holds
      (Participants.foldl
        (fun Data Participant =>
          if !TMap.Contains Data Participant then
            Data ++ [(Participant, ({} : FDlgParticipantData))]
          else Data)
        Data) P Q := by
  refine foldl_preserves _ (fun D => TMap.Holds D P Q) ?_ Participants Data h
  intro D Participant hD
  dsimp only
  split
  · obtain ⟨Entry, hFind, hE⟩ := hD
    exact ⟨Entry, TMap.Find_append_of_some _ P Entry D hFind, hE⟩
  · exact hD

/-- The loop over the text arguments keeps what the entries hold. -/
theorem Holds_text_arguments (Q : FDlgParticipantData → Prop)
    (hQ : FDlgParticipantData.Stable Q) (P FallbackParticipantName : FName)
    (TextArguments : List FDlgTextArgument) (Data : TMap FName FDlgParticipantData)
    (h : TMap.Holds Data P Q) :
    TMap.Holds
      (TextArguments.foldl
        (fun Data TextArgument =>
          GetParticipantDataEntry Data TextArgument.ParticipantName FallbackParticipantName true
            (fun Entry => Entry.AddTextArgumentData TextArgument))
        Data) P Q :=
  foldl_preserves _ (fun D => TMap.Holds D P Q)
    (fun D TextArgument hD => Holds_GetParticipantDataEntry Q D P _ _ true _
      (fun Entry hE => (hQ Entry hE).2.2.2 TextArgument) hD) TextArguments Data h

/-- The loop over the enter events keeps what the entries hold. -/
theorem Holds_events (Q : FDlgParticipantData → Prop)
    (hQ : FDlgParticipantData.Stable Q) (P FallbackParticipantName : FName)
    (Events : List FDlgEvent) (Data : TMap FName FDlgParticipantData)
    (h : TMap.Holds Data P Q) :
    TMap.Holds
      (Events.foldl
        (fun Data Event =>
          GetParticipantDataEntry Data Event.ParticipantName FallbackParticipantName true
            (fun Entry => Entry.AddEventData Event))
        Data) P Q :=
  foldl_preserves _ (fun D => TMap.Holds D P Q)
    (fun D Event hD => Holds_GetParticipantDataEntry Q D P _ _ true _
      (fun Entry hE => (hQ Entry hE).2.2.1 Event) hD) Events Data h

/-- The walk over the edges keeps what the entries hold. -/
theorem Holds_edges (Q : FDlgParticipantData → Prop)
    (hQ : FDlgParticipantData.Stable Q) (P FallbackParticipantName : FName)
    (Children : List FDlgEdge) (Data : TMap FName FDlgParticipantData) (States : List FName)
    (h : TMap.Holds Data P Q) :
    TMap.Holds
      (Children.foldl
        (fun (Acc : TMap FName FDlgParticipantData × List FName) Edge =>
          (Edge.GetTextArguments.foldl
              (fun Data TextArgument =>
                GetParticipantDataEntry Data TextArgument.ParticipantName
                  FallbackParticipantName true
                  (fun Entry => Entry.AddTextArgumentData TextArgument))
              Acc.1,
            TSet.Add Acc.2 Edge.SpeakerState))
        (Data, States)).1 P Q :=
  foldl_preserves _
    (fun (Acc : TMap FName FDlgParticipantData × List FName) => TMap.Holds Acc.1 P Q)
    (fun Acc Edge hD => Holds_text_arguments Q hQ P _ Edge.GetTextArguments Acc.1 hD)
    Children (Data, States) h

end UDlgDialogue

namespace UDlgDialogue

/-- The body of the loop over the regular nodes keeps what the entries hold. -/
theorem Holds_RefreshNode (Env : FDlgRefreshEnv) (b : Bool) (Q : FDlgParticipantData → Prop)
    (hQ : FDlgParticipantData.Stable Q) (P : FName) (Node0 : UDlgNode)
    (Data : TMap FName FDlgParticipantData) (States : List FName) (h : TMap.Holds Data P Q) :
    TMap.Holds (RefreshNode Env b Data States Node0).1 P Q := by
  unfold RefreshNode
  dsimp only
  apply Holds_text_arguments Q hQ
  apply Holds_events Q hQ
  apply Holds_edges Q hQ
  apply Holds_AddConditionsDataFromNodeEdges Q hQ
  apply Holds_AddConditionsData Q hQ
  exact Holds_associated Q P _ Data h

/-- What the enter conditions of a regular node establish is there after its turn. -/
theorem Holds_RefreshNode_of_enter_conditions (Env : FDlgRefreshEnv) (b : Bool)
    (Q : FDlgParticipantData → Prop) (hQ : FDlgParticipantData.Stable Q) (P : FName)
    (Node0 : UDlgNode)
    (hest : ∀ D, TMap.Holds
      (AddConditionsData D Node0.GetNodeParticipantName
        (Env.RebuildAndUpdateNode b Node0).GetNodeEnterConditions) P Q)
    (Data : TMap FName FDlgParticipantData) (States : List FName) :
    TMap.Holds (RefreshNode Env b Data States Node0).1 P Q := by
  unfold RefreshNode
  dsimp only
  apply Holds_text_arguments Q hQ
  apply Holds_events Q hQ
  apply Holds_edges Q hQ
  apply Holds_AddConditionsDataFromNodeEdges Q hQ
  exact hest _

/-- What the conditions of the edges of a regular node establish is there after its turn. -/
theorem Holds_RefreshNode_of_edges (Env : FDlgRefreshEnv) (b : Bool)
    (Q : FDlgParticipantData → Prop) (hQ : FDlgParticipantData.Stable Q) (P : FName)
    (Node0 : UDlgNode)
    (hest : ∀ D, TMap.Holds
      (AddConditionsDataFromNodeEdges D (Env.RebuildAndUpdateNode b Node0)) P Q)
    (Data : TMap FName FDlgParticipantData) (States : List FName) :
    TMap.Holds (RefreshNode Env b Data States Node0).1 P Q := by
  unfold RefreshNode
  dsimp only
  apply Holds_text_arguments Q hQ
  apply Holds_events Q hQ
  apply Holds_edges Q hQ
  exact hest _

/-- An enter event of a regular node is in the entry of its resolved name after the turn of
the node. -/
theorem Holds_RefreshNode_of_event (Env : FDlgRefreshEnv) (b : Bool) (P : FName)
    (Node0 : UDlgNode) (Event : FDlgEvent)
    (hmem : Event ∈ (Env.RebuildAndUpdateNode b Node0).GetNodeEnterEvents)
    (hN : GetParticipantDataEntryName Event.ParticipantName Node0.GetNodeParticipantName true =
      some P)
    (Data : TMap FName FDlgParticipantData) (States : List FName) :
    TMap.Holds (RefreshNode Env b Data States Node0).1 P (fun Entry => Event ∈ Entry.Events) := by
  unfold RefreshNode
  dsimp only
  apply Holds_text_arguments _ (FDlgParticipantData.Stable_Events Event)
  exact foldl_establishes _ (fun D => TMap.Holds D P (fun Entry => Event ∈ Entry.Events))
    (fun D E hD => Holds_GetParticipantDataEntry _ D P _ _ true _
      (fun Entry hE => (FDlgParticipantData.Stable_Events Event Entry hE).2.2.1 E) hD)
    Event
    (fun D => Holds_GetParticipantDataEntry_self _ D P _ _ true _
      (fun Entry => TSet.mem_Add _ _) hN)
    _ hmem _

/-- The loop over the regular nodes keeps what the entries hold. -/
theorem Holds_RefreshNodes (Env : FDlgRefreshEnv) (b : Bool) (Q : FDlgParticipantData → Prop)
    (hQ : FDlgParticipantData.Stable Q) (P : FName) :
    ∀ (Nodes : List UDlgNode) (Data : TMap FName FDlgParticipantData) (States : List FName),
      TMap.Holds Data P Q → TMap.Holds (RefreshNodes Env b Data States Nodes).1 P Q := by
  intro Nodes
  induction Nodes with
  | nil => intro Data States h; exact h
  | cons Node0 Rest ih =>
    intro Data States h
    exact ih _ _ (Holds_RefreshNode Env b Q hQ P Node0 Data States h)

/-- What the turn of a regular node establishes is there after the loop. -/
theorem Holds_RefreshNodes_of_mem (Env : FDlgRefreshEnv) (b : Bool)
    (Q : FDlgParticipantData → Prop) (hQ : FDlgParticipantData.Stable Q) (P : FName)
    (Node0 : UDlgNode)
    (hest : ∀ D S, TMap.Holds (RefreshNode Env b D S Node0).1 P Q) :
    ∀ (Nodes : List UDlgNode), Node0 ∈ Nodes →
      ∀ (Data : TMap FName FDlgParticipantData) (States : List FName),
        TMap.Holds (RefreshNodes Env b Data States Nodes).1 P Q := by
  intro Nodes
  induction Nodes with
  | nil => intro h; simp at h
  | cons N Rest ih =>
    intro hmem Data States
    rcases List.mem_cons.mp hmem with h | h
    · subst h
      exact Holds_RefreshNodes Env b Q hQ P Rest _ _ (hest Data States)
    · exact ih h _ _

/-- The key a name resolves to when it, or else the fallback, is set. -/
theorem GetParticipantDataEntryName_of_set (ParticipantName FallbackParticipantName : FName)
    (bCheckNone : Bool)
    (h : (if ParticipantName = NAME_None then FallbackParticipantName else ParticipantName) ≠
      NAME_None) :
    GetParticipantDataEntryName ParticipantName FallbackParticipantName bCheckNone =
      some (if ParticipantName = NAME_None then FallbackParticipantName else ParticipantName) := by
  unfold GetParticipantDataEntryName
  simp [h]

/-- The nodes behind the pointers of an array without null slot. -/
theorem TArray.mem_of_Deref {α : Type} (a : List (Option α)) (xs : List α)
    (h : TArray.Deref a = some xs) (x : α) : some x ∈ a ↔ x ∈ xs := by
  rw [TArray.Deref_eq_some a xs h]
  simp

end UDlgDialogue

namespace UDlgDialogue

/-- On a dialogue without null slot `UpdateAndRefreshData` returns, and what it returns holds
the data, the speaker states and the registry spelt out here. -/
theorem UpdateAndRefreshData_returns (Env : FDlgRefreshEnv) (b : Bool) (d : UDlgDialogue)
    (hnn : ∀ x ∈ d.StartNodes ++ d.Nodes, x ≠ none) :
    ∃ (S N : List UDlgNode) (r : UDlgDialogue),
      d.StartNodes = S.map some ∧ d.Nodes = N.map some ∧
      UpdateAndRefreshData Env b d = some r ∧
      r.ParticipantsData = (RefreshNodes Env b (RefreshStartNodes Env b [] S).1 [] N).1 ∧
      r.AllSpeakerStates =
        TSet.Remove (RefreshNodes Env b (RefreshStartNodes Env b [] S).1 [] N).2.1 NAME_None ∧
      r.ParticipantsClasses =
        (if d.bWasLoaded && Env.bAutoSetDefaultParticipantClasses then
          (AddNewEntries
            (RemoveOutdatedEntries d.ParticipantsClasses.length d.ParticipantsClasses
              (GetParticipantNames r.ParticipantsData)).1
            (RemoveOutdatedEntries d.ParticipantsClasses.length d.ParticipantsClasses
              (GetParticipantNames r.ParticipantsData)).2).map (AutoSetParticipantClass Env)
        else
          AddNewEntries
            (RemoveOutdatedEntries d.ParticipantsClasses.length d.ParticipantsClasses
              (GetParticipantNames r.ParticipantsData)).1
            (RemoveOutdatedEntries d.ParticipantsClasses.length d.ParticipantsClasses
              (GetParticipantNames r.ParticipantsData)).2) := by
  obtain ⟨S, hS⟩ := TArray.Deref_isSome d.StartNodes
    (fun x hx => hnn x (List.mem_append_left _ hx))
  obtain ⟨N, hN⟩ := TArray.Deref_isSome d.Nodes
    (fun x hx => hnn x (List.mem_append_right _ hx))
  have hSeq := TArray.Deref_eq_some d.StartNodes S hS
  have hNeq := TArray.Deref_eq_some d.Nodes N hN
  unfold UpdateAndRefreshData
  rw [hS, hN]
  dsimp only
  exact ⟨S, N, _, hSeq, hNeq, rfl, rfl, rfl, by split <;> rfl⟩

/-- The loop over the start nodes reads their edges and their participant name only. -/
theorem RefreshStartNodes_fst_map (Env : FDlgRefreshEnv) (b : Bool) (f : UDlgNode → UDlgNode)
    (hC : ∀ n, (f n).Children = n.Children) (hO : ∀ n, (f n).OwnerName = n.OwnerName) :
    ∀ (S : List UDlgNode) (Data : TMap FName FDlgParticipantData),
      (RefreshStartNodes Env b Data (S.map f)).1 = (RefreshStartNodes Env b Data S).1 := by
  intro S
  induction S with
  | nil => intro Data; rfl
  | cons n Rest ih =>
    intro Data
    have h1 : AddConditionsDataFromNodeEdges Data (f n) =
        AddConditionsDataFromNodeEdges Data n := by
      unfold AddConditionsDataFromNodeEdges UDlgNode.GetNodeChildren
        UDlgNode.GetNodeParticipantName
      rw [hC, hO]
    simp only [List.map_cons, RefreshStartNodes]
    rw [h1]
    exact ih _

end UDlgDialogue

namespace UDlgDialogue

/-! ## C22 -/

/-- C22 fails as stated: the loop of `UpdateAndRefreshData` over the start nodes aggregates
the conditions of their edges and nothing else. `SampleStartNode` has an enter event and an
enter condition of "Guard"; as the start node of `StartOnlyDialogue` it leaves
`ParticipantsData` without entry for "Guard", while the same node as a regular node, in
`RegularOnlyDialogue`, gives "Guard" an entry with the event and the condition. -/
theorem C22_counterexample :
    some SampleStartNode ∈ StartOnlyDialogue.StartNodes ∧
      ({ ParticipantName := "Guard", EventName := "OpenGate" } : FDlgEvent) ∈
        SampleStartNode.GetNodeEnterEvents ∧
      ({ ParticipantName := "Guard", CallbackName := "HasKey" } : FDlgCondition) ∈
        SampleStartNode.GetNodeEnterConditions ∧
      (UpdateAndRefreshData SampleRefreshEnv false StartOnlyDialogue).map
        (fun r => TMap.Find r.ParticipantsData "Guard") = some none ∧
      (UpdateAndRefreshData SampleRefreshEnv false RegularOnlyDialogue).map
        (fun r => TMap.Find r.ParticipantsData "Guard") =
          some (some
            { ConditionsPrimary := [{ ParticipantName := "Guard", CallbackName := "HasKey" }]
              Events := [{ ParticipantName := "Guard", EventName := "OpenGate" }] }) := by
  refine ⟨by decide, by decide, by decide, by decide, by decide⟩

/-- C22, amended: on a dialogue without null slot the refresh returns, and
(1) the aggregated data does not depend on the enter events and enter conditions of the start
nodes: erasing them from every start node gives the same `ParticipantsData`;
(2) for every regular node and every enter event on it whose participant name, or the
participant name of the node when the event has none, is a name `P` other than None,
`ParticipantsData` has an entry for `P` that holds the event;
(3) likewise every enter condition of a regular node that involves a participant is held, as
primary condition, by the entry of its participant name, or of the participant name of the
node when the condition has none. The events and conditions are those of the node as rebuilt,
the participant name of the node is read before the rebuild. -/
theorem C22_enter_items_of_regular_nodes_are_aggregated (Env : FDlgRefreshEnv) (b : Bool)
    (d : UDlgDialogue) (hnn : ∀ x ∈ d.StartNodes ++ d.Nodes, x ≠ none) :
    ∃ r : UDlgDialogue, UpdateAndRefreshData Env b d = some r ∧
      (UpdateAndRefreshData Env b
        { d with
          StartNodes :=
            d.StartNodes.map (Option.map UDlgNode.WithoutEnterItems) }).map
        (fun x => x.ParticipantsData) = some r.ParticipantsData ∧
      ∀ Node0 : UDlgNode, some Node0 ∈ d.Nodes →
        (∀ Event ∈ (Env.RebuildAndUpdateNode b Node0).GetNodeEnterEvents, ∀ P : FName,
          P = (if Event.ParticipantName = NAME_None then Node0.GetNodeParticipantName
            else Event.ParticipantName) →
          P ≠ NAME_None →
          ∃ Entry : FDlgParticipantData,
            TMap.Find r.ParticipantsData P = some Entry ∧ Event ∈ Entry.Events) ∧
        (∀ Condition ∈ (Env.RebuildAndUpdateNode b Node0).GetNodeEnterConditions,
          Condition.IsParticipantInvolved = true → ∀ P : FName,
          P = (if Condition.ParticipantName = NAME_None then Node0.GetNodeParticipantName
            else Condition.ParticipantName) →
          P ≠ NAME_None →
          ∃ Entry : FDlgParticipantData,
            TMap.Find r.ParticipantsData P = some Entry ∧
              Condition ∈ Entry.ConditionsPrimary) := by
  obtain ⟨S, N, r, hS, hN, hr, hData, _, _⟩ := UpdateAndRefreshData_returns Env b d hnn
  refine ⟨r, hr, ?_, ?_⟩
  · have hS2 : TArray.Deref (d.StartNodes.map (Option.map UDlgNode.WithoutEnterItems)) =
        some (S.map UDlgNode.WithoutEnterItems) := by
      rw [hS, List.map_map]
      have hcomp : (Option.map UDlgNode.WithoutEnterItems ∘ some) =
          (some ∘ UDlgNode.WithoutEnterItems) := rfl
      rw [hcomp, ← List.map_map]
      exact TArray.Deref_map_some _
    have hN2 : TArray.Deref d.Nodes = some N := by
      rw [hN]
      exact TArray.Deref_map_some _
    obtain ⟨C, hC⟩ := UpdateAndRefreshData_eq Env b
      { d with StartNodes := d.StartNodes.map (Option.map UDlgNode.WithoutEnterItems) }
      _ N hS2 hN2
    rw [hC, hData]
    simp only [Option.map_some']
    rw [RefreshStartNodes_fst_map Env b UDlgNode.WithoutEnterItems (fun _ => rfl)
      (fun _ => rfl)]
  · intro Node0 hmem
    have hmemN : Node0 ∈ N := by
      rw [hN] at hmem
      simpa using hmem
    rw [hData]
    constructor
    · intro Event hE P hP hPne
      rw [hP] at hPne
      have hName := GetParticipantDataEntryName_of_set Event.ParticipantName
        Node0.GetNodeParticipantName true hPne
      rw [← hP] at hName
      exact Holds_RefreshNodes_of_mem Env b _ (FDlgParticipantData.Stable_Events Event) P Node0
        (fun D St => Holds_RefreshNode_of_event Env b P Node0 Event hE hName D St) N hmemN _ _
    · intro Condition hC hInvolved P hP hPne
      rw [hP] at hPne
      have hName := GetParticipantDataEntryName_of_set Condition.ParticipantName
        Node0.GetNodeParticipantName true hPne
      rw [← hP] at hName
      exact Holds_RefreshNodes_of_mem Env b _
        (FDlgParticipantData.Stable_ConditionsPrimary Condition) P Node0
        (fun D St => Holds_RefreshNode_of_enter_conditions Env b _
          (FDlgParticipantData.Stable_ConditionsPrimary Condition) P Node0
          (fun D2 => Holds_AddConditionsData_of_mem _
            (FDlgParticipantData.Stable_ConditionsPrimary Condition) P _ _ Condition hC
            (fun D3 => Holds_AddConditionsData_primary P _ Condition hInvolved hName D3) D2)
          D St)
        N hmemN _ _

end UDlgDialogue

namespace UDlgDialogue

/-- C22, amended, on `RegularOnlyDialogue`: the enter event and the enter condition of its
first node are held by the entry of "Guard". -/
theorem C22_enter_items_of_regular_nodes_are_aggregated_witness :
    (UpdateAndRefreshData SampleRefreshEnv false RegularOnlyDialogue).map
        (fun r => (TMap.Find r.ParticipantsData "Guard").map (fun Entry => Entry.Events)) =
        some (some [{ ParticipantName := "Guard", EventName := "OpenGate" }]) ∧
    ∃ r : UDlgDialogue, UpdateAndRefreshData SampleRefreshEnv false RegularOnlyDialogue = some r ∧
      (UpdateAndRefreshData SampleRefreshEnv false
        { RegularOnlyDialogue with
          StartNodes :=
            RegularOnlyDialogue.StartNodes.map (Option.map UDlgNode.WithoutEnterItems) }).map
        (fun x => x.ParticipantsData) = some r.ParticipantsData ∧
      ∀ Node0 : UDlgNode, some Node0 ∈ RegularOnlyDialogue.Nodes →
        (∀ Event ∈ (SampleRefreshEnv.RebuildAndUpdateNode false Node0).GetNodeEnterEvents,
          ∀ P : FName,
          P = (if Event.ParticipantName = NAME_None then Node0.GetNodeParticipantName
            else Event.ParticipantName) →
          P ≠ NAME_None →
          ∃ Entry : FDlgParticipantData,
            TMap.Find r.ParticipantsData P = some Entry ∧ Event ∈ Entry.Events) ∧
        (∀ Condition ∈ (SampleRefreshEnv.RebuildAndUpdateNode false Node0).GetNodeEnterConditions,
          Condition.IsParticipantInvolved = true → ∀ P : FName,
          P = (if Condition.ParticipantName = NAME_None then Node0.GetNodeParticipantName
            else Condition.ParticipantName) →
          P ≠ NAME_None →
          ∃ Entry : FDlgParticipantData,
            TMap.Find r.ParticipantsData P = some Entry ∧
              Condition ∈ Entry.ConditionsPrimary) :=
  ⟨by decide,
    C22_enter_items_of_regular_nodes_are_aggregated SampleRefreshEnv false RegularOnlyDialogue
      (by
        intro x hx
        simp only [RegularOnlyDialogue, List.nil_append, List.mem_cons, List.not_mem_nil,
          or_false] at hx
        rcases hx with h | h <;> rw [h] <;> exact Option.some_ne_none _)⟩

end UDlgDialogue

namespace UDlgDialogue

/-! ## The conditions of the edges -/

/-- A condition of an edge that involves a participant is held, as primary condition, by the
entry of its resolved name after `AddConditionsDataFromNodeEdges`. -/
theorem Holds_edge_condition_primary (Node : UDlgNode) (Edge : FDlgEdge)
    (Condition : FDlgCondition) (P : FName) (hE : Edge ∈ Node.GetNodeChildren)
    (hC : Condition ∈ Edge.Conditions) (hInvolved : Condition.IsParticipantInvolved = true)
    (hName : GetParticipantDataEntryName Condition.ParticipantName Node.GetNodeParticipantName
      true = some P)
    (Data : TMap FName FDlgParticipantData) :
    TMap.Holds (AddConditionsDataFromNodeEdges Data Node) P
      (fun Entry => Condition ∈ Entry.ConditionsPrimary) :=
  Holds_AddConditionsDataFromNodeEdges_of_mem _
    (FDlgParticipantData.Stable_ConditionsPrimary Condition) P Node Edge hE
    (fun D => Holds_AddConditionsData_of_mem _
      (FDlgParticipantData.Stable_ConditionsPrimary Condition) P _ _ Condition hC
      (fun D2 => Holds_AddConditionsData_primary P _ Condition hInvolved hName D2) D)
    Data

/-- A condition of an edge that involves a second participant is held, as secondary
condition, by the entry of the resolved name of that participant. -/
theorem Holds_edge_condition_secondary (Node : UDlgNode) (Edge : FDlgEdge)
    (Condition : FDlgCondition) (P : FName) (hE : Edge ∈ Node.GetNodeChildren)
    (hC : Condition ∈ Edge.Conditions)
    (hInvolved : Condition.IsSecondParticipantInvolved = true)
    (hName : GetParticipantDataEntryName Condition.OtherParticipantName
      Node.GetNodeParticipantName true = some P)
    (Data : TMap FName FDlgParticipantData) :
    TMap.Holds (AddConditionsDataFromNodeEdges Data Node) P
      (fun Entry => Condition ∈ Entry.ConditionsSecondary) :=
  Holds_AddConditionsDataFromNodeEdges_of_mem _
    (FDlgParticipantData.Stable_ConditionsSecondary Condition) P Node Edge hE
    (fun D => Holds_AddConditionsData_of_mem _
      (FDlgParticipantData.Stable_ConditionsSecondary Condition) P _ _ Condition hC
      (fun D2 => Holds_AddConditionsData_secondary P _ Condition hInvolved hName D2) D)
    Data

/-- What the edges of a start node establish is in the data the refresh returns. -/
theorem Holds_refresh_of_start_node (Env : FDlgRefreshEnv) (b : Bool)
    (Q : FDlgParticipantData → Prop) (hQ : FDlgParticipantData.Stable Q) (P : FName)
    (S N : List UDlgNode) (StartNode : UDlgNode) (hmem : StartNode ∈ S)
    (hest : ∀ D, TMap.Holds (AddConditionsDataFromNodeEdges D StartNode) P Q) :
    TMap.Holds (RefreshNodes Env b (RefreshStartNodes Env b [] S).1 [] N).1 P Q :=
  Holds_RefreshNodes Env b Q hQ P N _ _
    (Holds_RefreshStartNodes_of_mem Env b Q hQ P StartNode hest S hmem [])

/-- What the edges of a regular node establish is in the data the refresh returns. -/
theorem Holds_refresh_of_node_edges (Env : FDlgRefreshEnv) (b : Bool)
    (Q : FDlgParticipantData → Prop) (hQ : FDlgParticipantData.Stable Q) (P : FName)
    (S N : List UDlgNode) (Node0 : UDlgNode) (hmem : Node0 ∈ N)
    (hest : ∀ D, TMap.Holds
      (AddConditionsDataFromNodeEdges D (Env.RebuildAndUpdateNode b Node0)) P Q) :
    TMap.Holds (RefreshNodes Env b (RefreshStartNodes Env b [] S).1 [] N).1 P Q :=
  Holds_RefreshNodes_of_mem Env b Q hQ P Node0
    (fun D St => Holds_RefreshNode_of_edges Env b Q hQ P Node0 hest D St) N hmem _ _

/-- The aggregation over the edges of a node does not read their target index. -/
theorem AddConditionsDataFromNodeEdges_WithTargets (Data : TMap FName FDlgParticipantData)
    (Node : UDlgNode) (Target : FDlgEdge → Int) :
    AddConditionsDataFromNodeEdges Data (Node.WithTargets Target) =
      AddConditionsDataFromNodeEdges Data Node := by
  unfold AddConditionsDataFromNodeEdges UDlgNode.GetNodeChildren UDlgNode.GetNodeParticipantName
    UDlgNode.WithTargets
  dsimp only
  rw [List.foldl_map]

end UDlgDialogue

namespace UDlgDialogue

theorem RefreshStartNodes_fst_WithTargets (Env : FDlgRefreshEnv) (b : Bool)
    (Target : FDlgEdge → Int) :
    ∀ (S : List UDlgNode) (Data : TMap FName FDlgParticipantData),
      (RefreshStartNodes Env b Data (S.map (fun n => n.WithTargets Target))).1 =
        (RefreshStartNodes Env b Data S).1 := by
  intro S
  induction S with
  | nil => intro Data; rfl
  | cons n Rest ih =>
    intro Data
    simp only [List.map_cons, RefreshStartNodes]
    rw [AddConditionsDataFromNodeEdges_WithTargets]
    exact ih _

theorem RefreshNode_WithTargets (Env : FDlgRefreshEnv) (b : Bool) (Target : FDlgEdge → Int)
    (hcomm : ∀ n, Env.RebuildAndUpdateNode b (n.WithTargets Target) =
      (Env.RebuildAndUpdateNode b n).WithTargets Target)
    (Data : TMap FName FDlgParticipantData) (States : List FName) (Node0 : UDlgNode) :
    (RefreshNode Env b Data States (Node0.WithTargets Target)).1 =
        (RefreshNode Env b Data States Node0).1 ∧
      (RefreshNode Env b Data States (Node0.WithTargets Target)).2.1 =
        (RefreshNode Env b Data States Node0).2.1 := by
  unfold RefreshNode
  dsimp only
  rw [hcomm, AddConditionsDataFromNodeEdges_WithTargets]
  have hChildren : ((Env.RebuildAndUpdateNode b Node0).WithTargets Target).Children =
      (Env.RebuildAndUpdateNode b Node0).Children.map
        (fun Edge => { Edge with TargetIndex := Target Edge }) := rfl
  rw [hChildren, List.foldl_map]
  exact ⟨rfl, rfl⟩

theorem RefreshNodes_WithTargets (Env : FDlgRefreshEnv) (b : Bool) (Target : FDlgEdge → Int)
    (hcomm : ∀ n, Env.RebuildAndUpdateNode b (n.WithTargets Target) =
      (Env.RebuildAndUpdateNode b n).WithTargets Target) :
    ∀ (N : List UDlgNode) (Data : TMap FName FDlgParticipantData) (States : List FName),
      (RefreshNodes Env b Data States (N.map (fun n => n.WithTargets Target))).1 =
          (RefreshNodes Env b Data States N).1 ∧
        (RefreshNodes Env b Data States (N.map (fun n => n.WithTargets Target))).2.1 =
          (RefreshNodes Env b Data States N).2.1 := by
  intro N
  induction N with
  | nil => intro Data States; exact ⟨rfl, rfl⟩
  | cons n Rest ih =>
    intro Data States
    obtain ⟨h1, h2⟩ := RefreshNode_WithTargets Env b Target hcomm Data States n
    simp only [List.map_cons, RefreshNodes]
    rw [h1, h2]
    exact ih _ _


end UDlgDialogue

namespace UDlgDialogue

/-! ## The speaker states -/

theorem TSet.mem_Remove {α : Type} [DecidableEq α] (s : List α) (x y : α) :
    x ∈ TSet.Remove s y ↔ x ∈ s ∧ x ≠ y := by
  unfold TSet.Remove
  simp [List.mem_filter]

/-- The speaker states the walk over the edges leaves. -/
theorem edges_fold_snd (FallbackParticipantName : FName) :
    ∀ (Children : List FDlgEdge) (Data : TMap FName FDlgParticipantData) (States : List FName),
      (Children.foldl
        (fun (Acc : TMap FName FDlgParticipantData × List FName) Edge =>
          (Edge.GetTextArguments.foldl
              (fun Data TextArgument =>
                GetParticipantDataEntry Data TextArgument.ParticipantName
                  FallbackParticipantName true
                  (fun Entry => Entry.AddTextArgumentData TextArgument))
              Acc.1,
            TSet.Add Acc.2 Edge.SpeakerState))
        (Data, States)).2 =
      Children.foldl (fun St (Edge : FDlgEdge) => TSet.Add St Edge.SpeakerState) States := by
  intro Children
  induction Children with
  | nil => intro Data States; rfl
  | cons Edge Rest ih =>
    intro Data States
    simp only [List.foldl_cons]
    exact ih _ _

/-- The speaker states after the turn of a regular node: those of the class of the node, then
the speaker state of each of its edges. -/
theorem RefreshNode_States (Env : FDlgRefreshEnv) (b : Bool)
    (Data : TMap FName FDlgParticipantData) (States : List FName) (Node0 : UDlgNode) :
    (RefreshNode Env b Data States Node0).2.1 =
      (Env.RebuildAndUpdateNode b Node0).Children.foldl
        (fun St (Edge : FDlgEdge) => TSet.Add St Edge.SpeakerState)
        ((Env.RebuildAndUpdateNode b Node0).AddAllSpeakerStatesIntoSet States) := by
  unfold RefreshNode
  dsimp only
  exact edges_fold_snd _ _ _ _

/-- The speaker states do not depend on the aggregated data. -/
theorem RefreshNodes_States_congr (Env : FDlgRefreshEnv) (b : Bool) :
    ∀ (Nodes : List UDlgNode) (Data1 Data2 : TMap FName FDlgParticipantData)
      (States : List FName),
      (RefreshNodes Env b Data1 States Nodes).2.1 =
        (RefreshNodes Env b Data2 States Nodes).2.1 := by
  intro Nodes
  induction Nodes with
  | nil => intro Data1 Data2 States; rfl
  | cons Node0 Rest ih =>
    intro Data1 Data2 States
    simp only [RefreshNodes]
    rw [RefreshNode_States Env b Data1, RefreshNode_States Env b Data2]
    exact ih _ _ _

/-- The turn of a regular node keeps the speaker states gathered so far. -/
theorem mem_RefreshNode_States (Env : FDlgRefreshEnv) (b : Bool)
    (Data : TMap FName FDlgParticipantData) (States : List FName) (Node0 : UDlgNode)
    (x : FName) (h : x ∈ States) : x ∈ (RefreshNode Env b Data States Node0).2.1 := by
  rw [RefreshNode_States]
  refine foldl_preserves _ (fun St => x ∈ St) (fun St Edge hSt => TSet.mem_Add_of_mem _ _ _ hSt)
    _ _ ?_
  unfold UDlgNode.AddAllSpeakerStatesIntoSet
  exact foldl_preserves _ (fun St => x ∈ St) (fun St y hSt => TSet.mem_Add_of_mem _ _ _ hSt)
    _ _ h

/-- The turn of a regular node gathers the speaker state of each of its edges. -/
theorem mem_RefreshNode_States_of_edge (Env : FDlgRefreshEnv) (b : Bool)
    (Data : TMap FName FDlgParticipantData) (States : List FName) (Node0 : UDlgNode)
    (Edge : FDlgEdge) (h : Edge ∈ (Env.RebuildAndUpdateNode b Node0).Children) :
    Edge.SpeakerState ∈ (RefreshNode Env b Data States Node0).2.1 := by
  rw [RefreshNode_States]
  exact foldl_establishes _ (fun St => Edge.SpeakerState ∈ St)
    (fun St E hSt => TSet.mem_Add_of_mem _ _ _ hSt) Edge (fun St => TSet.mem_Add _ _) _ h _

/-- The loop over the regular nodes gathers the speaker state of each edge of each node. -/
theorem mem_RefreshNodes_States_of_edge (Env : FDlgRefreshEnv) (b : Bool) (Node0 : UDlgNode)
    (Edge : FDlgEdge) (h : Edge ∈ (Env.RebuildAndUpdateNode b Node0).Children) :
    ∀ (Nodes : List UDlgNode), Node0 ∈ Nodes →
      ∀ (Data : TMap FName FDlgParticipantData) (States : List FName),
        Edge.SpeakerState ∈ (RefreshNodes Env b Data States Nodes).2.1 := by
  have hkeep : ∀ (Nodes : List UDlgNode) (Data : TMap FName FDlgParticipantData)
      (States : List FName), Edge.SpeakerState ∈ States →
      Edge.SpeakerState ∈ (RefreshNodes Env b Data States Nodes).2.1 := by
    intro Nodes
    induction Nodes with
    | nil => intro Data States hx; exact hx
    | cons n Rest ih =>
      intro Data States hx
      exact ih _ _ (mem_RefreshNode_States Env b Data States n _ hx)
  intro Nodes
  induction Nodes with
  | nil => intro hmem; simp at hmem
  | cons n Rest ih =>
    intro hmem Data States
    rcases List.mem_cons.mp hmem with hEq | hRest
    · subst hEq
      exact hkeep Rest _ _ (mem_RefreshNode_States_of_edge Env b Data States Node0 Edge h)
    · exact ih hRest _ _

end UDlgDialogue

namespace UDlgDialogue

/-! ## C24 -/

/-- C24 fails as stated: the speaker states of the edges of the start nodes are not gathered.
The one edge of the start node of `StartOnlyDialogue` has the speaker state "Happy", and the
set `AllSpeakerStates` is empty after the refresh. -/
theorem C24_counterexample :
    some SampleStartNode ∈ StartOnlyDialogue.StartNodes ∧
      SampleStartNode.GetNodeChildren.map (fun Edge => Edge.SpeakerState) = ["Happy"] ∧
      "Happy" ≠ NAME_None ∧
      (UpdateAndRefreshData SampleRefreshEnv false StartOnlyDialogue).map
        (fun r => r.AllSpeakerStates) = some [] := by
  refine ⟨by decide, by decide, by decide, by decide⟩

/-- C24, amended: on a dialogue without null slot the refresh returns, and afterwards the set
`AllSpeakerStates` does not contain None; it contains the speaker state of every outgoing edge
of every regular node (as rebuilt) whose speaker state is not None; it is the same whatever
the set held before; and it is the same as for the dialogue without its start nodes, whose
edges contribute no speaker state. -/
theorem C24_speaker_states_of_regular_node_edges (Env : FDlgRefreshEnv) (b : Bool)
    (d : UDlgDialogue) (States0 : List FName)
    (hnn : ∀ x ∈ d.StartNodes ++ d.Nodes, x ≠ none) :
    ∃ r : UDlgDialogue, UpdateAndRefreshData Env b d = some r ∧
      NAME_None ∉ r.AllSpeakerStates ∧
      (∀ Node0 : UDlgNode, some Node0 ∈ d.Nodes →
        ∀ Edge ∈ (Env.RebuildAndUpdateNode b Node0).GetNodeChildren,
          Edge.SpeakerState ≠ NAME_None → Edge.SpeakerState ∈ r.AllSpeakerStates) ∧
      (UpdateAndRefreshData Env b { d with AllSpeakerStates := States0 }).map
        (fun x => x.AllSpeakerStates) = some r.AllSpeakerStates ∧
      (UpdateAndRefreshData Env b { d with StartNodes := [] }).map
        (fun x => x.AllSpeakerStates) = some r.AllSpeakerStates := by
  obtain ⟨S, N, r, hS, hN, hr, _, hStates, _⟩ := UpdateAndRefreshData_returns Env b d hnn
  have hS2 : TArray.Deref d.StartNodes = some S := by
    rw [hS]
    exact TArray.Deref_map_some _
  have hN2 : TArray.Deref d.Nodes = some N := by
    rw [hN]
    exact TArray.Deref_map_some _
  refine ⟨r, hr, ?_, ?_, ?_, ?_⟩
  · rw [hStates]
    intro hmem
    exact ((TSet.mem_Remove _ _ _).mp hmem).2 rfl
  · intro Node0 hmem Edge hE hne
    have hmemN : Node0 ∈ N := by
      rw [hN] at hmem
      simpa using hmem
    rw [hStates]
    exact (TSet.mem_Remove _ _ _).mpr
      ⟨mem_RefreshNodes_States_of_edge Env b Node0 Edge hE N hmemN _ _, hne⟩
  · obtain ⟨C, hC⟩ := UpdateAndRefreshData_eq Env b { d with AllSpeakerStates := States0 }
      S N hS2 hN2
    rw [hC, hStates]
    rfl
  · obtain ⟨C, hC⟩ := UpdateAndRefreshData_eq Env b { d with StartNodes := [] } [] N rfl hN2
    rw [hC, hStates]
    simp only [Option.map_some']
    rw [RefreshNodes_States_congr Env b N (RefreshStartNodes Env b [] []).1
      (RefreshStartNodes Env b [] S).1]

/-- C24, amended, on `TradeDialogue`: the set holds "Calm", the speaker state of the edge of
the node of the merchant, and not "Happy", that of the edge of the start node. -/
theorem C24_speaker_states_of_regular_node_edges_witness :
    (UpdateAndRefreshData SampleRefreshEnv false TradeDialogue).map
        (fun r => r.AllSpeakerStates) = some ["Calm"] ∧
    ∃ r : UDlgDialogue, UpdateAndRefreshData SampleRefreshEnv false TradeDialogue = some r ∧
      NAME_None ∉ r.AllSpeakerStates ∧
      (∀ Node0 : UDlgNode, some Node0 ∈ TradeDialogue.Nodes →
        ∀ Edge ∈ (SampleRefreshEnv.RebuildAndUpdateNode false Node0).GetNodeChildren,
          Edge.SpeakerState ≠ NAME_None → Edge.SpeakerState ∈ r.AllSpeakerStates) ∧
      (UpdateAndRefreshData SampleRefreshEnv false
        { TradeDialogue with AllSpeakerStates := ["Stale", NAME_None] }).map
        (fun x => x.AllSpeakerStates) = some r.AllSpeakerStates ∧
      (UpdateAndRefreshData SampleRefreshEnv false { TradeDialogue with StartNodes := [] }).map
        (fun x => x.AllSpeakerStates) = some r.AllSpeakerStates :=
  ⟨by decide,
    C24_speaker_states_of_regular_node_edges SampleRefreshEnv false TradeDialogue
      ["Stale", NAME_None]
      (by
        intro x hx
        simp only [TradeDialogue, List.cons_append, List.nil_append, List.mem_cons,
          List.not_mem_nil, or_false] at hx
        rcases hx with h | h | h <;> rw [h] <;> exact Option.some_ne_none _)⟩

end UDlgDialogue

namespace UDlgNode_Speech

/-! ## C27 -/

/-- The loop of `GetAssociatedParticipants` over text arguments, from any array: what it
appends. -/
theorem GetAssociatedParticipants_loop :
    ∀ (TextArguments : List FDlgTextArgument) (Out : List FName),
      ∃ Suffix : List FName,
        TextArguments.foldl
          (fun Out TextArgument =>
            if TextArgument.ParticipantName ≠ NAME_None then
              TArray.AddUnique Out TextArgument.ParticipantName
            else Out)
          Out = Out ++ Suffix ∧
        NAME_None ∉ Suffix ∧ Suffix.Nodup ∧ (∀ x ∈ Suffix, x ∉ Out) ∧
        Suffix.Sublist (TextArguments.map (fun TextArgument => TextArgument.ParticipantName)) ∧
        ∀ TextArgument ∈ TextArguments, TextArgument.ParticipantName ≠ NAME_None →
          TextArgument.ParticipantName ∈ Out ++ Suffix := by
  intro TextArguments
  induction TextArguments with
  | nil =>
    intro Out
    exact ⟨[], by simp, by simp, List.nodup_nil, by simp, by simp, by simp⟩
  | cons T Rest ih =>
    intro Out
    simp only [List.foldl_cons, List.map_cons]
    by_cases hNone : T.ParticipantName = NAME_None
    · obtain ⟨Suffix, hEq, hN, hD, hO, hS, hC⟩ := ih Out
      refine ⟨Suffix, ?_, hN, hD, hO, hS.cons _, ?_⟩
      · simpa [hNone] using hEq
      · intro A hA hAne
        rcases List.mem_cons.mp hA with h | h
        · subst h
          exact absurd hNone hAne
        · exact hC A h hAne
    · by_cases hMem : T.ParticipantName ∈ Out
      · obtain ⟨Suffix, hEq, hN, hD, hO, hS, hC⟩ := ih Out
        refine ⟨Suffix, ?_, hN, hD, hO, hS.cons _, ?_⟩
        · simpa [hNone, TArray.AddUnique, hMem] using hEq
        · intro A hA hAne
          rcases List.mem_cons.mp hA with h | h
          · subst h
            exact List.mem_append_left _ hMem
          · exact hC A h hAne
      · obtain ⟨Suffix, hEq, hN, hD, hO, hS, hC⟩ := ih (Out ++ [T.ParticipantName])
        refine ⟨T.ParticipantName :: Suffix, ?_, ?_, ?_, ?_, hS.cons₂ _, ?_⟩
        · simpa [hNone, TArray.AddUnique, hMem] using hEq
        · intro h
          rcases List.mem_cons.mp h with h1 | h1
          · exact hNone h1.symm
          · exact hN h1
        · refine List.nodup_cons.mpr ⟨?_, hD⟩
          intro h
          exact hO _ h (List.mem_append_right _ (List.mem_singleton_self _))
        · intro x hx
          rcases List.mem_cons.mp hx with h1 | h1
          · rw [h1]
            exact hMem
          · intro hxOut
            exact hO x h1 (List.mem_append_left _ hxOut)
        · intro A hA hAne
          rcases List.mem_cons.mp hA with h | h
          · subst h
            simp
          · have := hC A h hAne
            simpa using this

end UDlgNode_Speech

namespace UDlgNode_Speech

/-- At its first sight a name is appended at the end of the array built so far. -/
theorem GetAssociatedParticipants_first_sight (Pre : List FDlgTextArgument)
    (T : FDlgTextArgument) (Post : List FDlgTextArgument) (Out : List FName)
    (hne : T.ParticipantName ≠ NAME_None)
    (hnot : T.ParticipantName ∉
      Pre.foldl
        (fun Out TextArgument =>
          if TextArgument.ParticipantName ≠ NAME_None then
            TArray.AddUnique Out TextArgument.ParticipantName
          else Out)
        Out) :
    ∃ Tail : List FName,
      (Pre ++ T :: Post).foldl
        (fun Out TextArgument =>
          if TextArgument.ParticipantName ≠ NAME_None then
            TArray.AddUnique Out TextArgument.ParticipantName
          else Out)
        Out =
      Pre.foldl
        (fun Out TextArgument =>
          if TextArgument.ParticipantName ≠ NAME_None then
            TArray.AddUnique Out TextArgument.ParticipantName
          else Out)
        Out ++ T.ParticipantName :: Tail := by
  rw [List.foldl_append, List.foldl_cons, if_pos hne]
  unfold TArray.AddUnique at hnot ⊢
  rw [if_neg hnot]
  obtain ⟨Tail, hEq, _⟩ := GetAssociatedParticipants_loop Post
    (Pre.foldl
      (fun Out TextArgument =>
        if TextArgument.ParticipantName ≠ NAME_None then
          (if TextArgument.ParticipantName ∈ Out then Out
            else Out ++ [TextArgument.ParticipantName])
        else Out)
      Out ++ [T.ParticipantName])
  refine ⟨Tail, ?_⟩
  unfold TArray.AddUnique at hEq
  rw [hEq, List.append_assoc]
  rfl

/-- C27: `UDlgNode_Speech::GetAssociatedParticipants` returns the array the base class
returns followed by a suffix of appended names. The suffix does not contain None, has no
duplicate and no name that the array of the base class already has, and it lists names of
text arguments in the order of the text arguments; every text argument participant name other
than None is in the result. First sight order: a text argument whose name is not None and not
in the array built from the text arguments before it has its name appended right at the end
of that array. -/
theorem C27_GetAssociatedParticipants_appends_first_sights (Node : UDlgNode)
    (OutArray : List FName) :
    (∃ Suffix : List FName,
      GetAssociatedParticipants Node OutArray =
          Node.GetAssociatedParticipantsBase OutArray ++ Suffix ∧
        NAME_None ∉ Suffix ∧ Suffix.Nodup ∧
        (∀ x ∈ Suffix, x ∉ Node.GetAssociatedParticipantsBase OutArray) ∧
        Suffix.Sublist
          (Node.TextArguments.map (fun TextArgument => TextArgument.ParticipantName)) ∧
        ∀ TextArgument ∈ Node.TextArguments, TextArgument.ParticipantName ≠ NAME_None →
          TextArgument.ParticipantName ∈ GetAssociatedParticipants Node OutArray) ∧
    ∀ (Pre : List FDlgTextArgument) (TextArgument : FDlgTextArgument)
      (Post : List FDlgTextArgument),
      Node.TextArguments = Pre ++ TextArgument :: Post →
      TextArgument.ParticipantName ≠ NAME_None →
      TextArgument.ParticipantName ∉
        GetAssociatedParticipants { Node with TextArguments := Pre } OutArray →
      ∃ Tail : List FName,
        GetAssociatedParticipants Node OutArray =
          GetAssociatedParticipants { Node with TextArguments := Pre } OutArray ++
            TextArgument.ParticipantName :: Tail := by
  constructor
  · obtain ⟨Suffix, hEq, hN, hD, hO, hS, hC⟩ :=
      GetAssociatedParticipants_loop Node.TextArguments
        (Node.GetAssociatedParticipantsBase OutArray)
    refine ⟨Suffix, hEq, hN, hD, hO, hS, ?_⟩
    intro T hT hne
    have h1 : GetAssociatedParticipants Node OutArray =
        Node.GetAssociatedParticipantsBase OutArray ++ Suffix := hEq
    rw [h1]
    exact hC T hT hne
  · intro Pre TextArgument Post hArgs hne hnot
    have hPre : GetAssociatedParticipants { Node with TextArguments := Pre } OutArray =
        Pre.foldl
          (fun Out TextArgument =>
            if TextArgument.ParticipantName ≠ NAME_None then
              TArray.AddUnique Out TextArgument.ParticipantName
            else Out)
          (Node.GetAssociatedParticipantsBase OutArray) := rfl
    rw [hPre] at hnot ⊢
    unfold GetAssociatedParticipants
    rw [hArgs]
    exact GetAssociatedParticipants_first_sight Pre TextArgument Post _ hne hnot

/-- C27 on `SampleArgumentsNode`, owned by "Guard", with the text argument names "Player",
None, "Guard", "Player", "Merchant": the array is "Guard", "Player", "Merchant". -/
theorem C27_GetAssociatedParticipants_appends_first_sights_witness :
    GetAssociatedParticipants SampleArgumentsNode [] = ["Guard", "Player", "Merchant"] ∧
    ((∃ Suffix : List FName,
      GetAssociatedParticipants SampleArgumentsNode [] =
          SampleArgumentsNode.GetAssociatedParticipantsBase [] ++ Suffix ∧
        NAME_None ∉ Suffix ∧ Suffix.Nodup ∧
        (∀ x ∈ Suffix, x ∉ SampleArgumentsNode.GetAssociatedParticipantsBase []) ∧
        Suffix.Sublist
          (SampleArgumentsNode.TextArguments.map
            (fun TextArgument => TextArgument.ParticipantName)) ∧
        ∀ TextArgument ∈ SampleArgumentsNode.TextArguments,
          TextArgument.ParticipantName ≠ NAME_None →
          TextArgument.ParticipantName ∈ GetAssociatedParticipants SampleArgumentsNode []) ∧
    ∀ (Pre : List FDlgTextArgument) (TextArgument : FDlgTextArgument)
      (Post : List FDlgTextArgument),
      SampleArgumentsNode.TextArguments = Pre ++ TextArgument :: Post →
      TextArgument.ParticipantName ≠ NAME_None →
      TextArgument.ParticipantName ∉
        GetAssociatedParticipants { SampleArgumentsNode with TextArguments := Pre } [] →
      ∃ Tail : List FName,
        GetAssociatedParticipants SampleArgumentsNode [] =
          GetAssociatedParticipants { SampleArgumentsNode with TextArguments := Pre } [] ++
            TextArgument.ParticipantName :: Tail) :=
  ⟨by decide, C27_GetAssociatedParticipants_appends_first_sights SampleArgumentsNode []⟩

end UDlgNode_Speech

namespace UDlgNode

/-! ## C28 -/

/-- The recorded child index of the node at `j` after the assignment at `i`. -/
theorem VirtualParentIndex_SetVirtualParentIndex (d : UDlgDialogue) (i v j : Int) :
    (UDlgContext.GetMutableNodeFromIndex (d.SetVirtualParentIndex i v) j).map
        (fun n => n.VirtualParentFirstSatisfiedDirectChildIndex) =
      if j = i then (UDlgContext.GetMutableNodeFromIndex d j).map (fun _ => v)
      else (UDlgContext.GetMutableNodeFromIndex d j).map
        (fun n => n.VirtualParentFirstSatisfiedDirectChildIndex) := by
  rw [UDlgDialogue.GetMutableNodeFromIndex_SetVirtualParentIndex]
  by_cases hji : j = i
  · simp only [hji, if_true, Option.map_map]
    rfl
  · simp only [hji, if_false]
    cases UDlgContext.GetMutableNodeFromIndex d j <;> rfl

/-- A nested call made while `iA` is in the already-evaluated set leaves the recorded child
index of the node at `iA` at `INDEX_NONE`, as long as the base-class `ReevaluateChildren`
leaves the dialogue alone. -/
theorem ReevaluateChildrenFuel_keeps_reset (Env : FDlgNodeEnv)
    (hBase : ∀ c dd i ae, (Env.BaseReevaluateChildren c dd i ae).Dialogue = dd) (iA : Int) :
    ∀ (Fuel : Nat) (Context : UDlgContext) (d : UDlgDialogue) (ThisIndex : Int) (AE : List Int)
      (r : FDlgStepResult),
      iA ∈ AE →
      (UDlgContext.GetMutableNodeFromIndex d iA).map
        (fun n => n.VirtualParentFirstSatisfiedDirectChildIndex) = some INDEX_NONE →
      ReevaluateChildrenFuel Env Fuel Context d ThisIndex AE = some r →
        (UDlgContext.GetMutableNodeFromIndex r.Dialogue iA).map
          (fun n => n.VirtualParentFirstSatisfiedDirectChildIndex) = some INDEX_NONE := by
  intro Fuel
  induction Fuel with
  | zero =>
    intro Context d ThisIndex AE r _ _ h
    rw [ReevaluateChildrenFuel] at h
    exact Option.noConfusion h
  | succ Fuel ih =>
    intro Context d ThisIndex AE r hA hd h
    have hother : some (Env.BaseReevaluateChildren Context d ThisIndex AE) = some r →
        (UDlgContext.GetMutableNodeFromIndex r.Dialogue iA).map
          (fun n => n.VirtualParentFirstSatisfiedDirectChildIndex) = some INDEX_NONE := by
      intro h1
      injection h1 with h1
      rw [← h1, hBase]
      exact hd
    have hreset : ∀ i : Int,
        (UDlgContext.GetMutableNodeFromIndex (d.SetVirtualParentIndex i INDEX_NONE) iA).map
          (fun n => n.VirtualParentFirstSatisfiedDirectChildIndex) = some INDEX_NONE := by
      intro i
      rw [VirtualParentIndex_SetVirtualParentIndex]
      split
      · cases hG : UDlgContext.GetMutableNodeFromIndex d iA with
        | none => rw [hG] at hd; exact Option.noConfusion hd
        | some n => rfl
      · exact hd
    cases hThis : UDlgContext.GetMutableNodeFromIndex d ThisIndex with
    | none =>
      rw [ReevaluateChildrenFuel, hThis] at h
      exact Option.noConfusion h
    | some This =>
      cases hClass : This.NodeClass with
      | Speech =>
        by_cases hvp : This.bIsVirtualParent = true
        · by_cases hmem : ThisIndex ∈ AE
          · rw [ReevaluateChildrenFuel_guard Env _ Context d ThisIndex This AE hThis hClass hvp
              hmem] at h
            injection h with h
            rw [← h]
            exact hreset ThisIndex
          · cases hF : UDlgNode_Speech.FindFirstSatisfiedChild Env Context.EmptyOptions
                (d.SetVirtualParentIndex ThisIndex INDEX_NONE) ThisIndex This.Children with
            | none =>
              rw [ReevaluateChildrenFuel_no_child Env _ Context d ThisIndex This AE hThis hClass
                hvp hF] at h
              injection h with h
              rw [← h]
              exact hreset ThisIndex
            | some p =>
              obtain ⟨Edge, Node⟩ := p
              rw [ReevaluateChildrenFuel_child Env _ Context d ThisIndex This AE Edge Node hThis
                hClass hvp hmem hF] at h
              cases hR : ReevaluateChildrenFuel Env Fuel Context.EmptyOptions
                  (d.SetVirtualParentIndex ThisIndex INDEX_NONE) Edge.TargetIndex
                  (ThisIndex :: AE) with
              | none =>
                rw [hR] at h
                exact Option.noConfusion h
              | some r1 =>
                rw [hR] at h
                have h1 := ih _ _ _ _ r1 (List.mem_cons_of_mem _ hA) (hreset ThisIndex) hR
                simp only [Option.map_some'] at h
                injection h with h
                rw [← h]
                dsimp only
                split
                · rw [VirtualParentIndex_SetVirtualParentIndex]
                  have hne : iA ≠ ThisIndex := fun hEq => hmem (hEq ▸ hA)
                  rw [if_neg hne]
                  exact h1
                · exact h1
        · rw [ReevaluateChildrenFuel_Speech Env _ Context d ThisIndex This AE hThis hClass] at h
          unfold UDlgNode_Speech.ReevaluateChildren at h
          rw [if_neg hvp] at h
          exact hother h
      | End =>
        rw [ReevaluateChildrenFuel, hThis] at h
        dsimp only at h
        rw [hClass] at h
        injection h with h
        rw [← h]
        exact hd
      | Start =>
        rw [ReevaluateChildrenFuel, hThis] at h
        dsimp only at h
        rw [hClass] at h
        exact hother h
      | Selector =>
        rw [ReevaluateChildrenFuel, hThis] at h
        dsimp only at h
        rw [hClass] at h
        exact hother h
      | Proxy =>
        rw [ReevaluateChildrenFuel, hThis] at h
        dsimp only at h
        rw [hClass] at h
        exact hother h

end UDlgNode

namespace UDlgNode

/-- C28: the resolution of a virtual parent commits to the first satisfied edge. Let `A` be a
virtual-parent Speech node that is not in the already-evaluated set, and `Edge` its
lowest-index child edge that evaluates true (every edge of `Pre`, before it, evaluates false),
its target being a node of the dialogue; let the nested call of `ReevaluateChildren` on that
target return `r` with the result false. Then, whatever the edges `Post` after `Edge` are,
`ReevaluateChildren` on `A` returns false with the context and the dialogue the nested call
left, no other edge is tried, and the first satisfied direct child index of `A` is
`INDEX_NONE` in that dialogue (the base-class `ReevaluateChildren`, which is not among the
sources, being one that leaves the dialogue alone). -/
theorem C28_virtual_parent_never_backtracks (Env : FDlgNodeEnv)
    (hBase : ∀ c dd i ae, (Env.BaseReevaluateChildren c dd i ae).Dialogue = dd)
    (Context : UDlgContext) (d : UDlgDialogue) (iA : Int) (A : UDlgNode) (AE : List Int)
    (Pre : List FDlgEdge) (Edge : FDlgEdge) (Post : List FDlgEdge) (Target : UDlgNode)
    (r : FDlgStepResult)
    (hA : UDlgContext.GetMutableNodeFromIndex d iA = some A)
    (hAc : A.NodeClass = EDlgNodeClass.Speech) (hAvp : A.bIsVirtualParent = true)
    (hAE : iA ∉ AE) (hChildren : A.Children = Pre ++ Edge :: Post)
    (hPre : ∀ e ∈ Pre, Env.EdgeEvaluate Context.EmptyOptions
      (d.SetVirtualParentIndex iA INDEX_NONE) iA e = false)
    (hEdge : Env.EdgeEvaluate Context.EmptyOptions
      (d.SetVirtualParentIndex iA INDEX_NONE) iA Edge = true)
    (hTarget : UDlgContext.GetMutableNodeFromIndex (d.SetVirtualParentIndex iA INDEX_NONE)
      Edge.TargetIndex = some Target)
    (hr : ReevaluateChildren Env Context.EmptyOptions (d.SetVirtualParentIndex iA INDEX_NONE)
      Edge.TargetIndex (iA :: AE) = some r)
    (hfalse : r.bResult = false) :
    ReevaluateChildren Env Context d iA AE =
        some { bResult := false, Context := r.Context, Dialogue := r.Dialogue } ∧
      (UDlgContext.GetMutableNodeFromIndex r.Dialogue iA).map
        (fun n => n.VirtualParentFirstSatisfiedDirectChildIndex) = some INDEX_NONE := by
  have hF : UDlgNode_Speech.FindFirstSatisfiedChild Env Context.EmptyOptions
      (d.SetVirtualParentIndex iA INDEX_NONE) iA A.Children = some (Edge, Target) := by
    rw [hChildren]
    exact UDlgNode_Speech.FindFirstSatisfiedChild_append Env _ _ iA Edge Target Post Pre hPre
      hEdge hTarget
  have hvalid := (UDlgContext.GetMutableNodeFromIndex_eq_some d iA A hA).1
  have hcount : (d.SetVirtualParentIndex iA INDEX_NONE).UnevaluatedCount (iA :: AE) <
      d.Nodes.length := by
    rw [UDlgDialogue.UnevaluatedCount_SetVirtualParentIndex]
    have h1 := UDlgDialogue.UnevaluatedCount_cons_lt d iA AE hvalid hAE
    have h2 := UnevaluatedCount_le_length d AE
    omega
  obtain ⟨r1, hr1⟩ := ReevaluateChildrenFuel_returns Env d.Nodes.length Context.EmptyOptions
    (d.SetVirtualParentIndex iA INDEX_NONE) Edge.TargetIndex (iA :: AE) Target hTarget hcount
  have hEq : r1 = r := by
    have h2 := ReevaluateChildren_eq_of_Fuel Env _ _ _ _ _ r1 hr1
    rw [hr] at h2
    injection h2 with h2
    exact h2.symm
  subst hEq
  constructor
  · unfold ReevaluateChildren
    rw [ReevaluateChildrenFuel_child Env _ Context d iA A AE Edge Target hA hAc hAvp hAE hF, hr1]
    simp only [Option.map_some', hfalse, Bool.false_eq_true, if_false]
  · refine ReevaluateChildrenFuel_keeps_reset Env hBase iA _ _ _ _ _ r1
      (List.mem_cons_self _ _) ?_ hr1
    rw [VirtualParentIndex_SetVirtualParentIndex, if_pos rfl, hA]
    rfl

/-- C28 on `BacktrackDialogue`: the first edge of the virtual parent, to the End node 1,
evaluates true and the End node returns false; the call on the virtual parent returns false
and records no child, although its second edge evaluates true and the call on its target,
node 2, returns true. -/
theorem C28_virtual_parent_never_backtracks_witness :
    (SampleEnv.EdgeEvaluate (UDlgContext.EmptyOptions {})
        (BacktrackDialogue.SetVirtualParentIndex 0 INDEX_NONE) 0 { TargetIndex := 2 } = true ∧
      (ReevaluateChildren SampleEnv (UDlgContext.EmptyOptions {})
        (BacktrackDialogue.SetVirtualParentIndex 0 INDEX_NONE) 2 [0]).map
        (fun r => r.bResult) = some true) ∧
    (ReevaluateChildren SampleEnv {} BacktrackDialogue 0 [] =
        some { bResult := false, Context := UDlgContext.EmptyOptions {},
               Dialogue := BacktrackDialogue.SetVirtualParentIndex 0 INDEX_NONE } ∧
      (UDlgContext.GetMutableNodeFromIndex
        (BacktrackDialogue.SetVirtualParentIndex 0 INDEX_NONE) 0).map
        (fun n => n.VirtualParentFirstSatisfiedDirectChildIndex) = some INDEX_NONE) :=
  ⟨⟨by decide, by decide⟩,
    C28_virtual_parent_never_backtracks SampleEnv
      UDlgNode_Speech.SampleEnv_BaseReevaluateChildren_Dialogue {}
      BacktrackDialogue 0
      { NodeGUID := { A := 80 }, bIsVirtualParent := true,
        Children := [{ TargetIndex := 1 }, { TargetIndex := 2 }] }
      [] [] { TargetIndex := 1 } [{ TargetIndex := 2 }]
      { NodeClass := EDlgNodeClass.End, NodeGUID := { A := 81 } }
      { bResult := false, Context := UDlgContext.EmptyOptions {},
        Dialogue := BacktrackDialogue.SetVirtualParentIndex 0 INDEX_NONE }
      (by decide) rfl rfl (by decide) rfl (by intro e he; simp at he) (by decide) (by decide)
      (by decide) rfl⟩

end UDlgNode

namespace UDlgDialogue

/-! ## C26 -/

end UDlgDialogue

namespace UDlgDialogue

/-- The registry `UpdateAndRefreshData` returns: steps 1 and 2 on the registry held before,
then step 3 when the dialogue was loaded and the setting is on. -/
theorem UpdateAndRefreshData_Classes (Env : FDlgRefreshEnv) (b : Bool) (d r : UDlgDialogue)
    (h : UpdateAndRefreshData Env b d = some r) :
    r.ParticipantsClasses =
      (if d.bWasLoaded && Env.bAutoSetDefaultParticipantClasses then
        (AddNewEntries
          (RemoveOutdatedEntries d.ParticipantsClasses.length d.ParticipantsClasses
            (GetParticipantNames r.ParticipantsData)).1
          (RemoveOutdatedEntries d.ParticipantsClasses.length d.ParticipantsClasses
            (GetParticipantNames r.ParticipantsData)).2).map (AutoSetParticipantClass Env)
      else
        AddNewEntries
          (RemoveOutdatedEntries d.ParticipantsClasses.length d.ParticipantsClasses
            (GetParticipantNames r.ParticipantsData)).1
          (RemoveOutdatedEntries d.ParticipantsClasses.length d.ParticipantsClasses
            (GetParticipantNames r.ParticipantsData)).2) := by
  unfold UpdateAndRefreshData at h
  cases hS : TArray.Deref d.StartNodes with
  | none =>
    rw [hS] at h
    exact Option.noConfusion h
  | some S =>
    cases hN : TArray.Deref d.Nodes with
    | none =>
      rw [hS, hN] at h
      exact Option.noConfusion h
    | some N =>
      rw [hS, hN] at h
      dsimp only at h
      injection h with h
      rw [← h]

/-! ## C26 -/

end UDlgDialogue

namespace UDlgDialogue

end UDlgDialogue

namespace UDlgDialogue

/-! ## The participant-class registry -/

/-- The removal of the item after the items `Front`: `Front` stays in place, the items
after the removed one stay, in another order. -/
theorem TArray.RemoveAtSwap_append {α : Type} (Front : List α) (Item : α) (Back : List α) :
    ∃ Back1 : List α, Back1.Perm Back ∧
      TArray.RemoveAtSwap (Front ++ Item :: Back) Front.length = Front ++ Back1 := by
  rcases List.eq_nil_or_concat Back with hB | ⟨Back0, Last, hB⟩
  · subst hB
    refine ⟨[], List.Perm.refl _, ?_⟩
    unfold TArray.RemoveAtSwap
    simp
  · rw [List.concat_eq_append] at hB
    subst hB
    refine ⟨Last :: Back0, (List.perm_append_singleton Last Back0).symm, ?_⟩
    unfold TArray.RemoveAtSwap
    have hLast : (Front ++ Item :: (Back0 ++ [Last])).getLast? = some Last := by
      rw [← List.cons_append, ← List.append_assoc, List.getLast?_append]
      simp
    rw [hLast]
    have hlen : ¬ (Front.length + 1 = (Front ++ Item :: (Back0 ++ [Last])).length) := by
      simp
    simp only [hlen, if_false]
    have hset : (Front ++ Item :: (Back0 ++ [Last])).set Front.length Last =
        (Front ++ Last :: Back0) ++ [Last] := by
      rw [List.set_append_right _ _ (Nat.le_refl _)]
      simp
    rw [hset, List.dropLast_concat]

/-- One turn of the loop of step 1, on the entry `Examined` that follows `Front`. -/
theorem RemoveOutdatedEntries_step (Front : List FDlgParticipantClass)
    (Examined : FDlgParticipantClass) (Back : List FDlgParticipantClass)
    (Participants : List FName) :
    (Examined.ParticipantName ∈ Participants ∧ Examined.ParticipantName ≠ NAME_None ∧
      RemoveOutdatedEntries (Front ++ [Examined]).length (Front ++ [Examined] ++ Back)
          Participants =
        RemoveOutdatedEntries Front.length (Front ++ Examined :: Back)
          (TSet.Remove Participants Examined.ParticipantName)) ∨
    ((Examined.ParticipantName ∉ Participants ∨ Examined.ParticipantName = NAME_None) ∧
      ∃ Back1 : List FDlgParticipantClass, Back1.Perm Back ∧
        RemoveOutdatedEntries (Front ++ [Examined]).length (Front ++ [Examined] ++ Back)
            Participants =
          RemoveOutdatedEntries Front.length (Front ++ Back1)
            (TSet.Remove Participants Examined.ParticipantName)) := by
  have hlen : (Front ++ [Examined]).length = Front.length + 1 := by simp
  have happ : Front ++ [Examined] ++ Back = Front ++ Examined :: Back := by simp
  have hget : (Front ++ Examined :: Back)[Front.length]? = some Examined := by
    rw [List.getElem?_append_right (Nat.le_refl _)]
    simp
  rw [hlen, happ, RemoveOutdatedEntries, hget]
  dsimp only
  by_cases hkeep : Examined.ParticipantName ∈ Participants ∧
      Examined.ParticipantName ≠ NAME_None
  · left
    refine ⟨hkeep.1, hkeep.2, ?_⟩
    simp [hkeep.1, hkeep.2]
  · right
    have hrem : Examined.ParticipantName ∉ Participants ∨
        Examined.ParticipantName = NAME_None := by
      by_cases h1 : Examined.ParticipantName ∈ Participants
      · right
        by_contra h2
        exact hkeep ⟨h1, h2⟩
      · left
        exact h1
    obtain ⟨Back1, hPerm, hEq⟩ := TArray.RemoveAtSwap_append Front Examined Back
    refine ⟨hrem, Back1, hPerm, ?_⟩
    have hcond : (!decide (Examined.ParticipantName ∈ Participants) ||
        decide (Examined.ParticipantName = NAME_None)) = true := by
      rcases hrem with h | h
      · simp [h]
      · simp [h]
    rw [if_pos hcond, hEq]

end UDlgDialogue

namespace UDlgDialogue

theorem TSet.Nodup_Remove {α : Type} [DecidableEq α] (s : List α) (x : α) (h : s.Nodup) :
    (TSet.Remove s x).Nodup := by
  unfold TSet.Remove
  exact h.filter _

/-- Step 1 of the registry part, from the entries `Front` still to examine and the entries
`Back` kept so far: the names of the entries kept are distinct, set and no longer in
`Participants`, and a set name is kept or left in `Participants` exactly when it was. -/
theorem RemoveOutdatedEntries_names :
    ∀ (Front Back : List FDlgParticipantClass) (Participants : List FName),
      (Back.map (fun Struct => Struct.ParticipantName)).Nodup →
      (∀ x ∈ Back.map (fun Struct => Struct.ParticipantName),
        x ≠ NAME_None ∧ x ∉ Participants) →
      Participants.Nodup →
      ((RemoveOutdatedEntries Front.length (Front ++ Back) Participants).1.map
          (fun Struct => Struct.ParticipantName)).Nodup ∧
        (∀ x ∈ (RemoveOutdatedEntries Front.length (Front ++ Back) Participants).1.map
            (fun Struct => Struct.ParticipantName),
          x ≠ NAME_None ∧
            x ∉ (RemoveOutdatedEntries Front.length (Front ++ Back) Participants).2) ∧
        (RemoveOutdatedEntries Front.length (Front ++ Back) Participants).2.Nodup ∧
        ∀ x : FName, x ≠ NAME_None →
          (x ∈ (RemoveOutdatedEntries Front.length (Front ++ Back) Participants).1.map
                (fun Struct => Struct.ParticipantName) ∨
              x ∈ (RemoveOutdatedEntries Front.length (Front ++ Back) Participants).2 ↔
            x ∈ Back.map (fun Struct => Struct.ParticipantName) ∨ x ∈ Participants) := by
  intro Front
  induction Front using List.reverseRecOn with
  | nil =>
    intro Back Participants hD hB hP
    simp only [List.length_nil, List.nil_append, RemoveOutdatedEntries]
    exact ⟨hD, hB, hP, fun x _ => trivial⟩
  | append_singleton Front Examined ih =>
    intro Back Participants hD hB hP
    rcases RemoveOutdatedEntries_step Front Examined Back Participants with
      ⟨hIn, hSet, hEq⟩ | ⟨hOut, Back1, hPerm, hEq⟩
    · rw [hEq]
      have hD1 : ((Examined :: Back).map (fun Struct => Struct.ParticipantName)).Nodup := by
        rw [List.map_cons]
        refine List.nodup_cons.mpr ⟨?_, hD⟩
        intro hmem
        exact (hB _ hmem).2 hIn
      have hB1 : ∀ x ∈ (Examined :: Back).map (fun Struct => Struct.ParticipantName),
          x ≠ NAME_None ∧ x ∉ TSet.Remove Participants Examined.ParticipantName := by
        intro x hx
        rw [List.map_cons] at hx
        rcases List.mem_cons.mp hx with h | h
        · rw [h]
          exact ⟨hSet, fun hmem => ((TSet.mem_Remove _ _ _).mp hmem).2 rfl⟩
        · exact ⟨(hB x h).1, fun hmem => (hB x h).2 ((TSet.mem_Remove _ _ _).mp hmem).1⟩
      obtain ⟨h1, h2, h3, h4⟩ := ih (Examined :: Back)
        (TSet.Remove Participants Examined.ParticipantName) hD1 hB1
        (TSet.Nodup_Remove _ _ hP)
      refine ⟨h1, h2, h3, ?_⟩
      intro x hx
      rw [h4 x hx, List.map_cons, List.mem_cons, TSet.mem_Remove]
      constructor
      · rintro ((h | h) | h)
        · right
          rw [h]
          exact hIn
        · left
          exact h
        · right
          exact h.1
      · rintro (h | h)
        · left
          right
          exact h
        · by_cases hxe : x = Examined.ParticipantName
          · left
            left
            exact hxe
          · right
            exact ⟨h, hxe⟩
    · rw [hEq]
      have hNames : (Back1.map (fun Struct => Struct.ParticipantName)).Perm
          (Back.map (fun Struct => Struct.ParticipantName)) := hPerm.map _
      have hD1 : (Back1.map (fun Struct => Struct.ParticipantName)).Nodup :=
        hNames.nodup_iff.mpr hD
      have hB1 : ∀ x ∈ Back1.map (fun Struct => Struct.ParticipantName),
          x ≠ NAME_None ∧ x ∉ TSet.Remove Participants Examined.ParticipantName := by
        intro x hx
        have hx0 := hNames.mem_iff.mp hx
        exact ⟨(hB x hx0).1, fun hmem => (hB x hx0).2 ((TSet.mem_Remove _ _ _).mp hmem).1⟩
      obtain ⟨h1, h2, h3, h4⟩ := ih Back1
        (TSet.Remove Participants Examined.ParticipantName) hD1 hB1
        (TSet.Nodup_Remove _ _ hP)
      refine ⟨h1, h2, h3, ?_⟩
      intro x hx
      rw [h4 x hx, hNames.mem_iff, TSet.mem_Remove]
      constructor
      · rintro (h | h)
        · left
          exact h
        · right
          exact h.1
      · rintro (h | h)
        · left
          exact h
        · right
          refine ⟨h, ?_⟩
          intro hxe
          rcases hOut with hO | hO
          · exact hO (hxe ▸ h)
          · exact hx (hxe.trans hO)

end UDlgDialogue

namespace UDlgDialogue

theorem TSet.Add_fold {α β : Type} [DecidableEq β] (f : α → β) :
    ∀ (l : List α) (acc : List β), acc.Nodup →
      (l.foldl (fun Names Element => TSet.Add Names (f Element)) acc).Nodup ∧
        ∀ x, x ∈ l.foldl (fun Names Element => TSet.Add Names (f Element)) acc ↔
          x ∈ acc ∨ x ∈ l.map f := by
  intro l
  induction l with
  | nil => intro acc h; simp [h]
  | cons a rest ih =>
    intro acc h
    have hAdd : (TSet.Add acc (f a)).Nodup ∧ ∀ x, x ∈ TSet.Add acc (f a) ↔ x ∈ acc ∨ x = f a := by
      unfold TSet.Add
      by_cases hmem : f a ∈ acc
      · rw [if_pos hmem]
        refine ⟨h, fun x => ⟨fun hx => Or.inl hx, ?_⟩⟩
        rintro (hx | hx)
        · exact hx
        · rw [hx]
          exact hmem
      · rw [if_neg hmem]
        refine ⟨?_, fun x => by simp⟩
        rw [List.nodup_append]
        refine ⟨h, List.nodup_singleton _, ?_⟩
        intro y hy1 hy2
        rw [List.mem_singleton] at hy2
        exact hmem (hy2 ▸ hy1)
    obtain ⟨h1, h2⟩ := ih (TSet.Add acc (f a)) hAdd.1
    refine ⟨h1, ?_⟩
    intro x
    rw [List.foldl_cons, h2 x, hAdd.2 x, List.map_cons, List.mem_cons, or_assoc]

theorem TMap.Find_isSome_iff {K V : Type} [DecidableEq K] (Key : K) :
    ∀ m : TMap K V, (TMap.Find m Key).isSome = true ↔ Key ∈ m.map (fun Element => Element.1) := by
  intro m
  induction m with
  | nil => simp [TMap.Find]
  | cons p rest ih =>
    obtain ⟨k, v⟩ := p
    by_cases hk : k = Key
    · simp [TMap.Find, hk]
    · have hk2 : ¬ Key = k := fun h => hk h.symm
      simp only [TMap.Find, hk, if_false, ih, List.map_cons, List.mem_cons, hk2, false_or]

/-- The set `GetParticipantNames` gives: the keys of the data, each once. -/
theorem GetParticipantNames_spec (ParticipantsData : TMap FName FDlgParticipantData) :
    (GetParticipantNames ParticipantsData).Nodup ∧
      ∀ x, x ∈ GetParticipantNames ParticipantsData ↔
        (TMap.Find ParticipantsData x).isSome = true := by
  obtain ⟨h1, h2⟩ := TSet.Add_fold (fun (Element : FName × FDlgParticipantData) => Element.1)
    ParticipantsData [] List.nodup_nil
  refine ⟨h1, ?_⟩
  intro x
  rw [TMap.Find_isSome_iff]
  unfold GetParticipantNames
  rw [h2 x]
  simp

/-- The names of the registry after step 2. -/
theorem AddNewEntries_names :
    ∀ (Participants : List FName) (Classes : List FDlgParticipantClass),
      (AddNewEntries Classes Participants).map (fun Struct => Struct.ParticipantName) =
        Classes.map (fun Struct => Struct.ParticipantName) ++
          Participants.filter (fun x => !decide (x = NAME_None)) := by
  intro Participants
  induction Participants with
  | nil => intro Classes; simp [AddNewEntries]
  | cons p rest ih =>
    intro Classes
    unfold AddNewEntries at ih ⊢
    rw [List.foldl_cons]
    by_cases hp : p = NAME_None
    · simp only [hp, ne_eq, not_true_eq_false, if_false]
      rw [ih]
      simp
    · simp only [hp, ne_eq, not_false_eq_true, if_true]
      rw [ih]
      simp [hp]

/-- Step 3 keeps the name of every entry. -/
theorem AutoSetParticipantClass_name (Env : FDlgRefreshEnv) (Struct : FDlgParticipantClass) :
    (AutoSetParticipantClass Env Struct).ParticipantName = Struct.ParticipantName := by
  unfold AutoSetParticipantClass
  split
  · rfl
  · dsimp only
    split <;> split <;> (try split) <;> rfl

end UDlgDialogue

namespace UDlgDialogue

/-- The names of the registry after steps 1 and 2: the set names of `Participants`, each
once, whatever the registry held before. -/
theorem registry_names (Classes0 : List FDlgParticipantClass) (Participants : List FName)
    (hP : Participants.Nodup) :
    ((AddNewEntries (RemoveOutdatedEntries Classes0.length Classes0 Participants).1
        (RemoveOutdatedEntries Classes0.length Classes0 Participants).2).map
        (fun Struct => Struct.ParticipantName)).Nodup ∧
      ∀ x : FName,
        x ∈ (AddNewEntries (RemoveOutdatedEntries Classes0.length Classes0 Participants).1
          (RemoveOutdatedEntries Classes0.length Classes0 Participants).2).map
          (fun Struct => Struct.ParticipantName) ↔
        x ≠ NAME_None ∧ x ∈ Participants := by
  have h := RemoveOutdatedEntries_names Classes0 [] Participants List.nodup_nil
    (fun x hx => by simp at hx) hP
  rw [List.append_nil] at h
  obtain ⟨h1, h2, h3, h4⟩ := h
  rw [AddNewEntries_names]
  constructor
  · rw [List.nodup_append]
    refine ⟨h1, h3.filter _, ?_⟩
    intro x hx1 hx2
    exact (h2 x hx1).2 (List.mem_filter.mp hx2).1
  · intro x
    rw [List.mem_append, List.mem_filter]
    constructor
    · rintro (hx | ⟨hx, hne⟩)
      · have hne := (h2 x hx).1
        refine ⟨hne, ?_⟩
        have := (h4 x hne).mp (Or.inl hx)
        simpa using this
      · have hne2 : x ≠ NAME_None := by simpa using hne
        refine ⟨hne2, ?_⟩
        have := (h4 x hne2).mp (Or.inr hx)
        simpa using this
    · rintro ⟨hne, hx⟩
      rcases (h4 x hne).mpr (Or.inr hx) with h | h
      · exact Or.inl h
      · exact Or.inr ⟨h, by simpa using hne⟩

/-- The names of the registry `UpdateAndRefreshData` returns are those steps 1 and 2 leave. -/
theorem UpdateAndRefreshData_Classes_names (Env : FDlgRefreshEnv) (b : Bool)
    (d r : UDlgDialogue) (h : UpdateAndRefreshData Env b d = some r) :
    r.ParticipantsClasses.map (fun Struct => Struct.ParticipantName) =
      (AddNewEntries
        (RemoveOutdatedEntries d.ParticipantsClasses.length d.ParticipantsClasses
          (GetParticipantNames r.ParticipantsData)).1
        (RemoveOutdatedEntries d.ParticipantsClasses.length d.ParticipantsClasses
          (GetParticipantNames r.ParticipantsData)).2).map
        (fun Struct => Struct.ParticipantName) := by
  rw [UpdateAndRefreshData_Classes Env b d r h]
  split
  · rw [List.map_map]
    apply List.map_congr_left
    intro Struct _
    exact AutoSetParticipantClass_name Env Struct
  · rfl

/-! ## C25 -/

/-- C25: registry reconciliation. On a dialogue without null slot the refresh returns, and
afterwards the participant names held by the registry `ParticipantsClasses` are distinct, and
a name is held by the registry exactly when it is not None and a key of the aggregated
`ParticipantsData`. This holds for every registry held before: the dialogue `d`, and with it
its prior registry, is arbitrary. -/
theorem C25_registry_names_match_data (Env : FDlgRefreshEnv) (b : Bool) (d : UDlgDialogue)
    (hnn : ∀ x ∈ d.StartNodes ++ d.Nodes, x ≠ none) :
    ∃ r : UDlgDialogue, UpdateAndRefreshData Env b d = some r ∧
      (r.ParticipantsClasses.map (fun Struct => Struct.ParticipantName)).Nodup ∧
      ∀ P : FName,
        P ∈ r.ParticipantsClasses.map (fun Struct => Struct.ParticipantName) ↔
          P ≠ NAME_None ∧ (TMap.Find r.ParticipantsData P).isSome = true := by
  obtain ⟨S, N, r, _, _, hr, _, _, _⟩ := UpdateAndRefreshData_returns Env b d hnn
  obtain ⟨hNodup, hSpec⟩ := GetParticipantNames_spec r.ParticipantsData
  obtain ⟨h1, h2⟩ := registry_names d.ParticipantsClasses
    (GetParticipantNames r.ParticipantsData) hNodup
  refine ⟨r, hr, ?_, ?_⟩
  · rw [UpdateAndRefreshData_Classes_names Env b d r hr]
    exact h1
  · intro P
    rw [UpdateAndRefreshData_Classes_names Env b d r hr, h2 P, hSpec P]

/-- C25 on `StaleRegistryDialogue`, whose registry holds "Guard" twice, the outdated name
"Ghost" and an entry without name, the aggregated data having the one key "Guard": the
registry is left with one entry, for "Guard". -/
theorem C25_registry_names_match_data_witness :
    (UpdateAndRefreshData SampleRefreshEnv false StaleRegistryDialogue).map
        (fun r => (r.ParticipantsData.map (fun Element => Element.1), r.ParticipantsClasses)) =
      some (["Guard"], [{ ParticipantName := "Guard", ParticipantClass := some 8 }]) ∧
    ∃ r : UDlgDialogue,
      UpdateAndRefreshData SampleRefreshEnv false StaleRegistryDialogue = some r ∧
      (r.ParticipantsClasses.map (fun Struct => Struct.ParticipantName)).Nodup ∧
      ∀ P : FName,
        P ∈ r.ParticipantsClasses.map (fun Struct => Struct.ParticipantName) ↔
          P ≠ NAME_None ∧ (TMap.Find r.ParticipantsData P).isSome = true :=
  ⟨by decide,
    C25_registry_names_match_data SampleRefreshEnv false StaleRegistryDialogue
      (by
        intro x hx
        simp only [StaleRegistryDialogue, GuardDialogue, List.cons_append, List.nil_append,
          List.mem_cons, List.not_mem_nil, or_false] at hx
        rcases hx with h | h | h <;> rw [h] <;> exact Option.some_ne_none _)⟩

end UDlgDialogue

namespace UDlgDialogue

/-! ## C29 -/

/-- Step 1 keeps an entry that was kept before, and an entry still to examine whose name is
set, is in `Participants` and is the name of no other entry still to examine. -/
theorem RemoveOutdatedEntries_keeps (Entry : FDlgParticipantClass) :
    ∀ (Front Back : List FDlgParticipantClass) (Participants : List FName),
      (Entry ∈ Back ∨
        (Entry ∈ Front ∧ Entry.ParticipantName ∈ Participants ∧
          Entry.ParticipantName ≠ NAME_None ∧
          ∀ Other ∈ Front, Other.ParticipantName = Entry.ParticipantName → Other = Entry)) →
      Entry ∈ (RemoveOutdatedEntries Front.length (Front ++ Back) Participants).1 := by
  intro Front
  induction Front using List.reverseRecOn with
  | nil =>
    intro Back Participants h
    simp only [List.length_nil, List.nil_append, RemoveOutdatedEntries]
    rcases h with h | ⟨h, _⟩
    · exact h
    · simp at h
  | append_singleton Front Examined ih =>
    intro Back Participants h
    have hFront : Entry ∉ Back →
        (Entry ∈ Front ++ [Examined] ∧ Entry.ParticipantName ∈ Participants ∧
          Entry.ParticipantName ≠ NAME_None ∧
          ∀ Other ∈ Front ++ [Examined],
            Other.ParticipantName = Entry.ParticipantName → Other = Entry) := by
      intro hB
      rcases h with h | h
      · exact absurd h hB
      · exact h
    rcases RemoveOutdatedEntries_step Front Examined Back Participants with
      ⟨hIn, hSet, hEq⟩ | ⟨hOut, Back1, hPerm, hEq⟩
    · rw [hEq]
      apply ih
      by_cases hB : Entry ∈ Back
      · exact Or.inl (List.mem_cons_of_mem _ hB)
      · obtain ⟨hmem, hP, hne, huniq⟩ := hFront hB
        by_cases hname : Examined.ParticipantName = Entry.ParticipantName
        · have hE := huniq Examined (List.mem_append_right _ (List.mem_singleton_self _)) hname
          rw [hE]
          exact Or.inl (List.mem_cons_self _ _)
        · right
          rcases List.mem_append.mp hmem with hF | hL
          · refine ⟨hF, ?_, hne, fun Other hO => huniq Other (List.mem_append_left _ hO)⟩
            exact (TSet.mem_Remove _ _ _).mpr ⟨hP, fun hEq2 => hname hEq2.symm⟩
          · rw [List.mem_singleton] at hL
            exact absurd (congrArg FDlgParticipantClass.ParticipantName hL).symm hname
    · rw [hEq]
      apply ih
      by_cases hB : Entry ∈ Back
      · exact Or.inl (hPerm.mem_iff.mpr hB)
      · obtain ⟨hmem, hP, hne, huniq⟩ := hFront hB
        have hname : Examined.ParticipantName ≠ Entry.ParticipantName := by
          intro hname
          rcases hOut with hO | hO
          · exact hO (hname ▸ hP)
          · exact hne (hname ▸ hO)
        right
        rcases List.mem_append.mp hmem with hF | hL
        · refine ⟨hF, ?_, hne, fun Other hO => huniq Other (List.mem_append_left _ hO)⟩
          exact (TSet.mem_Remove _ _ _).mpr ⟨hP, fun hEq2 => hname hEq2.symm⟩
        · rw [List.mem_singleton] at hL
          exact absurd (congrArg FDlgParticipantClass.ParticipantName hL).symm hname

/-- Step 2 keeps the entries of the registry. -/
theorem mem_AddNewEntries_of_mem (Entry : FDlgParticipantClass) :
    ∀ (Participants : List FName) (Classes : List FDlgParticipantClass),
      Entry ∈ Classes → Entry ∈ AddNewEntries Classes Participants := by
  intro Participants Classes h
  unfold AddNewEntries
  refine foldl_preserves _ (fun Acc => Entry ∈ Acc) ?_ Participants Classes h
  intro Acc Participant hAcc
  dsimp only
  split
  · exact List.mem_append_left _ hAcc
  · exact hAcc

/-- Step 3 leaves an entry with a class as it is. -/
theorem AutoSetParticipantClass_of_class (Env : FDlgRefreshEnv) (Struct : FDlgParticipantClass)
    (h : Struct.ParticipantClass ≠ none) : AutoSetParticipantClass Env Struct = Struct := by
  unfold AutoSetParticipantClass
  cases hC : Struct.ParticipantClass with
  | none => exact absurd hC h
  | some c => simp

end UDlgDialogue

namespace UDlgDialogue

/-- C29: the refresh keeps the class binding of a participant that is still referenced. On a
dialogue without null slot whose registry holds an entry for the name `P` with the class
`Class`, and no other entry with the name `P`, the refresh returns; and if `P` is not None and
a key of the aggregated `ParticipantsData`, the registry afterwards holds that entry, and every
entry of the registry with the name `P` has the class `Class`. -/
theorem C29_refresh_keeps_class_binding (Env : FDlgRefreshEnv) (b : Bool) (d : UDlgDialogue)
    (P : FName) (Class : Nat) (hnn : ∀ x ∈ d.StartNodes ++ d.Nodes, x ≠ none)
    (hmem : { ParticipantName := P, ParticipantClass := some Class } ∈ d.ParticipantsClasses)
    (huniq : ∀ Other ∈ d.ParticipantsClasses, Other.ParticipantName = P →
      Other = { ParticipantName := P, ParticipantClass := some Class }) :
    ∃ r : UDlgDialogue, UpdateAndRefreshData Env b d = some r ∧
      (P ≠ NAME_None → (TMap.Find r.ParticipantsData P).isSome = true →
        { ParticipantName := P, ParticipantClass := some Class } ∈ r.ParticipantsClasses ∧
          ∀ Struct ∈ r.ParticipantsClasses, Struct.ParticipantName = P →
            Struct.ParticipantClass = some Class) := by
  obtain ⟨S, N, r, _, _, hr, _, _, _⟩ := UpdateAndRefreshData_returns Env b d hnn
  refine ⟨r, hr, ?_⟩
  intro hne hkey
  obtain ⟨hNodup, hSpec⟩ := GetParticipantNames_spec r.ParticipantsData
  have hKept := RemoveOutdatedEntries_keeps
    { ParticipantName := P, ParticipantClass := some Class } d.ParticipantsClasses []
    (GetParticipantNames r.ParticipantsData)
    (Or.inr ⟨hmem, (hSpec P).mpr hkey, hne, huniq⟩)
  rw [List.append_nil] at hKept
  have hAdded := mem_AddNewEntries_of_mem _
    (RemoveOutdatedEntries d.ParticipantsClasses.length d.ParticipantsClasses
      (GetParticipantNames r.ParticipantsData)).2 _ hKept
  have hIn : { ParticipantName := P, ParticipantClass := some Class } ∈
      r.ParticipantsClasses := by
    rw [UpdateAndRefreshData_Classes Env b d r hr]
    split
    · exact List.mem_map.mpr ⟨_, hAdded,
        AutoSetParticipantClass_of_class Env _ (Option.some_ne_none Class)⟩
    · exact hAdded
  refine ⟨hIn, ?_⟩
  intro Struct hStruct hName
  have hNames : (r.ParticipantsClasses.map (fun Struct => Struct.ParticipantName)).Nodup := by
    rw [UpdateAndRefreshData_Classes_names Env b d r hr]
    exact (registry_names d.ParticipantsClasses (GetParticipantNames r.ParticipantsData)
      hNodup).1
  have hEq := List.inj_on_of_nodup_map hNames hStruct hIn hName
  rw [hEq]

/-- C29 on `BoundRegistryDialogue`, in `AutoBindEnv`, where one native class declares
"Merchant": the entry that binds "Merchant" to the class 42 is kept, the outdated entry is
removed and "Player" gets an entry, which step 3 binds. -/
theorem C29_refresh_keeps_class_binding_witness :
    (UpdateAndRefreshData AutoBindEnv false BoundRegistryDialogue).map
        (fun r => r.ParticipantsClasses) =
      some [{ ParticipantName := "Merchant", ParticipantClass := some 42 },
        { ParticipantName := "Player", ParticipantClass := some 5 }] ∧
    ∃ r : UDlgDialogue, UpdateAndRefreshData AutoBindEnv false BoundRegistryDialogue = some r ∧
      ("Merchant" ≠ NAME_None → (TMap.Find r.ParticipantsData "Merchant").isSome = true →
        { ParticipantName := "Merchant", ParticipantClass := some 42 } ∈
            r.ParticipantsClasses ∧
          ∀ Struct ∈ r.ParticipantsClasses, Struct.ParticipantName = "Merchant" →
            Struct.ParticipantClass = some 42) :=
  ⟨by decide,
    C29_refresh_keeps_class_binding AutoBindEnv false BoundRegistryDialogue "Merchant" 42
      (by
        intro x hx
        simp only [BoundRegistryDialogue, TradeDialogue, List.cons_append, List.nil_append,
          List.mem_cons, List.not_mem_nil, or_false] at hx
        rcases hx with h | h | h <;> rw [h] <;> exact Option.some_ne_none _)
      (by decide)
      (by
        intro Other hOther hName
        simp only [BoundRegistryDialogue, List.mem_cons, List.not_mem_nil, or_false] at hOther
        rcases hOther with h | h
        · rw [h] at hName
          exact absurd hName (by decide)
        · exact h)⟩

end UDlgDialogue

/-! ## C30 -/

namespace FRegexMatcher

theorem MatchRestOfTag_bounds :
    ∀ (s : List Nat) (n : Nat), MatchRestOfTag s = some n → 1 ≤ n ∧ n ≤ s.length := by
  intro s
  induction s with
  | nil => intro n h; simp [MatchRestOfTag] at h
  | cons c rest ih =>
    intro n h
    unfold MatchRestOfTag at h
    by_cases hc : c = '>'.toNat
    · rw [if_pos hc] at h
      injection h with h
      subst h
      simp
    · rw [if_neg hc] at h
      cases hR : MatchRestOfTag rest with
      | none => rw [hR] at h; exact Option.noConfusion h
      | some m =>
        rw [hR] at h
        injection h with h
        subst h
        have := ih m hR
        simp only [List.length_cons]
        omega

theorem MatchRestOfTag_of_mem : ∀ s : List Nat, '>'.toNat ∈ s → MatchRestOfTag s ≠ none := by
  intro s
  induction s with
  | nil => intro h; simp at h
  | cons c rest ih =>
    intro h
    unfold MatchRestOfTag
    by_cases hc : c = '>'.toNat
    · rw [if_pos hc]
      exact Option.some_ne_none _
    · rw [if_neg hc]
      have hrest : '>'.toNat ∈ rest := by
        rcases List.mem_cons.mp h with h1 | h1
        · exact absurd h1.symm hc
        · exact h1
      cases hR : MatchRestOfTag rest with
      | none => exact absurd hR (ih hrest)
      | some m => exact Option.some_ne_none _

theorem MatchTagAt_cons (c : Nat) (rest : List Nat) :
    MatchTagAt (c :: rest) =
      if c = '<'.toNat then (MatchRestOfTag rest).map (fun n => n + 1) else none := rfl

theorem MatchTagAt_bounds (s : List Nat) (n : Nat) (h : MatchTagAt s = some n) :
    2 ≤ n ∧ n ≤ s.length := by
  cases s with
  | nil => simp [MatchTagAt] at h
  | cons c rest =>
    rw [MatchTagAt_cons] at h
    by_cases hc : c = '<'.toNat
    · rw [if_pos hc] at h
      cases hR : MatchRestOfTag rest with
      | none => rw [hR] at h; exact Option.noConfusion h
      | some m =>
        rw [hR] at h
        injection h with h
        subst h
        have := MatchRestOfTag_bounds rest m hR
        simp only [List.length_cons]
        omega
    · rw [if_neg hc] at h
      exact Option.noConfusion h

/-- A match is at least two characters long and lies within the string. -/
theorem FindNext_bounds :
    ∀ (s : List Nat) (b e : Nat), FindNext s = some (b, e) → b + 2 ≤ e ∧ e ≤ s.length := by
  intro s
  induction s with
  | nil => intro b e h; simp [FindNext] at h
  | cons c rest ih =>
    intro b e h
    unfold FindNext at h
    cases hM : MatchTagAt (c :: rest) with
    | some Length =>
      rw [hM] at h
      injection h with h
      injection h with h1 h2
      subst h1 h2
      have := MatchTagAt_bounds _ _ hM
      omega
    | none =>
      rw [hM] at h
      cases hF : FindNext rest with
      | none => rw [hF] at h; exact Option.noConfusion h
      | some m =>
        obtain ⟨b1, e1⟩ := m
        rw [hF] at h
        injection h with h
        injection h with h1 h2
        subst h1 h2
        have := ih b1 e1 hF
        simp only [List.length_cons]
        omega

/-- Without match the string has no `<` with a `>` somewhere after it. -/
theorem FindNext_eq_none :
    ∀ s : List Nat, FindNext s = none →
      ∀ Pre Mid Post : List Nat, s ≠ Pre ++ '<'.toNat :: (Mid ++ '>'.toNat :: Post) := by
  intro s
  induction s with
  | nil =>
    intro _ Pre Mid Post h
    cases Pre <;> simp at h
  | cons c rest ih =>
    intro hF Pre Mid Post h
    unfold FindNext at hF
    cases hM : MatchTagAt (c :: rest) with
    | some Length => rw [hM] at hF; exact Option.noConfusion hF
    | none =>
      rw [hM] at hF
      have hrest : FindNext rest = none := by
        cases hR : FindNext rest with
        | none => rfl
        | some m => rw [hR] at hF; exact Option.noConfusion hF
      cases Pre with
      | nil =>
        rw [List.nil_append] at h
        injection h with h1 h2
        rw [MatchTagAt_cons, if_pos h1] at hM
        have hmem : '>'.toNat ∈ rest := by
          rw [h2]
          exact List.mem_append_right _ (List.mem_cons_self _ _)
        cases hR : MatchRestOfTag rest with
        | none => exact MatchRestOfTag_of_mem rest hmem hR
        | some m => rw [hR] at hM; exact Option.noConfusion hM
      | cons p Pre1 =>
        rw [List.cons_append] at h
        injection h with h1 h2
        exact ih hrest Pre1 Mid Post h2

end FRegexMatcher

namespace UDlgNode_Speech

theorem FString.length_RemoveAt (s : List Nat) (b e : Nat) (h1 : b + 2 ≤ e)
    (h2 : e ≤ s.length) : (FString.RemoveAt s b (e - b)).length + 2 ≤ s.length := by
  unfold FString.RemoveAt
  simp only [List.length_append, List.length_take, List.length_drop]
  omega

/-- The loop comes to its end within as many turns as the text has characters, plus the one
that finds no match, and leaves a text without match. -/
theorem RemoveTagsFuel_returns :
    ∀ (Fuel : Nat) (SourceText : List Nat), SourceText.length < Fuel →
      ∃ Result : List Nat, RemoveTagsFuel Fuel SourceText = some Result ∧
        FRegexMatcher.FindNext Result = none ∧ Result.length ≤ SourceText.length := by
  intro Fuel
  induction Fuel with
  | zero => intro SourceText h; omega
  | succ Fuel ih =>
    intro SourceText h
    unfold RemoveTagsFuel
    cases hF : FRegexMatcher.FindNext SourceText with
    | none => exact ⟨SourceText, rfl, hF, Nat.le_refl _⟩
    | some m =>
      obtain ⟨b, e⟩ := m
      obtain ⟨h1, h2⟩ := FRegexMatcher.FindNext_bounds SourceText b e hF
      have hlen := FString.length_RemoveAt SourceText b e h1 h2
      obtain ⟨Result, hR, hNone, hLe⟩ := ih (FString.RemoveAt SourceText b (e - b)) (by omega)
      exact ⟨Result, hR, hNone, by omega⟩

end UDlgNode_Speech

namespace UDlgNode_Speech

/-- C30: tag stripping in `RebuildNextSpeechTimer`. For every node text the loop that removes
the leftmost match of `<[^>]*>` and starts over comes to its end, within one turn more than
the text has code units, and the text `SourceText` it leaves has no `<` with a `>` anywhere
after it; so it is for every sequence of code units. With the custom-timer flag off (and
settings at hand) the function returns, and sets the time to the next speech from the length
of `SourceText`, whatever the `float` arithmetic; with the flag on it returns the node as it
was, the time to the next speech included. -/
theorem C30_RebuildNextSpeechTimer_strips_all_tags (This : UDlgNode) :
    (∃ SourceText : List Nat,
      RemoveTagsFuel ((FText.ToString This.Text).length + 1) (FText.ToString This.Text) =
        some SourceText ∧
      (∀ Pre Mid Post : List Nat,
        SourceText ≠ Pre ++ '<'.toNat :: (Mid ++ '>'.toNat :: Post)) ∧
      (This.bCustomTimer = false →
        ∀ (Arithmetic : FFloatArithmetic) (Settings : UDlgSystemSettings),
          RebuildNextSpeechTimer Arithmetic (some Settings) This =
            some (This.SetTimeToNextSpeech
              (if Arithmetic.Greater
                  (Arithmetic.CeilToFloat
                    (Arithmetic.Multiply
                      (Arithmetic.Divide (Arithmetic.OfInt32 (SourceText.length : Int))
                        FFloat.Ten)
                      Settings.SecondsFor10Char))
                  Settings.MinSpeechTime then
                Arithmetic.CeilToFloat
                  (Arithmetic.Multiply
                    (Arithmetic.Divide (Arithmetic.OfInt32 (SourceText.length : Int))
                      FFloat.Ten)
                    Settings.SecondsFor10Char)
              else Settings.MinSpeechTime)))) ∧
    (∀ Units : List Nat, ∃ Result : List Nat,
      RemoveTagsFuel (Units.length + 1) Units = some Result ∧
        ∀ Pre Mid Post : List Nat, Result ≠ Pre ++ '<'.toNat :: (Mid ++ '>'.toNat :: Post)) ∧
    (This.bCustomTimer = true →
      ∀ (Arithmetic : FFloatArithmetic) (Settings0 : Option UDlgSystemSettings),
        RebuildNextSpeechTimer Arithmetic Settings0 This = some This ∧
          (RebuildNextSpeechTimer Arithmetic Settings0 This).map
            (fun Node => Node.fTimeToNextSpeech) = some This.fTimeToNextSpeech) := by
  refine ⟨?_, ?_, ?_⟩
  · obtain ⟨SourceText, hR, hNone, _⟩ :=
      RemoveTagsFuel_returns ((FText.ToString This.Text).length + 1) (FText.ToString This.Text)
        (Nat.lt_succ_self _)
    refine ⟨SourceText, hR, FRegexMatcher.FindNext_eq_none SourceText hNone, ?_⟩
    intro hOff Arithmetic Settings
    unfold RebuildNextSpeechTimer
    rw [hOff, hR]
    rfl
  · intro Units
    obtain ⟨Result, hR, hNone, _⟩ :=
      RemoveTagsFuel_returns (Units.length + 1) Units (Nat.lt_succ_self _)
    exact ⟨Result, hR, FRegexMatcher.FindNext_eq_none Result hNone⟩
  · intro hOn Arithmetic Settings0
    have h : RebuildNextSpeechTimer Arithmetic Settings0 This = some This := by
      unfold RebuildNextSpeechTimer
      rw [hOn]
      rfl
    rw [h]
    exact ⟨rfl, rfl⟩

/-- C30 on `SampleMarkupNode`, whose text has a tag inside another: the loop leaves the ten
code units of "Hi >there>", without any tag; with the custom-timer flag on the node is
returned as it was. -/
theorem C30_RebuildNextSpeechTimer_strips_all_tags_witness :
    (RemoveTagsFuel ((FText.ToString SampleMarkupNode.Text).length + 1)
          (FText.ToString SampleMarkupNode.Text) = some (FText.ToString "Hi >there>") ∧
      (FText.ToString "Hi >there>").length = 10 ∧
      FText.ToString (String.mk [Char.ofNat 0x1F600]) = [0xD83D, 0xDE00] ∧
      ∀ (Arithmetic : FFloatArithmetic) (Settings0 : Option UDlgSystemSettings),
        RebuildNextSpeechTimer Arithmetic Settings0 SampleCustomTimerNode =
          some SampleCustomTimerNode) ∧
    ((∃ SourceText : List Nat,
      RemoveTagsFuel ((FText.ToString SampleMarkupNode.Text).length + 1)
          (FText.ToString SampleMarkupNode.Text) = some SourceText ∧
      (∀ Pre Mid Post : List Nat,
        SourceText ≠ Pre ++ '<'.toNat :: (Mid ++ '>'.toNat :: Post)) ∧
      (SampleMarkupNode.bCustomTimer = false →
        ∀ (Arithmetic : FFloatArithmetic) (Settings : UDlgSystemSettings),
          RebuildNextSpeechTimer Arithmetic (some Settings) SampleMarkupNode =
            some (SampleMarkupNode.SetTimeToNextSpeech
              (if Arithmetic.Greater
                  (Arithmetic.CeilToFloat
                    (Arithmetic.Multiply
                      (Arithmetic.Divide (Arithmetic.OfInt32 (SourceText.length : Int))
                        FFloat.Ten)
                      Settings.SecondsFor10Char))
                  Settings.MinSpeechTime then
                Arithmetic.CeilToFloat
                  (Arithmetic.Multiply
                    (Arithmetic.Divide (Arithmetic.OfInt32 (SourceText.length : Int))
                      FFloat.Ten)
                    Settings.SecondsFor10Char)
              else Settings.MinSpeechTime)))) ∧
    (∀ Units : List Nat, ∃ Result : List Nat,
      RemoveTagsFuel (Units.length + 1) Units = some Result ∧
        ∀ Pre Mid Post : List Nat, Result ≠ Pre ++ '<'.toNat :: (Mid ++ '>'.toNat :: Post)) ∧
    (SampleMarkupNode.bCustomTimer = true →
      ∀ (Arithmetic : FFloatArithmetic) (Settings0 : Option UDlgSystemSettings),
        RebuildNextSpeechTimer Arithmetic Settings0 SampleMarkupNode = some SampleMarkupNode ∧
          (RebuildNextSpeechTimer Arithmetic Settings0 SampleMarkupNode).map
            (fun Node => Node.fTimeToNextSpeech) = some SampleMarkupNode.fTimeToNextSpeech)) :=
  ⟨⟨by decide, by decide, by decide, fun _ _ => rfl⟩,
    C30_RebuildNextSpeechTimer_strips_all_tags SampleMarkupNode⟩

end UDlgNode_Speech

namespace UDlgDialogue

/-! ## No entry under None -/

theorem TMap.Find_append_of_none {K V : Type} [DecidableEq K] (m2 : TMap K V) (Key : K) :
    ∀ m : TMap K V, TMap.Find m Key = none → TMap.Find (m ++ m2) Key = TMap.Find m2 Key := by
  intro m
  induction m with
  | nil => intro _; rfl
  | cons p rest ih =>
    obtain ⟨k, w⟩ := p
    intro h
    by_cases hk : k = Key
    · simp [TMap.Find, hk] at h
    · simp only [TMap.Find, hk, if_false] at h
      simpa [TMap.Find, hk] using ih h

/-- With the check on, the key `GetParticipantDataEntry` writes under is never None. -/
theorem GetParticipantDataEntryName_ne_None (ParticipantName FallbackParticipantName V : FName)
    (h : GetParticipantDataEntryName ParticipantName FallbackParticipantName true = some V) :
    V ≠ NAME_None := by
  unfold GetParticipantDataEntryName at h
  by_cases hv : (if ParticipantName = NAME_None then FallbackParticipantName
      else ParticipantName) = NAME_None
  · simp [hv] at h
  · simp only [hv, decide_False, Bool.and_false, Bool.false_eq_true, if_false] at h
    injection h with h
    rw [← h]
    exact hv

theorem NoNone_GetParticipantDataEntry (Data : TMap FName FDlgParticipantData)
    (ParticipantName FallbackParticipantName : FName)
    (Write : FDlgParticipantData → FDlgParticipantData)
    (h : TMap.Find Data NAME_None = none) :
    TMap.Find (GetParticipantDataEntry Data ParticipantName FallbackParticipantName true Write)
      NAME_None = none := by
  cases hN : GetParticipantDataEntryName ParticipantName FallbackParticipantName true with
  | none =>
    unfold GetParticipantDataEntry
    rw [hN]
    exact h
  | some V =>
    have hV := GetParticipantDataEntryName_ne_None _ _ V hN
    rw [(GetParticipantDataEntry_of_name Data ParticipantName FallbackParticipantName V true
      Write hN).2 NAME_None (fun hEq => hV hEq.symm)]
    exact h

theorem NoNone_AddConditionsData (FallbackParticipantName : FName)
    (Conditions : List FDlgCondition) (Data : TMap FName FDlgParticipantData)
    (h : TMap.Find Data NAME_None = none) :
    TMap.Find (AddConditionsData Data FallbackParticipantName Conditions) NAME_None = none := by
  unfold AddConditionsData
  refine foldl_preserves _ (fun D => TMap.Find D NAME_None = none) ?_ Conditions Data h
  intro D Condition hD
  dsimp only
  have h1 : TMap.Find
      (if Condition.IsParticipantInvolved then
        GetParticipantDataEntry D Condition.ParticipantName FallbackParticipantName true
          (fun Entry => Entry.AddConditionPrimaryData Condition)
      else D) NAME_None = none := by
    split
    · exact NoNone_GetParticipantDataEntry D _ _ _ hD
    · exact hD
  split
  · exact NoNone_GetParticipantDataEntry _ _ _ _ h1
  · exact h1

theorem NoNone_AddConditionsDataFromNodeEdges (Node : UDlgNode)
    (Data : TMap FName FDlgParticipantData) (h : TMap.Find Data NAME_None = none) :
    TMap.Find (AddConditionsDataFromNodeEdges Data Node) NAME_None = none := by
  unfold AddConditionsDataFromNodeEdges
  exact foldl_preserves _ (fun D => TMap.Find D NAME_None = none)
    (fun D Edge hD => NoNone_AddConditionsData _ Edge.Conditions D hD) _ Data h

theorem NoNone_RefreshStartNodes (Env : FDlgRefreshEnv) (b : Bool) :
    ∀ (StartNodes : List UDlgNode) (Data : TMap FName FDlgParticipantData),
      TMap.Find Data NAME_None = none →
      TMap.Find (RefreshStartNodes Env b Data StartNodes).1 NAME_None = none := by
  intro StartNodes
  induction StartNodes with
  | nil => intro Data h; exact h
  | cons StartNode Rest ih =>
    intro Data h
    exact ih _ (NoNone_AddConditionsDataFromNodeEdges StartNode Data h)

/-- The associated participants of a node do not include None. -/
theorem GetAssociatedParticipants_ne_None (Node : UDlgNode) :
    NAME_None ∉ Node.GetAssociatedParticipants [] := by
  have hBase : NAME_None ∉ Node.GetAssociatedParticipantsBase [] := by
    unfold UDlgNode.GetAssociatedParticipantsBase
    split
    · rename_i hOwner
      simp only [TArray.AddUnique, List.not_mem_nil, if_false, List.nil_append,
        List.mem_singleton]
      exact fun hEq => hOwner hEq.symm
    · simp
  unfold UDlgNode.GetAssociatedParticipants
  split
  · obtain ⟨Suffix, hEq, hN, _⟩ := UDlgNode_Speech.GetAssociatedParticipants_loop
      Node.TextArguments (Node.GetAssociatedParticipantsBase [])
    unfold UDlgNode_Speech.GetAssociatedParticipants
    rw [hEq]
    intro hmem
    rcases List.mem_append.mp hmem with h | h
    · exact hBase h
    · exact hN h
  · exact hBase

theorem NoNone_RefreshNode (Env : FDlgRefreshEnv) (b : Bool) (Node0 : UDlgNode)
    (Data : TMap FName FDlgParticipantData) (States : List FName)
    (h : TMap.Find Data NAME_None = none) :
    TMap.Find (RefreshNode Env b Data States Node0).1 NAME_None = none := by
  unfold RefreshNode
  dsimp only
  refine foldl_preserves _ (fun D => TMap.Find D NAME_None = none)
    (fun D _ hD => NoNone_GetParticipantDataEntry D _ _ _ hD) _ _ ?_
  refine foldl_preserves _ (fun D => TMap.Find D NAME_None = none)
    (fun D _ hD => NoNone_GetParticipantDataEntry D _ _ _ hD) _ _ ?_
  refine foldl_preserves _
    (fun (Acc : TMap FName FDlgParticipantData × List FName) =>
      TMap.Find Acc.1 NAME_None = none)
    (fun Acc Edge hAcc => foldl_preserves _ (fun D => TMap.Find D NAME_None = none)
      (fun D _ hD => NoNone_GetParticipantDataEntry D _ _ _ hD) Edge.GetTextArguments Acc.1
      hAcc) _ _ ?_
  apply NoNone_AddConditionsDataFromNodeEdges
  apply NoNone_AddConditionsData
  have hAssoc := GetAssociatedParticipants_ne_None (Env.RebuildAndUpdateNode b Node0)
  generalize (Env.RebuildAndUpdateNode b Node0).GetAssociatedParticipants [] = Participants
    at hAssoc
  induction Participants generalizing Data with
  | nil => exact h
  | cons P Rest ih =>
    rw [List.foldl_cons]
    apply ih
    · split
      · rw [TMap.Find_append_of_none _ _ Data h]
        have hP : P ≠ NAME_None := fun hEq => hAssoc (hEq ▸ List.mem_cons_self _ _)
        simp [TMap.Find, hP]
      · exact h
    · exact fun hmem => hAssoc (List.mem_cons_of_mem _ hmem)

theorem NoNone_RefreshNodes (Env : FDlgRefreshEnv) (b : Bool) :
    ∀ (Nodes : List UDlgNode) (Data : TMap FName FDlgParticipantData) (States : List FName),
      TMap.Find Data NAME_None = none →
      TMap.Find (RefreshNodes Env b Data States Nodes).1 NAME_None = none := by
  intro Nodes
  induction Nodes with
  | nil => intro Data States h; exact h
  | cons Node0 Rest ih =>
    intro Data States h
    exact ih _ _ (NoNone_RefreshNode Env b Node0 Data States h)

end UDlgDialogue

namespace UDlgDialogue

/-! ## C23 -/

/-- C23 fails as stated where a name is unset. In `UnnamedSecondDialogue` the condition
`SampleUnnamedSecondCondition` on the edge of the node of "Guard" involves a second
participant and names none: the refresh files it as secondary condition under "Guard", the
participant name of the owning node, and `ParticipantsData` has no entry under the other
participant name of the condition. In `AnonymousOnlyDialogue` the condition on the edge of
`AnonymousNode` involves a participant, neither the condition nor the node names one, and the
refresh leaves `ParticipantsData` empty: no primary entry is held for it. -/
theorem C23_counterexample :
    UnnamedSecondDialogue.Nodes.map
        (Option.map (fun n =>
          (n.GetNodeParticipantName, n.GetNodeChildren.map (fun Edge => Edge.Conditions)))) =
        [some ("Guard", [[SampleUnnamedSecondCondition]]), some (NAME_None, [])] ∧
      SampleUnnamedSecondCondition.IsSecondParticipantInvolved = true ∧
      SampleUnnamedSecondCondition.OtherParticipantName = NAME_None ∧
      (UpdateAndRefreshData SampleRefreshEnv false UnnamedSecondDialogue).map
          (fun r => r.ParticipantsData) =
        some [("Guard",
          { ConditionsPrimary := [SampleUnnamedSecondCondition]
            ConditionsSecondary := [SampleUnnamedSecondCondition] })] ∧
      (UpdateAndRefreshData SampleRefreshEnv false UnnamedSecondDialogue).map
          (fun r => TMap.Find r.ParticipantsData
            SampleUnnamedSecondCondition.OtherParticipantName) = some none ∧
      (AnonymousNode.GetNodeParticipantName,
          AnonymousNode.GetNodeChildren.map (fun Edge => Edge.Conditions)) =
        (NAME_None, [[SampleCondition]]) ∧
      SampleCondition.IsParticipantInvolved = true ∧
      SampleCondition.ParticipantName = NAME_None ∧
      (UpdateAndRefreshData SampleRefreshEnv false AnonymousOnlyDialogue).map
          (fun r => r.ParticipantsData) = some [] := by
  refine ⟨by decide, rfl, rfl, by decide, by decide, by decide, rfl, rfl, by decide⟩

/-- C23, amended: on a dialogue without null slot the refresh returns, and for every outgoing
edge of every start node and of every regular node, and every condition on that edge:
if the condition involves a participant, the entry of `ParticipantsData` under the
participant name of the condition, or under the participant name of the owning node when the
condition has none, holds the condition as primary condition, when that name `P` is not None;
if the condition involves a second participant, the entry under the other participant name
of the condition, or under the participant name of the owning node when the condition has no
other participant name, holds the condition as secondary condition, when that name `P` is not
None. When the name is None nothing is filed: `ParticipantsData` has no entry under None.
The edges of a regular node are those of the node as rebuilt. The target index of the edges is
not read: `AddConditionsDataFromNodeEdges` gives the same data whatever the targets are, and
so does the whole refresh, for the aggregated data and the speaker states, when the rebuild
of a node (which is not among the sources) does not look at the targets either. -/
theorem C23_edge_conditions_are_aggregated (Env : FDlgRefreshEnv) (b : Bool)
    (d : UDlgDialogue) (hnn : ∀ x ∈ d.StartNodes ++ d.Nodes, x ≠ none) :
    ∃ r : UDlgDialogue, UpdateAndRefreshData Env b d = some r ∧
      (∀ Node : UDlgNode,
        some Node ∈ d.StartNodes ∨
          (∃ Node0 : UDlgNode, some Node0 ∈ d.Nodes ∧
            Node = Env.RebuildAndUpdateNode b Node0) →
        ∀ Edge ∈ Node.GetNodeChildren, ∀ Condition ∈ Edge.Conditions,
          (Condition.IsParticipantInvolved = true → ∀ P : FName,
            P = (if Condition.ParticipantName = NAME_None then Node.GetNodeParticipantName
              else Condition.ParticipantName) →
            P ≠ NAME_None →
            ∃ Entry : FDlgParticipantData,
              TMap.Find r.ParticipantsData P = some Entry ∧
                Condition ∈ Entry.ConditionsPrimary) ∧
          (Condition.IsSecondParticipantInvolved = true → ∀ P : FName,
            P = (if Condition.OtherParticipantName = NAME_None then
              Node.GetNodeParticipantName else Condition.OtherParticipantName) →
            P ≠ NAME_None →
            ∃ Entry : FDlgParticipantData,
              TMap.Find r.ParticipantsData P = some Entry ∧
                Condition ∈ Entry.ConditionsSecondary)) ∧
      TMap.Find r.ParticipantsData NAME_None = none ∧
      (∀ (Data : TMap FName FDlgParticipantData) (Node : UDlgNode) (Target : FDlgEdge → Int),
        AddConditionsDataFromNodeEdges Data (Node.WithTargets Target) =
          AddConditionsDataFromNodeEdges Data Node) ∧
      ∀ Target : FDlgEdge → Int,
        (∀ n : UDlgNode, Env.RebuildAndUpdateNode b (n.WithTargets Target) =
          (Env.RebuildAndUpdateNode b n).WithTargets Target) →
        (UpdateAndRefreshData Env b (d.WithTargets Target)).map
          (fun x => (x.ParticipantsData, x.AllSpeakerStates)) =
          some (r.ParticipantsData, r.AllSpeakerStates) := by
  obtain ⟨S, N, r, hS, hN, hr, hData, hStates, _⟩ := UpdateAndRefreshData_returns Env b d hnn
  refine ⟨r, hr, ?_, ?_, AddConditionsDataFromNodeEdges_WithTargets, ?_⟩
  rotate_left
  · rw [hData]
    exact NoNone_RefreshNodes Env b N _ _ (NoNone_RefreshStartNodes Env b S [] rfl)
  · intro Target hcomm
    have hmap : ∀ l : List UDlgNode,
        TArray.Deref ((l.map some).map (Option.map (fun n => n.WithTargets Target))) =
          some (l.map (fun n => n.WithTargets Target)) := by
      intro l
      rw [List.map_map]
      have hcomp : (Option.map (fun (n : UDlgNode) => n.WithTargets Target) ∘ some) =
          (some ∘ (fun (n : UDlgNode) => n.WithTargets Target)) := rfl
      rw [hcomp, ← List.map_map]
      exact TArray.Deref_map_some _
    have hS2 : TArray.Deref (d.WithTargets Target).StartNodes =
        some (S.map (fun n => n.WithTargets Target)) := by
      unfold UDlgDialogue.WithTargets
      dsimp only
      rw [hS]
      exact hmap S
    have hN2 : TArray.Deref (d.WithTargets Target).Nodes =
        some (N.map (fun n => n.WithTargets Target)) := by
      unfold UDlgDialogue.WithTargets
      dsimp only
      rw [hN]
      exact hmap N
    obtain ⟨C, hC⟩ := UpdateAndRefreshData_eq Env b (d.WithTargets Target) _ _ hS2 hN2
    obtain ⟨h1, h2⟩ := RefreshNodes_WithTargets Env b Target hcomm N
      (RefreshStartNodes Env b [] S).1 []
    rw [hC, hData, hStates]
    simp only [Option.map_some']
    rw [RefreshStartNodes_fst_WithTargets, h1, h2]
  intro Node hNode Edge hE Condition hC
  rw [hData]
  have hAll : ∀ (Q : FDlgParticipantData → Prop), FDlgParticipantData.Stable Q → ∀ P : FName,
      (∀ D, TMap.Holds (AddConditionsDataFromNodeEdges D Node) P Q) →
      TMap.Holds (RefreshNodes Env b (RefreshStartNodes Env b [] S).1 [] N).1 P Q := by
    intro Q hQ P hest
    rcases hNode with hStart | ⟨Node0, hmem, hEq⟩
    · have hmemS : Node ∈ S := by
        rw [hS] at hStart
        simpa using hStart
      exact Holds_refresh_of_start_node Env b Q hQ P S N Node hmemS hest
    · have hmemN : Node0 ∈ N := by
        rw [hN] at hmem
        simpa using hmem
      rw [hEq] at hest
      exact Holds_refresh_of_node_edges Env b Q hQ P S N Node0 hmemN hest
  constructor
  · intro hInvolved P hP hPne
    rw [hP] at hPne
    have hName := GetParticipantDataEntryName_of_set Condition.ParticipantName
      Node.GetNodeParticipantName true hPne
    rw [← hP] at hName
    exact hAll _ (FDlgParticipantData.Stable_ConditionsPrimary Condition) P
      (fun D => Holds_edge_condition_primary Node Edge Condition P hE hC hInvolved hName D)
  · intro hInvolved P hP hPne
    rw [hP] at hPne
    have hName := GetParticipantDataEntryName_of_set Condition.OtherParticipantName
      Node.GetNodeParticipantName true hPne
    rw [← hP] at hName
    exact hAll _ (FDlgParticipantData.Stable_ConditionsSecondary Condition) P
      (fun D => Holds_edge_condition_secondary Node Edge Condition P hE hC hInvolved hName D)

/-- C23, amended, on `TradeDialogue`: the condition on the edge of the start node is held by
"Player" as primary and by "Merchant" as secondary condition, the condition without name on
the edge of the node of the merchant by "Merchant" as primary condition. -/
theorem C23_edge_conditions_are_aggregated_witness :
    (UpdateAndRefreshData SampleRefreshEnv false TradeDialogue).map
        (fun r => r.ParticipantsData) =
      some
        [("Player",
            { ConditionsPrimary :=
                [{ ParticipantName := "Player", OtherParticipantName := "Merchant",
                   CallbackName := "HasGold", bSecondParticipantInvolved := true }] }),
          ("Merchant",
            { ConditionsPrimary := [{ CallbackName := "IsOpen" }]
              ConditionsSecondary :=
                [{ ParticipantName := "Player", OtherParticipantName := "Merchant",
                   CallbackName := "HasGold", bSecondParticipantInvolved := true }] })] ∧
    ∃ r : UDlgDialogue, UpdateAndRefreshData SampleRefreshEnv false TradeDialogue = some r ∧
      (∀ Node : UDlgNode,
        some Node ∈ TradeDialogue.StartNodes ∨
          (∃ Node0 : UDlgNode, some Node0 ∈ TradeDialogue.Nodes ∧
            Node = SampleRefreshEnv.RebuildAndUpdateNode false Node0) →
        ∀ Edge ∈ Node.GetNodeChildren, ∀ Condition ∈ Edge.Conditions,
          (Condition.IsParticipantInvolved = true → ∀ P : FName,
            P = (if Condition.ParticipantName = NAME_None then Node.GetNodeParticipantName
              else Condition.ParticipantName) →
            P ≠ NAME_None →
            ∃ Entry : FDlgParticipantData,
              TMap.Find r.ParticipantsData P = some Entry ∧
                Condition ∈ Entry.ConditionsPrimary) ∧
          (Condition.IsSecondParticipantInvolved = true → ∀ P : FName,
            P = (if Condition.OtherParticipantName = NAME_None then
              Node.GetNodeParticipantName else Condition.OtherParticipantName) →
            P ≠ NAME_None →
            ∃ Entry : FDlgParticipantData,
              TMap.Find r.ParticipantsData P = some Entry ∧
                Condition ∈ Entry.ConditionsSecondary)) ∧
      TMap.Find r.ParticipantsData NAME_None = none ∧
      (∀ (Data : TMap FName FDlgParticipantData) (Node : UDlgNode) (Target : FDlgEdge → Int),
        AddConditionsDataFromNodeEdges Data (Node.WithTargets Target) =
          AddConditionsDataFromNodeEdges Data Node) ∧
      ∀ Target : FDlgEdge → Int,
        (∀ n : UDlgNode, SampleRefreshEnv.RebuildAndUpdateNode false (n.WithTargets Target) =
          (SampleRefreshEnv.RebuildAndUpdateNode false n).WithTargets Target) →
        (UpdateAndRefreshData SampleRefreshEnv false (TradeDialogue.WithTargets Target)).map
          (fun x => (x.ParticipantsData, x.AllSpeakerStates)) =
          some (r.ParticipantsData, r.AllSpeakerStates) :=
  ⟨by decide,
    C23_edge_conditions_are_aggregated SampleRefreshEnv false TradeDialogue
      (by
        intro x hx
        simp only [TradeDialogue, List.cons_append, List.nil_append, List.mem_cons,
          List.not_mem_nil, or_false] at hx
        rcases hx with h | h | h <;> rw [h] <;> exact Option.some_ne_none _)⟩

end UDlgDialogue

end DlgSystem
